import Mathlib

/-!
# APNS push engine: wire format, queues and retry discipline

A shallow embedding of `PushController` (src/src/PushController.cpp), of the
`ApnsMessage` accessors (src/include/apns/ApnsMessage.h) and of the TLS
transport entry points of `SslController` (src/src/SslController.cpp) that
the push engine calls.

Conventions.
* A byte is a natural number below 256; a C string is a list of bytes.
* `unsigned int` is a natural number kept below `2^32` by an explicit `%`;
  `time_t` and `int` are integers.
* A message lives at an address (a natural number); the three queues are
  `std::set<ApnsMessage *>`, embedded as lists of addresses kept in ascending
  order by `setInsert`, so that `begin()` is the head of the list.
* The two implementation-defined choices of C that the code depends on are
  the fields of `Platform`.
* Code that is not among the sources (`ApnsMessage::getPayload`, the inline
  wrappers of `SslController.h`) is modelled from the specification and is
  marked so.
* Where the code dereferences a set iterator after erasing its element by
  key (`_processMessageSendQueue`, `_removeMessageFromQueue`), the iterator
  is taken to yield the address it pointed to before the erase.
* The outside world (clock, TLS library, socket) answers through the `*Io`
  records; a call of `run` reads the clock as one value.
-/

namespace Apns

/-! ## Platform and integer images -/

/-- The implementation-defined choices the code depends on: the byte order of
the host and whether plain `char` is a signed type. -/
structure Platform where
  littleEndian : Bool
  charSigned : Bool
  deriving DecidableEq, Repr

/-- The `w` low-order bytes of `x`, least significant first. -/
def leBytes : Nat → Nat → List Nat
  | 0, _ => []
  | w + 1, x => (x % 256) :: leBytes w (x / 256)

/-- The `w` low-order bytes of `x`, most significant first (network order). -/
def beBytes (w x : Nat) : List Nat := (leBytes w x).reverse

/-- Value of a byte sequence read least significant byte first. -/
def leValue : List Nat → Nat
  | [] => 0
  | b :: bs => b + 256 * leValue bs

/-- Value of a byte sequence read most significant byte first. -/
def beValue (bs : List Nat) : Nat := leValue bs.reverse

/-- The bytes that `memcpy(dst, &x, w)` copies out of a `w`-byte unsigned
integer object holding `x`. -/
def memBytes (pf : Platform) (w x : Nat) : List Nat :=
  if pf.littleEndian then leBytes w x else beBytes w x

/-- The value of an unsigned integer object after `memcpy(&x, src, w)`. -/
def memValue (pf : Platform) (bs : List Nat) : Nat :=
  if pf.littleEndian then leValue bs else beValue bs

/-- Reversal of the `w` bytes of `x`. -/
def bswap (w x : Nat) : Nat := leValue (beBytes w x)

/-- The C library `htonl` on a `uint32_t` argument. -/
def htonl (pf : Platform) (x : Nat) : Nat :=
  if pf.littleEndian then bswap 4 (x % 2 ^ 32) else x % 2 ^ 32

/-- The C library `htons` on a `uint16_t` argument. -/
def htons (pf : Platform) (x : Nat) : Nat :=
  if pf.littleEndian then bswap 2 (x % 2 ^ 16) else x % 2 ^ 16

/-- The C library `ntohl`. -/
def ntohl (pf : Platform) (x : Nat) : Nat := htonl pf x

/-- Conversion of a `char` holding the byte `b` to `int`. -/
def charToInt (pf : Platform) (b : Nat) : Int :=
  if pf.charSigned ∧ 128 ≤ b % 256 then (b % 256 : Nat) - 256 else (b % 256 : Nat)

/-- Conversion of a `time_t` or `int` to `uint32_t`. -/
def toU32 (x : Int) : Nat := (x % 2 ^ 32).toNat

/-! ## C strings and `sscanf` -/

/-- The characters of a C string: those before the first NUL. -/
def cstr (s : List Nat) : List Nat := s.takeWhile (fun c => c ≠ 0)

/-- The contents of a buffer `char dst[n]` after `strncpy(dst, src.c_str(), n)`. -/
def strncpy (n : Nat) (src : List Nat) : List Nat :=
  (cstr src).take n ++ List.replicate (n - ((cstr src).take n).length) 0

/-- Whether `c` is one of `0-9`, `A-F`, `a-f`. -/
def isHexDigit (c : Nat) : Bool :=
  (48 ≤ c && c ≤ 57) || (65 ≤ c && c ≤ 70) || (97 ≤ c && c ≤ 102)

/-- The value of a hexadecimal digit. -/
def hexVal (c : Nat) : Nat :=
  if 48 ≤ c ∧ c ≤ 57 then c - 48
  else if 65 ≤ c ∧ c ≤ 70 then c - 55
  else if 97 ≤ c ∧ c ≤ 102 then c - 87
  else 0

/-- The C library `isspace` in the C locale. -/
def isSpaceChar (c : Nat) : Bool := c = 32 || (9 ≤ c && c ≤ 13)

/-- The C library call `sscanf(tmp, "%x", &tmpi)` on the buffer
`tmp = {c0, c1, 0}` with `c0 ≠ 0`: the value stored (as a 32-bit pattern), or
`none` when no conversion takes place and `tmpi` keeps its value. Leading
white space is skipped and a sign is accepted, as `%x` does; a `0x` with no
digit after it converts to 0, as in glibc. -/
def sscanfHex (c0 c1 : Nat) : Option Nat :=
  if isHexDigit c0 then
    if isHexDigit c1 then some (16 * hexVal c0 + hexVal c1) else some (hexVal c0)
  else if isSpaceChar c0 || c0 = 43 then
    if isHexDigit c1 then some (hexVal c1) else none
  else if c0 = 45 then
    if isHexDigit c1 then some ((2 ^ 32 - hexVal c1) % 2 ^ 32) else none
  else none

/-! ## Messages -/

/-- The data members of `ApnsMessage` that the engine and the payload builder
read or write (`_environment` and `_dictVector` are used by neither). -/
structure ApnsMessage where
  deviceToken : List Nat
  text : List Nat
  soundName : List Nat
  actionKeyCaption : List Nat
  customIdentifier : List Nat
  badgeNumber : Int
  error : Int
  id : Nat
  maxRetries : Nat
  retries : Nat
  expiry : Int
  deriving DecidableEq, Repr

/-- The member `ApnsMessage::retry()`: increments `_retries` (an `unsigned int`)
and reports whether the new value is within `_maxRetries`. -/
def ApnsMessage.retry (m : ApnsMessage) : ApnsMessage × Bool :=
  let r := (m.retries + 1) % 2 ^ 32
  ({ m with retries := r }, !decide (r > m.maxRetries))

/-- `ApnsMessage::PAYLOAD_MAXIMUM_SIZE`, equal to `MAXPAYLOAD_SIZE`. -/
def MAXPAYLOAD_SIZE : Nat := 256

/-- `DEVICE_BINARY_SIZE` of PushController.h. -/
def DEVICE_BINARY_SIZE : Nat := 32

/-- Two lowercase hexadecimal digits of a value below 256. -/
def hex2 (c : Nat) : List Nat :=
  let d := fun n : Nat => if n < 10 then 48 + n else 87 + n
  [d (c / 16 % 16), d (c % 16)]

/-- Modelled from the spec: the JSON escaping of one character by
`ApnsMessage::escape` (ApnsMessage.cpp is not among the sources). Backslash,
double quote and the control characters below 0x20 are backslash-escaped. -/
def escapeChar (c : Nat) : List Nat :=
  if c = 92 then [92, 92]
  else if c = 34 then [92, 34]
  else if c = 10 then [92, 110]
  else if c = 13 then [92, 114]
  else if c = 9 then [92, 116]
  else if c = 8 then [92, 98]
  else if c = 12 then [92, 102]
  else if c < 32 then [92, 117, 48, 48] ++ hex2 c
  else [c]

/-- Modelled from the spec: `ApnsMessage::escape` (ApnsMessage.cpp is not among
the sources), the escaping of a text field. -/
def escape (s : List Nat) : List Nat := s.flatMap escapeChar

/-- Decimal digits of a natural number, with `fuel` bounding their count. -/
def decimalAux : Nat → Nat → List Nat → List Nat
  | 0, _, acc => acc
  | fuel + 1, n, acc =>
    if n < 10 then (48 + n) :: acc else decimalAux fuel (n / 10) ((48 + n % 10) :: acc)

/-- The decimal text of a natural number. -/
def decimal (n : Nat) : List Nat := decimalAux (n + 1) n []

/-- Modelled from the spec: the serialised JSON of a message, before the size
check of `ApnsMessage::getPayload` (ApnsMessage.cpp is not among the
sources). The shape is that of section 4.2: `alert` is a bare string when the
action key caption is empty and the nested object otherwise; `sound` is left
out when empty, `badge` when negative, `id` when empty. -/
def buildPayload (m : ApnsMessage) : List Nat :=
  let quote := fun s : List Nat => [34] ++ escape s ++ [34]
  -- "alert":
  let alert :=
    if m.actionKeyCaption = [] then quote m.text
    else
      -- {"body":
      [123, 34, 98, 111, 100, 121, 34, 58] ++ quote m.text
      -- ,"action-loc-key":
      ++ [44, 34, 97, 99, 116, 105, 111, 110, 45, 108, 111, 99, 45, 107, 101, 121, 34, 58]
      ++ quote m.actionKeyCaption ++ [125]
  -- ,"sound":
  let sound :=
    if m.soundName = [] then [] else [44, 34, 115, 111, 117, 110, 100, 34, 58] ++ quote m.soundName
  -- ,"badge":
  let badge :=
    if m.badgeNumber < 0 then []
    else [44, 34, 98, 97, 100, 103, 101, 34, 58] ++ decimal m.badgeNumber.toNat
  -- ,"id":
  let ident :=
    if m.customIdentifier = [] then []
    else [44, 34, 105, 100, 34, 58] ++ quote m.customIdentifier
  -- {"aps":{"alert":
  [123, 34, 97, 112, 115, 34, 58, 123, 34, 97, 108, 101, 114, 116, 34, 58]
    ++ alert ++ sound ++ badge ++ [125] ++ ident ++ [125]

/-- Modelled from the spec: `ApnsMessage::getPayload` (ApnsMessage.cpp is not
among the sources). It returns the serialised JSON, and fails (throws
`ApnsMessage_Exception`, here `none`) when that is longer than 256 bytes. -/
def ApnsMessage.getPayload (m : ApnsMessage) : Option (List Nat) :=
  if (buildPayload m).length > MAXPAYLOAD_SIZE then none else some (buildPayload m)

/-! ## The enhanced-format packet -/

/-- Size of `ApnsPacket_Enhanced_t`: seven `char` members, no padding. -/
def PACKET_STRUCT_SIZE : Nat := 1 + 4 + 4 + 2 + DEVICE_BINARY_SIZE + 2 + MAXPAYLOAD_SIZE

/-- Offset of `identifier` in `ApnsPacket_Enhanced_t`. -/
def OFF_IDENTIFIER : Nat := 1
/-- Offset of `expiry` in `ApnsPacket_Enhanced_t`. -/
def OFF_EXPIRY : Nat := 5
/-- Offset of `tokenLen` in `ApnsPacket_Enhanced_t`. -/
def OFF_TOKENLEN : Nat := 9
/-- Offset of `deviceToken` in `ApnsPacket_Enhanced_t`. -/
def OFF_DEVICETOKEN : Nat := 11
/-- Offset of `payloadLen` in `ApnsPacket_Enhanced_t`. -/
def OFF_PAYLOADLEN : Nat := 43
/-- Offset of `payload` in `ApnsPacket_Enhanced_t`. -/
def OFF_PAYLOAD : Nat := 45

/-- The image of an object after `memcpy(obj + off, bs, bs.length)`. -/
def poke (buf : List Nat) (off : Nat) (bs : List Nat) : List Nat :=
  buf.take off ++ bs ++ buf.drop (off + bs.length)

/-- The bytes `memcpy(dst, obj + off, n)` copies. -/
def peek (buf : List Nat) (off n : Nat) : List Nat := (buf.drop off).take n

/-- The statement `p.deviceToken[j] = tmpi`. The members of the struct are
contiguous `char` arrays, so an index of 32 or more lands in `payloadLen` and
`payload`; a store past the end of the struct has no defined result (`none`). -/
def storeToken (p : List Nat) (j tmpi : Nat) : Option (List Nat) :=
  if OFF_DEVICETOKEN + j < PACKET_STRUCT_SIZE then
    some (poke p (OFF_DEVICETOKEN + j) [tmpi % 256])
  else none

/-- The loop "Convert the Device Token" of `_sendPayload`, on the characters
of `deviceTokenHex` from index `i` on; `j` is the next index of
`p.deviceToken` and `tmpi` the current value of the scratch integer. -/
def convertDeviceToken : List Nat → Nat → Nat → List Nat → Option (List Nat)
  | [], _, _, p => some p
  | [c0], j, tmpi, p =>
    if c0 = 32 then some p
    else storeToken p j ((sscanfHex c0 0).getD tmpi)
  | c0 :: c1 :: rest, j, tmpi, p =>
    if c0 = 32 then convertDeviceToken (c1 :: rest) j tmpi p
    else
      match storeToken p j ((sscanfHex c0 c1).getD tmpi) with
      | none => none
      | some p1 => convertDeviceToken rest (j + 1) ((sscanfHex c0 c1).getD tmpi) p1

/-- The packet `_sendPayload` assembles for a message whose payload string is
`payloadString`, at clock reading `now`; `tmpi0` is the indeterminate initial
value of the local `tmpi`. -/
def framePacket (pf : Platform) (m : ApnsMessage) (payloadString : List Nat) (now : Int)
    (tmpi0 : Nat) : Option (List Nat) :=
  let deviceTokenHex := cstr m.deviceToken
  let payload := strncpy MAXPAYLOAD_SIZE payloadString
  let payloadLen := payloadString.length
  if payloadLen > MAXPAYLOAD_SIZE then none
  else
    -- bzero(&p, sizeof(p)); p.command = COMMAND_PUSH_ENHANCED
    let p := poke (List.replicate PACKET_STRUCT_SIZE 0) 0 [1]
    let p := poke p OFF_TOKENLEN (memBytes pf 2 (htons pf DEVICE_BINARY_SIZE))
    let p := poke p OFF_PAYLOADLEN (memBytes pf 2 (htons pf payloadLen))
    let p := poke p OFF_IDENTIFIER (memBytes pf 4 (htonl pf m.id))
    let p := poke p OFF_EXPIRY (memBytes pf 4 (htonl pf (toU32 (now + 300))))
    match convertDeviceToken deviceTokenHex 0 tmpi0 p with
    | none => none
    | some p =>
      let p := poke p OFF_PAYLOAD (payload.take payloadLen)
      some (peek p 0 1 ++ peek p OFF_IDENTIFIER 4 ++ peek p OFF_EXPIRY 4 ++ peek p OFF_TOKENLEN 2
        ++ peek p OFF_DEVICETOKEN DEVICE_BINARY_SIZE ++ peek p OFF_PAYLOADLEN 2
        ++ peek p OFF_PAYLOAD payloadLen)

/-! ## The TLS transport (`SslController`) -/

/-- The results of `SSL_get_error` that `write` and `read` tell apart. -/
inductive SslError where
  | none
  | zeroReturn
  | wantRead
  | wantWrite
  | syscall
  | other
  deriving DecidableEq, Repr

/-- What the operating system and the TLS library answer during one call of
`_disconnect`: the results of `SSL_shutdown` and of `close`. -/
structure DisconnectIo where
  shutdownRet : Int
  closeRet : Int
  deriving DecidableEq, Repr

/-- What the TLS library answers during one call of `write`: the results of
`SSL_write` and `SSL_get_error`, and the answers to a `disconnect()`. -/
structure WriteIo where
  sslRet : Int
  sslErr : SslError
  disc : DisconnectIo
  deriving DecidableEq, Repr

/-- What the outside answers during one call of `read`: the result of
`select`, whether the socket is in the returned read set, the results of
`SSL_read` and `SSL_get_error`, the contents of the caller's buffer when the
call returns, and the answers to a `disconnect()`. -/
structure ReadIo where
  selectRet : Int
  readable : Bool
  sslRet : Int
  sslErr : SslError
  buf : List Nat
  disc : DisconnectIo
  deriving DecidableEq, Repr

/-- The data members of `SslController` that its callers can observe. -/
structure SslController where
  initialized : Bool
  connected : Bool
  deriving DecidableEq, Repr

/-- The member `SslController::_deinitialize`. -/
def SslController._deinitialize (_c : SslController) : SslController :=
  { initialized := false, connected := false }

/-- The member `SslController::_disconnect`. -/
def SslController._disconnect (c : SslController) (io : DisconnectIo) : SslController × Bool :=
  if !c.connected then (c, false)
  else if io.shutdownRet = -1 then (c, false)
  else if io.closeRet = -1 then (c, false)
  else (c._deinitialize, true)

/-- Modelled from the spec: the inline wrapper `SslController::disconnect()`
(SslController.h is not among the sources), which forwards to `_disconnect`. -/
def SslController.disconnect (c : SslController) (io : DisconnectIo) : SslController × Bool :=
  c._disconnect io

/-- Modelled from the spec: the inline accessor `SslController::isConnected()`
(SslController.h is not among the sources). -/
def SslController.isConnected (c : SslController) : Bool := c.connected

/-- The member `SslController::_connect`; `ok` tells whether every step of
the set-up (context, certificates, socket, DNS, TCP connect, handshake,
`fcntl`) succeeds. Each failing step runs `_deinitialize` and returns false. -/
def SslController._connect (c : SslController) (ok : Bool) : SslController × Bool :=
  if c.connected then (c, false)
  else if ok then ({ initialized := true, connected := true }, true)
  else (c._deinitialize, false)

/-- Modelled from the spec: the inline wrapper `SslController::connect()`
(SslController.h is not among the sources), which forwards to `_connect`. -/
def SslController.connect (c : SslController) (ok : Bool) : SslController × Bool :=
  c._connect ok

/-- The member `SslController::write`. -/
def SslController.write (c : SslController) (io : WriteIo) : SslController × Int :=
  if !c.connected then (c, -1)
  else
    match io.sslErr with
    | SslError.none => (c, io.sslRet)
    | SslError.zeroReturn => ((c.disconnect io.disc).1, -1)
    | SslError.wantWrite => (c, 0)
    | SslError.wantRead => (c, 0)
    | SslError.syscall => ((c.disconnect io.disc).1, -1)
    | SslError.other => ((c.disconnect io.disc).1, -1)

/-- The member `SslController::read`. -/
def SslController.read (c : SslController) (io : ReadIo) : SslController × Int :=
  if !c.connected then (c, -1)
  else if io.selectRet = -1 then (c, -1)
  else if !io.readable then (c, -1)
  else
    match io.sslErr with
    | SslError.none => (c, io.sslRet)
    | SslError.wantRead => (c, io.sslRet)
    | SslError.zeroReturn => ((c.disconnect io.disc).1, io.sslRet)
    | SslError.syscall => ((c.disconnect io.disc).1, -1)
    | SslError.wantWrite => ((c.disconnect io.disc).1, -1)
    | SslError.other => ((c.disconnect io.disc).1, -1)

/-! ## Queues -/

/-- The member `std::set::insert` on an ascending list of addresses. -/
def setInsert (x : Nat) : List Nat → List Nat
  | [] => [x]
  | y :: ys => if x < y then x :: y :: ys else if x = y then y :: ys else y :: setInsert x ys

/-- The member `std::set::erase` by key. -/
def setErase (x : Nat) (q : List Nat) : List Nat := q.filter (fun y => y ≠ x)

/-! ## The push engine (`PushController`) -/

/-- `PushController::CONNECT_RETRY_TIMEOUT`. -/
def CONNECT_RETRY_TIMEOUT : Int := 60
/-- `PushController::DEFAULT_STATS_INTERVAL`. -/
def DEFAULT_STATS_INTERVAL : Int := 3600
/-- `PushController::ERROR_RESPONSE_SIZE`. -/
def ERROR_RESPONSE_SIZE : Nat := 6
/-- `PushController::ERROR_RESPONSE_COMMAND`. -/
def ERROR_RESPONSE_COMMAND : Int := 8
/-- `PushController::ERR_INVALID_PAYLOAD_SIZE`. -/
def ERR_INVALID_PAYLOAD_SIZE : Int := 7

/-- The struct `ApnsResponse_t`. -/
structure ApnsResponse where
  command : Nat
  status : Nat
  identifier : List Nat
  deriving DecidableEq, Repr

/-- One call of the transport's `write` made by `_sendPayload`: the address of
the message, the message as it was at the call, and the packet handed over. -/
structure WriteCall where
  ptr : Nat
  msg : ApnsMessage
  packet : List Nat
  deriving DecidableEq, Repr

/-- The state of a `PushController`: the transport it inherits, the memory
holding the messages, the three queues and the scalar members. `destroyed`
records the addresses whose message the engine has deleted, and `writeLog`
the calls of `write` made so far; neither is read by the code. -/
structure PushController extends SslController where
  heap : Nat → ApnsMessage
  messageSendQueue : List Nat
  messageStageQueue : List Nat
  messageErrorQueue : List Nat
  timeout : Int
  logStatsInterval : Int
  connectRetryTimeout : Int
  lastActivityTs : Int
  connectRetryTs : Int
  logStatsTs : Int
  lastId : Nat
  numStatsSent : Nat
  numStatsError : Nat
  numStatsDisconnected : Nat
  destroyed : List Nat
  writeLog : List WriteCall

/-- The constructor `PushController::PushController` at clock reading `now`.
It does not assign `_connectRetryTs`, whose value `connectRetryTs0` is
indeterminate; `heap0` is the memory as the caller has it. -/
def PushController.new (timeout now connectRetryTs0 : Int) (heap0 : Nat → ApnsMessage) :
    PushController :=
  { initialized := false
    connected := false
    heap := heap0
    messageSendQueue := []
    messageStageQueue := []
    messageErrorQueue := []
    timeout := timeout
    logStatsInterval := DEFAULT_STATS_INTERVAL
    connectRetryTimeout := CONNECT_RETRY_TIMEOUT
    lastActivityTs := now
    connectRetryTs := connectRetryTs0
    logStatsTs := now + DEFAULT_STATS_INTERVAL
    lastId := 0
    numStatsSent := 0
    numStatsError := 0
    numStatsDisconnected := 0
    destroyed := []
    writeLog := [] }

/-- The effect of `delete aMessage` on the record of destroyed messages. -/
def PushController.delete (s : PushController) (p : Nat) : PushController :=
  { s with destroyed := setInsert p s.destroyed }

/-- The caller's `new ApnsMessage(...)` followed by its setters: the message
`m` now lives at address `p`. -/
def PushController.construct (s : PushController) (p : Nat) (m : ApnsMessage) : PushController :=
  { s with heap := Function.update s.heap p m, destroyed := setErase p s.destroyed }

/-- The member `PushController::_add` at clock reading `now`. -/
def PushController._add (s : PushController) (aMessage : Nat) (now : Int) : PushController :=
  let lastId := (s.lastId + 1) % 2 ^ 32
  { s with
    lastId := lastId
    heap := Function.update s.heap aMessage { s.heap aMessage with id := lastId % 1024 }
    lastActivityTs := now
    messageSendQueue := setInsert aMessage s.messageSendQueue }

/-- The member `PushController::add`. -/
def PushController.add (s : PushController) (aMessage : Nat) (now : Int) : PushController :=
  s._add aMessage now

/-- The member `PushController::_remove`. -/
def PushController._remove (s : PushController) (aMessage : Nat) : PushController × Bool :=
  if aMessage ∉ s.messageSendQueue then (s, false)
  else
    (({ s with messageSendQueue := setErase aMessage s.messageSendQueue }).delete aMessage, true)

/-- The member `PushController::remove`. -/
def PushController.remove (s : PushController) (aMessage : Nat) : PushController × Bool :=
  s._remove aMessage

/-- The member `PushController::_findById`: the first message of the stage
queue, in iteration order, whose id is `id`. -/
def PushController._findById (s : PushController) (id : Nat) : Option Nat :=
  s.messageStageQueue.find? (fun p => (s.heap p).id = id)

/-- The member `PushController::_removeMessageFromQueue`; `none` stands for
the `PushController_Exception` thrown when the message is not staged. -/
def PushController._removeMessageFromQueue (s : PushController) (aMessage : Nat) (error : Bool) :
    Option PushController :=
  if aMessage ∉ s.messageStageQueue then none
  else
    let s1 := { s with messageStageQueue := setErase aMessage s.messageStageQueue }
    if error then some { s1 with messageErrorQueue := setInsert aMessage s1.messageErrorQueue }
    else some (s1.delete aMessage)

/-- The member `PushController::_processResponseFromApns`. -/
def PushController._processResponseFromApns (pf : Platform) (s : PushController)
    (r : ApnsResponse) : Option PushController :=
  let identifier := ntohl pf (memValue pf r.identifier)
  if charToInt pf r.command ≠ ERROR_RESPONSE_COMMAND then some s
  else
    match s._findById identifier with
    | none => some s
    | some aMessage =>
      match s._removeMessageFromQueue aMessage true with
      | none => none
      | some s1 =>
        some { s1 with
          heap := Function.update s1.heap aMessage
            { s1.heap aMessage with error := charToInt pf r.status } }

/-- The member `PushController::_readResponseFromApns`. -/
def PushController._readResponseFromApns (pf : Platform) (s : PushController) (io : ReadIo) :
    Option (PushController × Int) :=
  let ret := (s.toSslController.read io).2
  let s1 := { s with toSslController := (s.toSslController.read io).1 }
  if ret < 1 then some (s1, -1)
  else
    let r : ApnsResponse :=
      { command := (peek io.buf 0 1).headD 0
        status := (peek io.buf 1 1).headD 0
        identifier := peek io.buf 2 4 }
    match s1._processResponseFromApns pf r with
    | none => none
    | some s2 => some (s2, ret)

/-- What the outside answers during one call of `_sendPayload`: the
indeterminate initial value of the local `tmpi` and the answers to `write`. -/
structure SendIo where
  tmpi0 : Nat
  write : WriteIo
  deriving DecidableEq, Repr

/-- The member `PushController::_sendPayload` at clock reading `now`. The
result is `none` when `_removeMessageFromQueue` throws or when the token
conversion stores past the end of the packet struct. -/
def PushController._sendPayload (pf : Platform) (s : PushController) (aMessage : Nat) (now : Int)
    (io : SendIo) : Option (PushController × Bool) :=
  let m := ((s.heap aMessage).retry).1
  let s0 := { s with heap := Function.update s.heap aMessage m }
  if !((s.heap aMessage).retry).2 then
    match s0._removeMessageFromQueue aMessage false with
    | none => none
    | some s1 => some (s1, false)
  else
    match m.getPayload with
    | none =>
      let s1 := { s0 with
        heap := Function.update s0.heap aMessage { m with error := ERR_INVALID_PAYLOAD_SIZE } }
      match s1._removeMessageFromQueue aMessage true with
      | none => none
      | some s2 => some (s2, false)
    | some payloadString =>
      match framePacket pf m payloadString now io.tmpi0 with
      | none => none
      | some packet =>
        let packetLen : Int := ((OFF_PAYLOAD + payloadString.length : Nat) : Int)
        let ret := (s0.toSslController.write io.write).2
        let s1 := { s0 with
          toSslController := (s0.toSslController.write io.write).1
          writeLog := s0.writeLog ++ [WriteCall.mk aMessage m packet] }
        let s2 :=
          if ret < 1 ∨ ret ≠ packetLen then
            { s1 with
              messageStageQueue := setErase aMessage s1.messageStageQueue
              messageSendQueue := setInsert aMessage s1.messageSendQueue }
          else s1
        some ({ s2 with numStatsSent := (s2.numStatsSent + 1) % 2 ^ 32 }, decide (ret ≠ 0))

/-- What the outside answers during one iteration of the loop of
`_processMessageSendQueue`. -/
structure LoopIo where
  send : SendIo
  read : ReadIo
  disc : DisconnectIo
  deriving DecidableEq, Repr

/-- What the outside answers during one call of `run`: the clock reading, the
outcome of a `connect()`, the answers for each iteration of the send loop,
and the answers to the `disconnect()` of `_expireIdleConnection`. -/
structure TickIo where
  now : Int
  connectOk : Bool
  loop : Nat → LoopIo
  idleDisc : DisconnectIo

/-- One iteration of the `while` loop of `_processMessageSendQueue`, for the
message `ptr` at the head of `processQueue`. -/
def PushController.sendLoopBody (pf : Platform) (now : Int) (io : LoopIo) (s : PushController)
    (ptr : Nat) : Option PushController :=
  let s1 := { s with
    messageStageQueue := setInsert ptr s.messageStageQueue
    messageSendQueue := setErase ptr s.messageSendQueue }
  match s1._sendPayload pf ptr now io.send with
  | none => none
  | some r =>
    match r.1._readResponseFromApns pf io.read with
    | none => none
    | some rr =>
      if rr.2 > 0 then
        some { rr.1 with
          toSslController := (rr.1.toSslController.disconnect io.disc).1
          numStatsDisconnected := (rr.1.numStatsDisconnected + 1) % 2 ^ 32
          numStatsError := (rr.1.numStatsError + 1) % 2 ^ 32 }
      else some rr.1

/-- The `while` loop of `_processMessageSendQueue` over the local copy
`processQueue` of the send queue; `k` counts the iterations made. -/
def PushController.sendLoop (pf : Platform) (now : Int) (io : Nat → LoopIo) :
    List Nat → Nat → PushController → Option PushController
  | [], _, s => some s
  | ptr :: processQueue, k, s =>
    if !s.isConnected then some s
    else
      match s.sendLoopBody pf now (io k) ptr with
      | none => none
      | some s1 => PushController.sendLoop pf now io processQueue (k + 1) s1

/-- The member `PushController::_processMessageSendQueue`. -/
def PushController._processMessageSendQueue (pf : Platform) (s : PushController) (io : TickIo) :
    Option PushController :=
  if s.messageSendQueue = [] then some s
  else if !s.isConnected && !(s.toSslController.connect io.connectOk).2 then
    some { s with
      toSslController := (s.toSslController.connect io.connectOk).1
      connectRetryTs := io.now + s.connectRetryTimeout }
  else
    PushController.sendLoop pf io.now io.loop s.messageSendQueue 0
      (if !s.isConnected then
        { s with toSslController := (s.toSslController.connect io.connectOk).1 }
       else s)

/-- The member `PushController::_expireIdleConnection`. -/
def PushController._expireIdleConnection (s : PushController) (now : Int) (io : DisconnectIo) :
    PushController :=
  if s.timeout = 0 || !s.isConnected then s
  else if now < s.lastActivityTs + s.timeout then s
  else { s with toSslController := (s.toSslController.disconnect io).1 }

/-- The first loop of `_removeExpiredMessagesFromQueue`: the set `removeMe`. -/
def expiredOf (heap : Nat → ApnsMessage) (now : Int) (messageQueue : List Nat) : List Nat :=
  messageQueue.foldl (fun removeMe p => if now > (heap p).expiry then setInsert p removeMe
    else removeMe) []

/-- The member `PushController::_removeExpiredMessagesFromQueue` on a queue:
the queue afterwards, the messages deleted, and the count returned (an
`unsigned int`). The second loop reaches `delete (*ptr)` through the iterator
of the element it has just erased from `removeMe`; it is taken to delete the
message that element held. -/
def _removeExpiredMessagesFromQueue (heap : Nat → ApnsMessage) (now : Int)
    (messageQueue : List Nat) : List Nat × List Nat × Nat :=
  let removeMe := expiredOf heap now messageQueue
  (removeMe.foldl (fun q p => setErase p q) messageQueue, removeMe, removeMe.length % 2 ^ 32)

/-- The member `PushController::_logStats`. -/
def PushController._logStats (s : PushController) (now : Int) : PushController :=
  { s with
    logStatsTs := now + s.logStatsInterval
    numStatsSent := 0
    numStatsError := 0
    numStatsDisconnected := 0 }

/-- The member `PushController::run`; the clock is read as `io.now`
throughout the call. -/
def PushController.run (pf : Platform) (s : PushController) (io : TickIo) :
    Option (PushController × Bool) :=
  if io.now < s.connectRetryTs then some (s, false)
  else
    match (if io.now > s.logStatsTs then s._logStats io.now else s)._processMessageSendQueue
        pf io with
    | none => none
    | some s2 =>
      let s3 := s2._expireIdleConnection io.now io.idleDisc
      let st := _removeExpiredMessagesFromQueue s3.heap io.now s3.messageStageQueue
      let s4 := { s3 with
        messageStageQueue := st.1
        destroyed := st.2.1.foldl (fun d p => setInsert p d) s3.destroyed }
      let er := _removeExpiredMessagesFromQueue s4.heap io.now s4.messageErrorQueue
      some ({ s4 with
        messageErrorQueue := er.1
        destroyed := er.2.1.foldl (fun d p => setInsert p d) s4.destroyed }, true)

/-! ## Histories of caller operations -/

/-- An operation of the caller on the engine: construct a message at an
address and `add` it, `remove` a message, or call `run`. -/
inductive Op where
  | add (aMessage : Nat) (m : ApnsMessage) (now : Int)
  | remove (aMessage : Nat)
  | run (io : TickIo)

/-- The state after one operation; `none` when `run` does not return. -/
def PushController.step (pf : Platform) (s : PushController) : Op → Option PushController
  | Op.add aMessage m now => some ((s.construct aMessage m).add aMessage now)
  | Op.remove aMessage => some (s.remove aMessage).1
  | Op.run io => (s.run pf io).map Prod.fst

/-- The state after a sequence of operations. -/
def PushController.exec (pf : Platform) : PushController → List Op → Option PushController
  | s, [] => some s
  | s, op :: ops =>
    match s.step pf op with
    | none => none
    | some s1 => PushController.exec pf s1 ops

/-- Whether every `add` of the sequence is of a message the engine does not
hold, in any of the three queues, at that moment. -/
def freshAdds (pf : Platform) : PushController → List Op → Bool
  | _, [] => true
  | s, op :: ops =>
    (match op with
      | Op.add aMessage _ _ =>
        decide (aMessage ∉ s.messageSendQueue) && decide (aMessage ∉ s.messageStageQueue)
          && decide (aMessage ∉ s.messageErrorQueue)
      | _ => true)
    && (match s.step pf op with
      | none => true
      | some s1 => freshAdds pf s1 ops)

/-- The number of `add` operations in a sequence. -/
def addCount : List Op → Nat
  | [] => 0
  | Op.add _ _ _ :: ops => addCount ops + 1
  | _ :: ops => addCount ops

/-- The addresses passed to `add` in a sequence. -/
def addedMessages : List Op → List Nat
  | [] => []
  | Op.add aMessage _ _ :: ops => aMessage :: addedMessages ops
  | _ :: ops => addedMessages ops

/-! ## The feedback poller (`FeedbackController`) -/

/-- `FeedbackController::FEEDBACK_RESPONSE_SIZE`. -/
def FEEDBACK_RESPONSE_SIZE : Nat := 38

/-- Size in bytes of a `time_t` object (64-bit Linux). -/
def SIZEOF_TIME_T : Nat := 8

/-- Size in bytes of an `unsigned int` object. -/
def SIZEOF_UNSIGNED_INT : Nat := 4

/-- The C library `ntohs`. -/
def ntohs (pf : Platform) (x : Nat) : Nat := htons pf x

/-- The value of an unsigned integer object of `w` bytes that held `old`
after `memcpy(&x, src, n)` with `n` the length of `src`: the first bytes in
memory are those of `src`, the others are as they were. -/
def memcpyInto (pf : Platform) (w old : Nat) (src : List Nat) : Nat :=
  memValue pf (src ++ (memBytes pf w old).drop src.length)

/-- Modelled from the spec: the struct `ApnsFeedbackResponse_t`
(FeedbackController.h is not among the sources), three `char` arrays of 4, 2
and 32 bytes as the `memcpy` calls of `_readFeedbackFromApns` fill them. -/
structure ApnsFeedbackResponse where
  timestamp : List Nat
  tokenLen : List Nat
  deviceToken : List Nat
  deriving DecidableEq, Repr

/-- Modelled from the spec: the class `FeedbackMessage` (FeedbackController.h
is not among the sources), holding the three arguments of its constructor. -/
structure FeedbackMessage where
  timestamp : Nat
  tokenLen : Nat
  deviceToken : List Nat
  deriving DecidableEq, Repr

/-- Modelled from the spec: `ApnsAbstract::_binaryToDeviceToken`
(ApnsAbstract.cpp is not among the sources), the lowercase hexadecimal
string, two digits per byte and no separators, of the first `len` bytes. -/
def _binaryToDeviceToken (bytes : List Nat) (len : Nat) : List Nat :=
  (bytes.take len).flatMap hex2

/-- The data members of a `FeedbackController`: the transport it inherits,
the poll interval, the time of the next poll and the feedback queue.
Modelled from the spec: `_messageFeedbackQueue` (FeedbackController.h is not
among the sources) is kept as the list of the records inserted, oldest
first. -/
structure FeedbackController extends SslController where
  timeout : Int
  nextCheckTs : Int
  messageFeedbackQueue : List FeedbackMessage
  deriving DecidableEq, Repr

/-- The constructor `FeedbackController::FeedbackController` at clock reading
`now`. -/
def FeedbackController.new (timeout now : Int) : FeedbackController :=
  { initialized := false
    connected := false
    timeout := timeout
    nextCheckTs := now + timeout
    messageFeedbackQueue := [] }

/-- What the outside answers during one call of `FeedbackController::run`:
the clock reading, the outcome of a `connect()`, the answers to the one call
of `read`, the indeterminate initial values of the locals `timestamp` and
`tokenLen` of `_processFeedbackFromApns`, and the answers to the final
`disconnect()`. -/
structure FeedbackIo where
  now : Int
  connectOk : Bool
  read : ReadIo
  timestamp0 : Nat
  tokenLen0 : Nat
  disc : DisconnectIo
  deriving DecidableEq, Repr

/-- The member `FeedbackController::_processFeedbackFromApns`. The four bytes
of the timestamp are copied into the first bytes of a `time_t` and the two
bytes of the token length into the first bytes of an `unsigned int`; the
other bytes of the two locals keep their indeterminate values `timestamp0`
and `tokenLen0`. `ntohl` and `ntohs` convert their argument to `uint32_t`
and `uint16_t`. -/
def FeedbackController._processFeedbackFromApns (pf : Platform) (s : FeedbackController)
    (r : ApnsFeedbackResponse) (timestamp0 tokenLen0 : Nat) : FeedbackController :=
  let timestamp := memcpyInto pf SIZEOF_TIME_T timestamp0 r.timestamp
  let tokenLen := memcpyInto pf SIZEOF_UNSIGNED_INT tokenLen0 r.tokenLen
  let binaryDeviceToken := r.deviceToken
  let timestamp := ntohl pf timestamp
  let tokenLen := ntohs pf tokenLen
  let deviceToken := _binaryToDeviceToken binaryDeviceToken DEVICE_BINARY_SIZE
  { s with
    messageFeedbackQueue := s.messageFeedbackQueue ++ [FeedbackMessage.mk timestamp tokenLen
      deviceToken] }

/-- The member `FeedbackController::_readFeedbackFromApns`: one call of
`read` for 38 bytes and, when it returns at least 1, one call of
`_processFeedbackFromApns`. -/
def FeedbackController._readFeedbackFromApns (pf : Platform) (s : FeedbackController)
    (io : FeedbackIo) : FeedbackController :=
  let ret := (s.toSslController.read io.read).2
  let s1 := { s with toSslController := (s.toSslController.read io.read).1 }
  if ret < 1 then s1
  else
    let r : ApnsFeedbackResponse :=
      { timestamp := peek io.read.buf 0 4
        tokenLen := peek io.read.buf 4 2
        deviceToken := peek io.read.buf 6 DEVICE_BINARY_SIZE }
    s1._processFeedbackFromApns pf r io.timestamp0 io.tokenLen0

/-- The member `FeedbackController::run`; the clock is read as `io.now`
throughout the call. -/
def FeedbackController.run (pf : Platform) (s : FeedbackController) (io : FeedbackIo) :
    FeedbackController × Bool :=
  if io.now < s.nextCheckTs then (s, false)
  else
    let s1 := { s with nextCheckTs := io.now + s.timeout }
    if !s1.isConnected && !(s1.toSslController.connect io.connectOk).2 then
      ({ s1 with toSslController := (s1.toSslController.connect io.connectOk).1 }, false)
    else
      let s2 :=
        if !s1.isConnected then
          { s1 with toSslController := (s1.toSslController.connect io.connectOk).1 }
        else s1
      let s3 := s2._readFeedbackFromApns pf io
      ({ s3 with toSslController := (s3.toSslController.disconnect io.disc).1 }, true)

/-! ## Specification-level definitions -/

/-- The bytes the token loop stores, in order, for the characters `l` and the
scratch value `tmpi`: the loop of `convertDeviceToken` without the struct. -/
def tokenBytes : List Nat → Nat → List Nat
  | [], _ => []
  | [c0], tmpi => if c0 = 32 then [] else [(sscanfHex c0 0).getD tmpi % 256]
  | c0 :: c1 :: rest, tmpi =>
    if c0 = 32 then tokenBytes (c1 :: rest) tmpi
    else ((sscanfHex c0 c1).getD tmpi % 256) :: tokenBytes rest ((sscanfHex c0 c1).getD tmpi)

/-- A device-token string with its spaces removed. -/
def stripSpaces (s : List Nat) : List Nat := s.filter (fun c => c ≠ 32)

/-- The bytes denoted by a string of hexadecimal digits: byte `k` is made of
the digits `2k` and `2k+1`. -/
def hexPairs : List Nat → List Nat
  | a :: b :: rest => (16 * hexVal a + hexVal b) :: hexPairs rest
  | _ => []

/-- A device-token string made of two-digit hexadecimal pairs, with spaces
only before, between or after the pairs. -/
def pairAligned : List Nat → Bool
  | [] => true
  | [c0] => c0 = 32
  | c0 :: c1 :: rest =>
    if c0 = 32 then pairAligned (c1 :: rest)
    else isHexDigit c0 && isHexDigit c1 && pairAligned rest

/-! ## Example data -/

/-- The device token of the happy-path scenario,
`0102030405060708 090a0b0c0d0e0f10 1112131415161718 191a1b1c1d1e1f20`. -/
def exampleToken : List Nat :=
  [48, 49, 48, 50, 48, 51, 48, 52, 48, 53, 48, 54, 48, 55, 48, 56, 32,
   48, 57, 48, 97, 48, 98, 48, 99, 48, 100, 48, 101, 48, 102, 49, 48, 32,
   49, 49, 49, 50, 49, 51, 49, 52, 49, 53, 49, 54, 49, 55, 49, 56, 32,
   49, 57, 49, 97, 49, 98, 49, 99, 49, 100, 49, 101, 49, 102, 50, 48]

/-- The happy-path message: text `hi`, badge 3, two retries allowed. -/
def exampleMessage : ApnsMessage :=
  { deviceToken := exampleToken
    text := [104, 105]
    soundName := []
    actionKeyCaption := []
    customIdentifier := []
    badgeNumber := 3
    error := 0
    id := 0
    maxRetries := 2
    retries := 0
    expiry := 5000 }

/-- A little-endian platform with signed `char` (x86-64 Linux). -/
def examplePlatform : Platform := { littleEndian := true, charSigned := true }

/-- A freshly constructed engine at clock reading 1000 with the happy-path
message constructed at address 10 and added. -/
def exampleEngine : PushController :=
  ((PushController.new 0 1000 0 (fun _ => exampleMessage)).construct 10 exampleMessage).add 10 1000

/-- `exampleEngine` with its message moved to the stage queue and the
transport connected, as at the call of `_sendPayload` in the send loop. -/
def exampleStaged : PushController :=
  { exampleEngine with
    connected := true
    initialized := true
    messageSendQueue := []
    messageStageQueue := [10] }

/-- Answers of a transport that accepts the whole 77-byte packet. -/
def exampleSendIo : SendIo :=
  { tmpi0 := 0, write := { sslRet := 77, sslErr := SslError.none, disc := ⟨0, 0⟩ } }

/-! ## Predicates on engine states -/

/-- A message is in at most one of the send queue, the stage queue, the error
queue and the record of destroyed messages. -/
def QueuesDisjoint (s : PushController) : Prop :=
  ∀ p,
    (p ∈ s.messageSendQueue →
      p ∉ s.messageStageQueue ∧ p ∉ s.messageErrorQueue ∧ p ∉ s.destroyed) ∧
    (p ∈ s.messageStageQueue → p ∉ s.messageErrorQueue ∧ p ∉ s.destroyed) ∧
    (p ∈ s.messageErrorQueue → p ∉ s.destroyed)

/-- A message is in one of the three queues or recorded as destroyed. -/
def Tracked (s : PushController) (p : Nat) : Prop :=
  p ∈ s.messageSendQueue ∨ p ∈ s.messageStageQueue ∨ p ∈ s.messageErrorQueue ∨ p ∈ s.destroyed

/-- The queues, the memory and the two records are the same in both states. -/
def SameMessages (s s1 : PushController) : Prop :=
  s1.messageSendQueue = s.messageSendQueue ∧ s1.messageStageQueue = s.messageStageQueue ∧
  s1.messageErrorQueue = s.messageErrorQueue ∧ s1.destroyed = s.destroyed ∧
  s1.heap = s.heap ∧ s1.writeLog = s.writeLog

/-- From `s` to `s1`, either nothing happened to the messages, or one staged
message `p` went to the error queue with its error field set. -/
def ErrorMove (s s1 : PushController) : Prop :=
  SameMessages s s1 ∨
  ∃ p st, p ∈ s.messageStageQueue ∧
    s1.messageSendQueue = s.messageSendQueue ∧
    s1.messageStageQueue = setErase p s.messageStageQueue ∧
    s1.messageErrorQueue = setInsert p s.messageErrorQueue ∧
    s1.destroyed = s.destroyed ∧
    s1.heap = Function.update s.heap p { s.heap p with error := st } ∧
    s1.writeLog = s.writeLog

/-- What a returning call of `_sendPayload` on the staged message `p` does to
the messages: the message is discarded (retry check failed), or sent to the
error queue (payload failure), or written and pushed back to the send queue,
or written and left staged. -/
def SendOutcome (s : PushController) (p : Nat) (s2 : PushController) : Prop :=
  ((s.heap p).retry.2 = false ∧
    s2.messageSendQueue = s.messageSendQueue ∧
    s2.messageStageQueue = setErase p s.messageStageQueue ∧
    s2.messageErrorQueue = s.messageErrorQueue ∧
    s2.destroyed = setInsert p s.destroyed ∧
    s2.heap = Function.update s.heap p (s.heap p).retry.1 ∧
    s2.writeLog = s.writeLog) ∨
  ((s.heap p).retry.2 = true ∧ (s.heap p).getPayload = none ∧
    s2.messageSendQueue = s.messageSendQueue ∧
    s2.messageStageQueue = setErase p s.messageStageQueue ∧
    s2.messageErrorQueue = setInsert p s.messageErrorQueue ∧
    s2.destroyed = s.destroyed ∧
    s2.heap = Function.update s.heap p
      { (s.heap p).retry.1 with error := ERR_INVALID_PAYLOAD_SIZE } ∧
    s2.writeLog = s.writeLog) ∨
  ((s.heap p).retry.2 = true ∧ (∃ pkt,
      s2.writeLog = s.writeLog ++ [WriteCall.mk p (s.heap p).retry.1 pkt]) ∧
    s2.messageSendQueue = setInsert p s.messageSendQueue ∧
    s2.messageStageQueue = setErase p s.messageStageQueue ∧
    s2.messageErrorQueue = s.messageErrorQueue ∧
    s2.destroyed = s.destroyed ∧
    s2.heap = Function.update s.heap p (s.heap p).retry.1) ∨
  ((s.heap p).retry.2 = true ∧ (∃ pkt,
      s2.writeLog = s.writeLog ++ [WriteCall.mk p (s.heap p).retry.1 pkt]) ∧
    s2.messageSendQueue = s.messageSendQueue ∧
    s2.messageStageQueue = s.messageStageQueue ∧
    s2.messageErrorQueue = s.messageErrorQueue ∧
    s2.destroyed = s.destroyed ∧
    s2.heap = Function.update s.heap p (s.heap p).retry.1)

/-- Answers of a transport on which nothing goes wrong and nothing arrives:
every packet of 77 bytes is written whole and no response is readable. -/
def exampleLoopIo : LoopIo :=
  { send := exampleSendIo
    read := { selectRet := 0, readable := false, sslRet := 0, sslErr := SslError.none, buf := [],
              disc := ⟨0, 0⟩ }
    disc := ⟨0, 0⟩ }

/-- A tick at clock reading 1000 on the quiet transport. -/
def exampleTick : TickIo :=
  { now := 1000, connectOk := true, loop := fun _ => exampleLoopIo, idleDisc := ⟨0, 0⟩ }

/-- A history: two happy-path messages are added at addresses 10 and 20, then
`run` is called once. -/
def exampleHistory : List Op :=
  [Op.add 10 exampleMessage 1000, Op.add 20 exampleMessage 1000, Op.run exampleTick]

/-- The retry budget of the message at address `p` with `M` retries allowed,
relative to the write log `L0` at the time it was enqueued: the calls of
`write` made since then for `p` number at most `M`, each was made with the
retries counter within `M`, and while the message waits in the send queue
its counter bounds the calls made and is itself within `M`. -/
def RetryBudget (L0 : List WriteCall) (p M : Nat) (s : PushController) : Prop :=
  ∃ new, s.writeLog = L0 ++ new ∧
    (new.filter (fun w => w.ptr = p)).length ≤ M ∧
    (∀ w ∈ new, w.ptr = p → w.msg.retries ≤ w.msg.maxRetries ∧ w.msg.maxRetries = M) ∧
    (s.heap p).maxRetries = M ∧
    (p ∈ s.messageSendQueue →
      (new.filter (fun w => w.ptr = p)).length ≤ (s.heap p).retries ∧ (s.heap p).retries ≤ M)

/-- The happy-path message with the largest retry allowance an
`unsigned int` can hold. -/
def wrapMessage : ApnsMessage := { exampleMessage with maxRetries := 2 ^ 32 - 1 }

/-- A freshly constructed engine at clock reading 0 (no idle timeout) on
which `wrapMessage` has been constructed at address 0 and added. -/
def wrapEngine : PushController :=
  ((PushController.new 0 0 0 (fun _ => wrapMessage)).construct 0 wrapMessage).add 0 0

/-- Answers of a transport that would block on every write (`SSL_write`
reports want-write, so `write` returns 0) and has nothing to read. -/
def blockedLoopIo : LoopIo :=
  { send := { tmpi0 := 0, write := { sslRet := -1, sslErr := SslError.wantWrite, disc := ⟨0, 0⟩ } }
    read := { selectRet := 0, readable := false, sslRet := 0, sslErr := SslError.none, buf := [],
              disc := ⟨0, 0⟩ }
    disc := ⟨0, 0⟩ }

/-- A tick at clock reading 0 on the blocked transport. -/
def blockedTick : TickIo :=
  { now := 0, connectOk := true, loop := fun _ => blockedLoopIo, idleDisc := ⟨0, 0⟩ }

/-- The engine states met while `wrapMessage` is retried on the blocked
transport: the message alone in the send queue, with `n` calls of `write`
made for it so far. -/
def WrapState (n : Nat) (s : PushController) : Prop :=
  s.messageSendQueue = [0] ∧ s.messageStageQueue = [] ∧ s.messageErrorQueue = [] ∧
  s.timeout = 0 ∧ s.connectRetryTs = 0 ∧ s.logStatsTs = 3600 ∧
  (∃ r, s.heap 0 = { wrapMessage with retries := r, id := 1 }) ∧
  (s.writeLog.filter (fun w => w.ptr = 0)).length = n

/-- Since the write log was `L0`, no call of `write` has been made for the
message at `p`, and the message is not in the send queue. -/
def NotResent (L0 : List WriteCall) (p : Nat) (s : PushController) : Prop :=
  p ∉ s.messageSendQueue ∧ ∃ calls, s.writeLog = L0 ++ calls ∧ ∀ w ∈ calls, w.ptr ≠ p

/-- The message of the payload-too-large scenario: a text of 300 letters `A`
and badge 0. -/
def oversizeMessage : ApnsMessage :=
  { exampleMessage with text := List.replicate 300 65, badgeNumber := 0 }

/-- An engine whose only message, the oversize one at address 10, has been
moved to the stage queue by the send loop. -/
def oversizeStaged : PushController :=
  { ((PushController.new 0 1000 0 (fun _ => oversizeMessage)).construct 10 oversizeMessage).add
      10 1000 with
    connected := true
    initialized := true
    messageSendQueue := []
    messageStageQueue := [10] }

/-- A device token of 64 hexadecimal digits with one space inside the first
byte pair: `0 1` followed by 62 digits `0`. -/
def misalignedToken : List Nat := [48, 32, 49] ++ List.replicate 62 48

/-- `exampleStaged` with the misaligned token in its message. -/
def misalignedStaged : PushController :=
  { exampleStaged with
    heap := fun _ => { exampleMessage with deviceToken := misalignedToken, id := 1 } }

/-- `exampleStaged` with the two-character device token `01`, which decodes
to a single byte. -/
def shortTokenStaged : PushController :=
  { exampleStaged with
    heap := fun _ => { exampleMessage with deviceToken := [48, 49], id := 1 } }

/-- A history of `n` calls of `add`, of happy-path messages constructed at the
addresses `1, 2, .., n`. -/
def manyAdds (n : Nat) : List Op :=
  (List.range n).map (fun k => Op.add (k + 1) exampleMessage 1000)

/-- A message is held by the engine: it is in one of the three queues. -/
def Held (s : PushController) (p : Nat) : Prop :=
  p ∈ s.messageSendQueue ∨ p ∈ s.messageStageQueue ∨ p ∈ s.messageErrorQueue

/-- The ids of the held messages are those of distinct calls of `add`:
each is `k mod 1024` for some `k` between 1 and `lastId`, and two distinct
held messages have different ids. -/
def IdsDistinct (s : PushController) : Prop :=
  (∀ p, Held s p → ∃ k, 1 ≤ k ∧ k ≤ s.lastId ∧ (s.heap p).id = k % 1024) ∧
  ∀ p q, Held s p → Held s q → p ≠ q → (s.heap p).id ≠ (s.heap q).id

/-- A little-endian platform with unsigned `char` (the ARM Linux ABI). -/
def unsignedCharPlatform : Platform := { littleEndian := true, charSigned := false }

/-- The error response `08 FF 00 00 00 01`: command 8, status 255 (the
"unknown" code), identifier 1. -/
def unknownStatusResponse : ApnsResponse :=
  { command := 8, status := 255, identifier := [0, 0, 0, 1] }

/-! ## The expiry passes of a tick -/

/-- The state after the two calls of `_removeExpiredMessagesFromQueue` made
by `run` at clock reading `now`: on the stage queue, then on the error
queue. -/
def expiryPasses (s3 : PushController) (now : Int) : PushController :=
  let st := _removeExpiredMessagesFromQueue s3.heap now s3.messageStageQueue
  let s4 := { s3 with
    messageStageQueue := st.1
    destroyed := st.2.1.foldl (fun d p => setInsert p d) s3.destroyed }
  let er := _removeExpiredMessagesFromQueue s4.heap now s4.messageErrorQueue
  { s4 with
    messageErrorQueue := er.1
    destroyed := er.2.1.foldl (fun d p => setInsert p d) s4.destroyed }

/-! ## The error field of the messages in the error queue -/

/-- Every message in the error queue has a non-zero error field. -/
def ErrorsSet (s : PushController) : Prop :=
  ∀ p ∈ s.messageErrorQueue, (s.heap p).error ≠ 0

/-- No buffer handed back by `read` during the tick holds an error response
(command 8) whose status byte is 0. -/
def NoZeroStatus (pf : Platform) (io : TickIo) : Prop :=
  ∀ k, charToInt pf ((peek (io.loop k).read.buf 0 1).headD 0) = ERROR_RESPONSE_COMMAND →
    charToInt pf ((peek (io.loop k).read.buf 1 1).headD 0) ≠ 0

/-- No tick of the history reads an error response whose status byte is 0. -/
def NoZeroStatuses (pf : Platform) : List Op → Prop
  | [] => True
  | Op.run io :: ops => NoZeroStatus pf io ∧ NoZeroStatuses pf ops
  | _ :: ops => NoZeroStatuses pf ops

/-- Answers of a transport that accepts the whole 77-byte packet and then
delivers the error response `08 <status> 00 00 00 01`. -/
def responseLoopIo (status : Nat) : LoopIo :=
  { send := exampleSendIo
    read := { selectRet := 1, readable := true, sslRet := 6, sslErr := SslError.none,
              buf := [8, status, 0, 0, 0, 1], disc := ⟨0, 0⟩ }
    disc := ⟨0, 0⟩ }

/-- A tick at clock reading 1000 on the transport that answers every packet
with the error response of the given status for identifier 1. -/
def responseTick (status : Nat) : TickIo :=
  { now := 1000, connectOk := true, loop := fun _ => responseLoopIo status, idleDisc := ⟨0, 0⟩ }

/-- A history: the happy-path message is added at address 10 (and gets id 1),
then one tick sends it and reads an error response of the given status. -/
def responseHistory (status : Nat) : List Op :=
  [Op.add 10 exampleMessage 1000, Op.run (responseTick status)]

/-! ## Example data for the expiry passes -/

/-- A memory in which the message at address 10 is the happy-path message
(expiry 5000) and every other message expires at 7000. -/
def mixedHeap : Nat → ApnsMessage :=
  fun p => if p = 10 then exampleMessage else { exampleMessage with expiry := 7000 }

/-- An engine at rest whose stage queue holds the messages at 10 and 20 and
whose error queue holds those at 30 and 40; only the first has expired at
clock reading 6000. -/
def expiringEngine : PushController :=
  { PushController.new 0 1000 0 (Function.update mixedHeap 30 exampleMessage) with
    messageStageQueue := [10, 20]
    messageErrorQueue := [30, 40] }

/-- A tick at clock reading 6000 on the quiet transport. -/
def lateTick : TickIo :=
  { now := 6000, connectOk := true, loop := fun _ => exampleLoopIo, idleDisc := ⟨0, 0⟩ }

/-- A tick at clock reading 6000 on the transport that would block on every
write. -/
def lateBlockedTick : TickIo :=
  { now := 6000, connectOk := true, loop := fun _ => blockedLoopIo, idleDisc := ⟨0, 0⟩ }

/-! ## Feedback records -/

/-- The 38-byte feedback record of timestamp `t`, token length `L` and device
token `T`: `BE32(t) ++ BE16(L) ++ T`. -/
def feedbackRecord (t L : Nat) (T : List Nat) : List Nat :=
  beBytes 4 t ++ beBytes 2 L ++ T

/-- The answers of a feedback transport on which the complete records
`pending` are available to one call of `read` for 38 bytes: the first record
when there is one, nothing to read otherwise. -/
def feedbackRead (pending : List (List Nat)) : ReadIo :=
  match pending with
  | [] =>
    { selectRet := 0, readable := false, sslRet := 0, sslErr := SslError.none, buf := [],
      disc := ⟨0, 0⟩ }
  | r :: _ =>
    { selectRet := 1, readable := true, sslRet := 38, sslErr := SslError.none, buf := r,
      disc := ⟨0, 0⟩ }

/-- One poll at clock reading `now` on a feedback transport that connects,
holds the records `pending` and closes cleanly. -/
def feedbackPoll (now : Int) (pending : List (List Nat)) (timestamp0 tokenLen0 : Nat) :
    FeedbackIo :=
  { now := now, connectOk := true, read := feedbackRead pending, timestamp0 := timestamp0,
    tokenLen0 := tokenLen0, disc := ⟨0, 0⟩ }

/-- The 32 bytes `01 02 .. 20` of the happy-path device token. -/
def exampleTokenBytes : List Nat := (List.range 32).map (fun k => k + 1)

/-- Two feedback records, of timestamps 1700000000 and 1700000001. -/
def exampleRecords : List (List Nat) :=
  [feedbackRecord 1700000000 32 exampleTokenBytes,
   feedbackRecord 1700000001 32 (List.replicate 32 255)]

/-- A big-endian platform. -/
def bigEndianPlatform : Platform := { littleEndian := false, charSigned := true }

/-! ## Example data for the timers and the transport -/

/-- A connected engine with idle timeout 10 whose last activity was at clock
reading 1000. -/
def idleEngine : PushController :=
  { PushController.new 10 1000 0 (fun _ => exampleMessage) with
    connected := true
    initialized := true }

/-- The happy-path engine in backoff until clock reading 1060, as a failed
`connect()` at 1000 leaves it. -/
def backoffEngine : PushController :=
  { exampleEngine with connectRetryTs := 1060 }

/-- A connected transport. -/
def connectedTransport : SslController := { initialized := true, connected := true }

/-- Answers to a `read` on a readable socket whose `SSL_read` would block:
it returns -1 and `SSL_get_error` reports want-read. -/
def wantReadIo : ReadIo :=
  { selectRet := 1, readable := true, sslRet := -1, sslErr := SslError.wantRead, buf := [],
    disc := ⟨0, 0⟩ }

/-- Answers to a `read` on a readable socket whose peer has closed the TLS
session: `SSL_read` returns 0 and `SSL_get_error` reports zero-return. -/
def zeroReturnIo : ReadIo :=
  { selectRet := 1, readable := true, sslRet := 0, sslErr := SslError.zeroReturn, buf := [],
    disc := ⟨0, 0⟩ }

/-! ## Example data for the transport, the happy path and the drain -/

/-- The happy-path payload: the 32 bytes of the JSON object whose member
`aps` holds the alert `hi` and the badge 3, with no white space. -/
def happyPayload : List Nat :=
  [123, 34, 97, 112, 115, 34, 58, 123, 34, 97, 108, 101, 114, 116, 34, 58, 34, 104, 105, 34,
   44, 34, 98, 97, 100, 103, 101, 34, 58, 51, 125, 125]

/-- The value that `_readResponseFromApns` returns in the iteration of the
send loop made for `ptr` from the state `s`; `none` when the iteration does
not get that far. -/
def responseBytes (pf : Platform) (now : Int) (io : LoopIo) (s : PushController) (ptr : Nat) :
    Option Int :=
  match ({ s with
      messageStageQueue := setInsert ptr s.messageStageQueue
      messageSendQueue := setErase ptr s.messageSendQueue })._sendPayload pf ptr now io.send with
  | none => none
  | some r => (r.1._readResponseFromApns pf io.read).map Prod.snd

/-- The happy-path engine with a second message constructed at address 20
and added (it gets id 2). -/
def twoMessageEngine : PushController :=
  (exampleEngine.construct 20 exampleMessage).add 20 1000

/-- A tick at clock reading 1000 whose first iteration writes the packet
whole and reads the error response `08 08 00 00 00 01`, after which
`SSL_shutdown` answers `shutdownRet`; the later iterations are on the quiet
transport. -/
def responseFirstTick (shutdownRet : Int) : TickIo :=
  { now := 1000
    connectOk := true
    loop := fun k =>
      if k = 0 then { responseLoopIo 8 with disc := ⟨shutdownRet, 0⟩ } else exampleLoopIo
    idleDisc := ⟨0, 0⟩ }

/-- `exampleStaged` with one retry allowed to its message. -/
def oneRetryStaged : PushController :=
  { exampleStaged with heap := fun _ => { exampleMessage with maxRetries := 1, id := 1 } }

/-- A tick at clock reading 1000 on which `connect()` fails. -/
def failedConnectTick : TickIo :=
  { now := 1000, connectOk := false, loop := fun _ => exampleLoopIo, idleDisc := ⟨0, 0⟩ }

/-- A push engine constructed at clock reading 1000 in storage where the
member `_connectRetryTs`, which the constructor does not assign, holds
2^62. -/
def garbageEngine : PushController :=
  PushController.new 0 1000 (2 ^ 62) (fun _ => exampleMessage)

/-- A freshly constructed engine on which a happy-path message with one
retry allowed has been constructed at address 10 and added. -/
def oneRetryEngine : PushController :=
  ((PushController.new 0 1000 0 (fun _ => exampleMessage)).construct 10
    { exampleMessage with maxRetries := 1 }).add 10 1000

/-! ## Byte order -/

theorem leBytes_length (w x : Nat) : (leBytes w x).length = w := by
  induction w generalizing x with
  | zero => rfl
  | succ w ih => simp [leBytes, ih]

theorem leBytes_leValue (bs : List Nat) (h : ∀ b ∈ bs, b < 256) :
    leBytes bs.length (leValue bs) = bs := by
  induction bs with
  | nil => rfl
  | cons b bs ih =>
    have hb : b < 256 := h b (List.mem_cons_self _ _)
    have ih1 := ih (fun c hc => h c (List.mem_cons_of_mem _ hc))
    simp only [List.length_cons, leValue, leBytes]
    have e1 : (b + 256 * leValue bs) % 256 = b := by omega
    have e2 : (b + 256 * leValue bs) / 256 = leValue bs := by omega
    rw [e1, e2, ih1]

theorem leBytes_lt (w x : Nat) : ∀ b ∈ leBytes w x, b < 256 := by
  induction w generalizing x with
  | zero => simp [leBytes]
  | succ w ih =>
    intro b hb
    simp only [leBytes, List.mem_cons] at hb
    rcases hb with rfl | hb
    · exact Nat.mod_lt _ (by norm_num)
    · exact ih _ b hb

theorem leBytes_mod (w x : Nat) : leBytes w (x % 256 ^ w) = leBytes w x := by
  induction w generalizing x with
  | zero => rfl
  | succ w ih =>
    simp only [leBytes]
    have e1 : x % 256 ^ (w + 1) % 256 = x % 256 := by
      rw [pow_succ]; exact Nat.mod_mul_left_mod x (256 ^ w) 256
    have e2 : x % 256 ^ (w + 1) / 256 = (x / 256) % 256 ^ w := by
      rw [pow_succ, mul_comm, Nat.mod_mul_right_div_self]
    rw [e1, e2, ih]

theorem memBytes_bswap (pf : Platform) (w x : Nat) :
    memBytes pf w (if pf.littleEndian then bswap w x else x) = beBytes w x := by
  unfold memBytes bswap
  cases pf.littleEndian with
  | false => simp
  | true =>
    simp only [if_true]
    have h := leBytes_leValue (beBytes w x) (by
      intro b hb
      unfold beBytes at hb
      exact leBytes_lt w x b (List.mem_reverse.mp hb))
    have hl : (beBytes w x).length = w := by simp [beBytes, leBytes_length]
    rw [hl] at h
    exact h

theorem memBytes_htonl (pf : Platform) (x : Nat) :
    memBytes pf 4 (htonl pf x) = beBytes 4 x := by
  have h := memBytes_bswap pf 4 (x % 2 ^ 32)
  unfold htonl
  rw [h]
  unfold beBytes
  have := leBytes_mod 4 x
  norm_num at this
  norm_num [this]

theorem memBytes_htons (pf : Platform) (x : Nat) :
    memBytes pf 2 (htons pf x) = beBytes 2 x := by
  have h := memBytes_bswap pf 2 (x % 2 ^ 16)
  unfold htons
  rw [h]
  unfold beBytes
  have := leBytes_mod 2 x
  norm_num at this
  norm_num [this]

theorem beBytes_four (x : Nat) :
    beBytes 4 x = [x / 2 ^ 24 % 256, x / 2 ^ 16 % 256, x / 2 ^ 8 % 256, x % 256] := by
  simp only [beBytes, leBytes, List.reverse_cons, List.reverse_nil, List.nil_append,
    List.cons_append, Nat.div_div_eq_div_mul]
  norm_num

theorem beBytes_two (x : Nat) : beBytes 2 x = [x / 2 ^ 8 % 256, x % 256] := by
  simp only [beBytes, leBytes, List.reverse_cons, List.reverse_nil, List.nil_append,
    List.cons_append]
  norm_num

/-- Decoding a four-byte identifier field: `memcpy` into an `unsigned int`
followed by `ntohl` reads the bytes most significant first. -/
theorem ntohl_memValue (pf : Platform) (b0 b1 b2 b3 : Nat) (h0 : b0 < 256) (h1 : b1 < 256)
    (h2 : b2 < 256) (h3 : b3 < 256) :
    ntohl pf (memValue pf [b0, b1, b2, b3]) = b0 * 2 ^ 24 + b1 * 2 ^ 16 + b2 * 2 ^ 8 + b3 := by
  have hb : ∀ b ∈ [b0, b1, b2, b3], b < 256 := by
    intro b hb
    simp only [List.mem_cons, List.mem_singleton, List.not_mem_nil, or_false] at hb
    rcases hb with rfl | rfl | rfl | rfl <;> assumption
  have hr := leBytes_leValue [b0, b1, b2, b3] hb
  have hlt : leValue [b0, b1, b2, b3] < 2 ^ 32 := by
    simp only [leValue]; omega
  unfold ntohl htonl memValue
  cases pf.littleEndian with
  | true =>
    simp only [if_true, bswap, beBytes]
    rw [Nat.mod_eq_of_lt hlt]
    simp only [List.length_cons, List.length_nil] at hr
    rw [hr]
    simp only [leValue, List.reverse_cons, List.reverse_nil, List.nil_append,
      List.cons_append]
    omega
  | false =>
    simp only [beValue, leValue, List.reverse_cons, List.reverse_nil, List.nil_append,
      List.cons_append, Bool.false_eq_true, if_false]
    omega

/-! ## The packet image -/

theorem poke_length (buf : List Nat) (off : Nat) (bs : List Nat)
    (h : off + bs.length ≤ buf.length) : (poke buf off bs).length = buf.length := by
  simp only [poke, List.length_append, List.length_take, List.length_drop]
  omega

theorem poke_nil (buf : List Nat) (off : Nat) : poke buf off [] = buf := by
  simp [poke]

theorem poke_mid (a old c bs : List Nat) (h : old.length = bs.length) :
    poke (a ++ (old ++ c)) a.length bs = a ++ (bs ++ c) := by
  simp only [poke, List.take_left', List.append_assoc]
  congr 2
  rw [← h, ← List.length_append, ← List.append_assoc, List.drop_left']
  rfl

theorem poke_poke_adj (p : List Nat) (off b : Nat) (bs : List Nat) (h : off < p.length) :
    poke (poke p off [b]) (off + 1) bs = poke p off (b :: bs) := by
  have hl : (p.take off).length = off := by simp; omega
  have s1 : poke p off [b] = p.take off ++ ([b] ++ p.drop (off + 1)) := by
    simp [poke]
  rw [s1]
  simp only [poke, List.length_cons, List.length_singleton]
  have t1 : List.take (off + 1) (List.take off p ++ ([b] ++ List.drop (off + 1) p))
      = List.take off p ++ [b] := by
    rw [← List.append_assoc]
    apply List.take_left'
    simp [hl]
  have t2 : List.drop (off + 1 + bs.length) (List.take off p ++ ([b] ++ List.drop (off + 1) p))
      = List.drop (off + (bs.length + 1)) p := by
    rw [← List.append_assoc, List.drop_append_eq_append_drop]
    have e1 : (List.take off p ++ [b]).length = off + 1 := by simp [hl]
    rw [e1]
    have e2 : List.drop (off + 1 + bs.length) (List.take off p ++ [b]) = [] := by
      apply List.drop_eq_nil_of_le; simp [hl]
    rw [e2, List.nil_append, List.drop_drop]
    congr 1; omega
  rw [t1, t2]
  simp

theorem peek_add (p : List Nat) (a n k : Nat) :
    peek p a n ++ peek p (a + n) k = peek p a (n + k) := by
  simp only [peek]
  rw [List.take_add, List.drop_drop]

theorem convertDeviceToken_eq (l : List Nat) (j tmpi : Nat) (p : List Nat)
    (hp : p.length = PACKET_STRUCT_SIZE)
    (h : OFF_DEVICETOKEN + j + (tokenBytes l tmpi).length ≤ PACKET_STRUCT_SIZE) :
    convertDeviceToken l j tmpi p = some (poke p (OFF_DEVICETOKEN + j) (tokenBytes l tmpi)) := by
  induction l, j, tmpi, p using convertDeviceToken.induct with
  | case1 j tmpi p => simp [convertDeviceToken, tokenBytes, poke_nil]
  | case2 j tmpi p => simp [convertDeviceToken, tokenBytes, poke_nil]
  | case3 c0 j tmpi p hc =>
    simp only [tokenBytes, hc, if_false, List.length_singleton] at h
    simp only [convertDeviceToken, tokenBytes, hc, if_false, storeToken]
    rw [if_pos (by omega)]
  | case4 c1 rest j tmpi p ih =>
    simp only [convertDeviceToken, tokenBytes, if_true] at h ⊢
    exact ih hp h
  | case5 c0 c1 rest j tmpi p hc hs =>
    exfalso
    simp only [tokenBytes, hc, if_false, List.length_cons] at h
    simp only [storeToken] at hs
    rw [if_pos (by omega)] at hs
    cases hs
  | case6 c0 c1 rest j tmpi p hc p1 hs ih =>
    simp only [tokenBytes, hc, if_false, List.length_cons] at h
    simp only [storeToken] at hs
    rw [if_pos (by omega)] at hs
    cases hs
    simp only [convertDeviceToken, tokenBytes, hc, if_false, storeToken]
    rw [if_pos (by omega)]
    simp only
    have hl : (poke p (OFF_DEVICETOKEN + j) [(sscanfHex c0 c1).getD tmpi % 256]).length
        = PACKET_STRUCT_SIZE := by
      rw [poke_length _ _ _ (by simp; omega)]; exact hp
    rw [ih hl (by omega)]
    congr 1
    rw [show OFF_DEVICETOKEN + (j + 1) = OFF_DEVICETOKEN + j + 1 by omega]
    exact poke_poke_adj p _ _ _ (by omega)

theorem cstr_of_no_nul (s : List Nat) (h : ∀ b ∈ s, b ≠ 0) : cstr s = s := by
  unfold cstr
  rw [List.takeWhile_eq_self_iff]
  intro b hb
  simpa using h b hb

theorem strncpy_take (n : Nat) (s : List Nat) (h : ∀ b ∈ s, b ≠ 0) (hn : s.length ≤ n) :
    (strncpy n s).take s.length = s := by
  unfold strncpy
  rw [cstr_of_no_nul s h, List.take_of_length_le hn, List.take_left']
  rfl

theorem strncpy_length (n : Nat) (s : List Nat) : (strncpy n s).length = n := by
  unfold strncpy
  simp only [List.length_append, List.length_take, List.length_replicate]
  omega

theorem hex2_no_nul (c : Nat) : ∀ b ∈ hex2 c, b ≠ 0 := by
  intro b hb
  simp only [hex2, List.mem_cons, List.mem_singleton, List.not_mem_nil, or_false] at hb
  rcases hb with rfl | rfl <;> split <;> omega

theorem escapeChar_no_nul (c : Nat) : ∀ b ∈ escapeChar c, b ≠ 0 := by
  intro b hb
  unfold escapeChar at hb
  split_ifs at hb with h1 h2 h3 h4 h5 h6 h7 h8
  all_goals
    simp only [List.mem_cons, List.mem_singleton, List.not_mem_nil, or_false, List.mem_append]
      at hb
  · rcases hb with rfl | rfl <;> omega
  · rcases hb with rfl | rfl <;> omega
  · rcases hb with rfl | rfl <;> omega
  · rcases hb with rfl | rfl <;> omega
  · rcases hb with rfl | rfl <;> omega
  · rcases hb with rfl | rfl <;> omega
  · rcases hb with rfl | rfl <;> omega
  · rcases hb with (rfl | rfl | rfl | rfl) | hb
    · omega
    · omega
    · omega
    · omega
    · exact hex2_no_nul c b hb
  · subst hb
    intro h0
    apply h8
    omega

theorem escape_no_nul (s : List Nat) : ∀ b ∈ escape s, b ≠ 0 := by
  intro b hb
  simp only [escape, List.mem_flatMap] at hb
  obtain ⟨c, _, hc⟩ := hb
  exact escapeChar_no_nul c b hc

theorem decimalAux_no_nul (fuel n : Nat) (acc : List Nat) (h : ∀ b ∈ acc, b ≠ 0) :
    ∀ b ∈ decimalAux fuel n acc, b ≠ 0 := by
  induction fuel generalizing n acc with
  | zero => simpa [decimalAux] using h
  | succ f ih =>
    simp only [decimalAux]
    split
    · intro b hb
      simp only [List.mem_cons] at hb
      rcases hb with rfl | hb
      · omega
      · exact h b hb
    · apply ih
      intro b hb
      simp only [List.mem_cons] at hb
      rcases hb with rfl | hb
      · omega
      · exact h b hb

theorem buildPayload_no_nul (m : ApnsMessage) : ∀ b ∈ buildPayload m, b ≠ 0 := by
  have hd : ∀ n, ∀ b ∈ decimal n, b ≠ 0 := fun n =>
    decimalAux_no_nul _ _ _ (by simp)
  intro b hb
  simp only [buildPayload] at hb
  simp only [List.mem_append, List.mem_cons, List.mem_singleton, List.not_mem_nil, or_false,
    List.mem_ite_nil_left, List.mem_ite_nil_right] at hb
  have he := fun s => escape_no_nul s b
  have hdd := fun n => hd n b
  split_ifs at hb <;>
    simp only [List.mem_append, List.mem_cons, List.mem_singleton, List.not_mem_nil, or_false,
      false_or, or_assoc] at hb <;>
    aesop

theorem getPayload_no_nul (m : ApnsMessage) (P : List Nat) (h : m.getPayload = some P) :
    (∀ b ∈ P, b ≠ 0) ∧ P.length ≤ MAXPAYLOAD_SIZE := by
  unfold ApnsMessage.getPayload at h
  split at h
  · cases h
  · rename_i hl
    cases h
    exact ⟨buildPayload_no_nul m, by omega⟩

theorem frame_scalars (i0 i1 i2 i3 e0 e1 e2 e3 t0 t1 l0 l1 : Nat) :
    poke (poke (poke (poke (poke (List.replicate PACKET_STRUCT_SIZE 0) 0 [1]) OFF_TOKENLEN
      [t0, t1]) OFF_PAYLOADLEN [l0, l1]) OFF_IDENTIFIER [i0, i1, i2, i3]) OFF_EXPIRY
      [e0, e1, e2, e3]
    = [1, i0, i1, i2, i3, e0, e1, e2, e3, t0, t1]
      ++ (List.replicate 32 0 ++ ([l0, l1] ++ List.replicate 256 0)) := by
  rfl

/-- The packet `_sendPayload` assembles when the token loop stores at most 32
bytes and the payload string holds no NUL and at most 256 bytes. -/
theorem framePacket_eq (pf : Platform) (m : ApnsMessage) (P : List Nat) (now : Int)
    (tmpi0 : Nat) (hP : ∀ b ∈ P, b ≠ 0) (hN : P.length ≤ MAXPAYLOAD_SIZE)
    (ht : (tokenBytes (cstr m.deviceToken) tmpi0).length ≤ DEVICE_BINARY_SIZE) :
    framePacket pf m P now tmpi0 = some
      ([1, m.id / 2 ^ 24 % 256, m.id / 2 ^ 16 % 256, m.id / 2 ^ 8 % 256, m.id % 256,
        toU32 (now + 300) / 2 ^ 24 % 256, toU32 (now + 300) / 2 ^ 16 % 256,
        toU32 (now + 300) / 2 ^ 8 % 256, toU32 (now + 300) % 256, 0, 32]
        ++ (tokenBytes (cstr m.deviceToken) tmpi0
          ++ List.replicate (32 - (tokenBytes (cstr m.deviceToken) tmpi0).length) 0)
        ++ [P.length / 2 ^ 8 % 256, P.length % 256] ++ P) := by
  unfold framePacket
  simp only [memBytes_htonl, memBytes_htons, beBytes_four, beBytes_two]
  rw [if_neg (by omega)]
  have h32 : DEVICE_BINARY_SIZE / 2 ^ 8 % 256 = 0 := by decide
  have h32' : DEVICE_BINARY_SIZE % 256 = 32 := by decide
  rw [h32, h32', frame_scalars]
  set tb := tokenBytes (cstr m.deviceToken) tmpi0 with htb
  have hD : DEVICE_BINARY_SIZE = 32 := rfl
  have hM : MAXPAYLOAD_SIZE = 256 := rfl
  rw [hD] at ht
  rw [hM] at hN
  set H : List Nat := [1, m.id / 2 ^ 24 % 256, m.id / 2 ^ 16 % 256, m.id / 2 ^ 8 % 256,
    m.id % 256, toU32 (now + 300) / 2 ^ 24 % 256, toU32 (now + 300) / 2 ^ 16 % 256,
    toU32 (now + 300) / 2 ^ 8 % 256, toU32 (now + 300) % 256, 0, 32] with hH
  set L : List Nat := [P.length / 2 ^ 8 % 256, P.length % 256] with hL
  have hHl : H.length = 11 := rfl
  have hLl : L.length = 2 := rfl
  have hlen : (H ++ (List.replicate 32 0 ++ (L ++ List.replicate 256 0))).length
      = PACKET_STRUCT_SIZE := by
    simp only [List.length_append, List.length_replicate, hHl, hLl]
    rfl
  have hS : PACKET_STRUCT_SIZE = 301 := rfl
  have hO : OFF_DEVICETOKEN = 11 := rfl
  have hc := convertDeviceToken_eq (cstr m.deviceToken) 0 tmpi0 _ hlen (by
    rw [← htb, hS, hO]; omega)
  rw [← htb] at hc
  rw [hc]
  simp only
  -- the token bytes replace the head of the zeroed 32-byte field
  have hz : List.replicate 32 0 = List.replicate tb.length 0
      ++ List.replicate (32 - tb.length) (0 : Nat) := by
    rw [← List.replicate_add, Nat.add_sub_cancel' ht]
  have e1 : poke (H ++ (List.replicate 32 0 ++ (L ++ List.replicate 256 0)))
      (OFF_DEVICETOKEN + 0) tb
      = H ++ (tb ++ (List.replicate (32 - tb.length) 0 ++ (L ++ List.replicate 256 0))) := by
    rw [hz, List.append_assoc]
    have := poke_mid H (List.replicate tb.length 0)
      (List.replicate (32 - tb.length) 0 ++ (L ++ List.replicate 256 0)) tb
      (List.length_replicate _ _)
    rw [hHl] at this
    exact this
  rw [e1]
  -- the payload replaces the head of the zeroed 256-byte field
  rw [strncpy_take _ _ hP (by rw [hM]; exact hN)]
  have hz2 : List.replicate 256 0 = List.replicate P.length 0
      ++ List.replicate (256 - P.length) (0 : Nat) := by
    rw [← List.replicate_add, Nat.add_sub_cancel' hN]
  set T : List Nat := tb ++ List.replicate (32 - tb.length) 0 with hT
  have hTl : T.length = 32 := by
    simp only [hT, List.length_append, List.length_replicate]; omega
  have e2 : poke (H ++ (tb ++ (List.replicate (32 - tb.length) 0 ++ (L ++ List.replicate 256 0))))
      OFF_PAYLOAD P
      = (H ++ T ++ L) ++ (P ++ List.replicate (256 - P.length) 0) := by
    have := poke_mid (H ++ T ++ L) (List.replicate P.length 0)
      (List.replicate (256 - P.length) 0) P (List.length_replicate _ _)
    have hl3 : (H ++ T ++ L).length = OFF_PAYLOAD := by
      simp only [List.length_append, hHl, hTl, hLl]; rfl
    rw [hl3] at this
    rw [← this, hz2]
    simp only [hT, List.append_assoc]
  rw [e2]
  -- the seven copies out of the struct are one contiguous prefix
  have e3 : ∀ q : List Nat, peek q 0 1 ++ peek q OFF_IDENTIFIER 4 ++ peek q OFF_EXPIRY 4
      ++ peek q OFF_TOKENLEN 2 ++ peek q OFF_DEVICETOKEN DEVICE_BINARY_SIZE
      ++ peek q OFF_PAYLOADLEN 2 ++ peek q OFF_PAYLOAD P.length
      = q.take (OFF_PAYLOAD + P.length) := by
    intro q
    have a1 := peek_add q 0 1 4
    have a2 := peek_add q 0 5 4
    have a3 := peek_add q 0 9 2
    have a4 := peek_add q 0 11 32
    have a5 := peek_add q 0 43 2
    have a6 := peek_add q 0 45 P.length
    simp only [OFF_IDENTIFIER, OFF_EXPIRY, OFF_TOKENLEN, OFF_DEVICETOKEN, OFF_PAYLOADLEN,
      OFF_PAYLOAD, DEVICE_BINARY_SIZE]
    norm_num at a1 a2 a3 a4 a5 a6
    rw [a1, a2, a3, a4, a5, a6]
    simp [peek]
  rw [e3]
  have hl3 : (H ++ T ++ L).length = OFF_PAYLOAD := by
    simp only [List.length_append, hHl, hTl, hLl]; rfl
  have hl4 : ((H ++ T ++ L) ++ P).length = OFF_PAYLOAD + P.length := by
    rw [List.length_append, hl3]
  rw [← List.append_assoc, List.take_left' hl4]

theorem isHexDigit_ne (c : Nat) (h : isHexDigit c = true) : c ≠ 32 ∧ c ≠ 0 := by
  simp only [isHexDigit, Bool.or_eq_true, Bool.and_eq_true, decide_eq_true_eq] at h
  omega

theorem sscanfHex_pair (c0 c1 : Nat) (h0 : isHexDigit c0 = true) (h1 : isHexDigit c1 = true) :
    sscanfHex c0 c1 = some (16 * hexVal c0 + hexVal c1) := by
  simp [sscanfHex, h0, h1]

theorem hexVal_lt (c : Nat) : hexVal c < 16 := by
  unfold hexVal
  split_ifs <;> omega

theorem tokenBytes_aligned (l : List Nat) (tmpi : Nat) (h : pairAligned l = true) :
    tokenBytes l tmpi = hexPairs (stripSpaces l) := by
  induction l, tmpi using tokenBytes.induct with
  | case1 tmpi => rfl
  | case2 tmpi => rfl
  | case3 c0 tmpi hc => simp [pairAligned, hc] at h
  | case4 c1 rest tmpi ih =>
    simp only [pairAligned, if_true] at h
    simp only [tokenBytes, if_true, ih h]
    simp [stripSpaces]
  | case5 c0 c1 rest tmpi hc ih =>
    simp only [pairAligned, hc, if_false, Bool.and_eq_true] at h
    obtain ⟨⟨h0, h1⟩, hr⟩ := h
    have n1 := (isHexDigit_ne c1 h1).1
    have ih' := ih hr
    simp only [sscanfHex_pair c0 c1 h0 h1, Option.getD_some] at ih'
    simp only [tokenBytes, hc, if_false, sscanfHex_pair c0 c1 h0 h1, Option.getD_some, ih']
    have hs : stripSpaces (c0 :: c1 :: rest) = c0 :: c1 :: stripSpaces rest := by
      simp [stripSpaces, hc, n1]
    rw [hs, hexPairs]
    congr 1
    have := hexVal_lt c0
    have := hexVal_lt c1
    omega

theorem pairAligned_no_nul (l : List Nat) (h : pairAligned l = true) : ∀ b ∈ l, b ≠ 0 := by
  induction l using pairAligned.induct with
  | case1 => simp
  | case2 c0 =>
    simp only [pairAligned, decide_eq_true_eq] at h
    simp [h]
  | case3 c1 rest ih =>
    simp only [pairAligned, if_true] at h
    intro b hb
    simp only [List.mem_cons] at hb
    rcases hb with rfl | hb
    · omega
    · exact ih h b (by simpa using hb)
  | case4 c0 c1 rest hc ih =>
    simp only [pairAligned, hc, if_false, Bool.and_eq_true] at h
    obtain ⟨⟨h0, h1⟩, hr⟩ := h
    intro b hb
    simp only [List.mem_cons] at hb
    rcases hb with rfl | rfl | hb
    · exact (isHexDigit_ne _ h0).2
    · exact (isHexDigit_ne _ h1).2
    · exact ih hr b hb

theorem hexPairs_length (l : List Nat) : (hexPairs l).length = l.length / 2 := by
  induction l using hexPairs.induct with
  | case1 a b rest ih => simp only [hexPairs, List.length_cons, ih]; omega
  | case2 l hl =>
    match l, hl with
    | [], _ => rfl
    | [a], _ => simp [hexPairs]
    | a :: b :: rest, hl => exact absurd rfl (hl a b rest)

theorem mem_setInsert (a x : Nat) (q : List Nat) : a ∈ setInsert x q ↔ a = x ∨ a ∈ q := by
  induction q with
  | nil => simp [setInsert]
  | cons y ys ih =>
    simp only [setInsert]
    split_ifs with h1 h2
    · simp
    · subst h2; simp
    · simp only [List.mem_cons, ih]; tauto

theorem mem_setErase (a x : Nat) (q : List Nat) : a ∈ setErase x q ↔ a ∈ q ∧ a ≠ x := by
  simp [setErase]

theorem retry_getPayload (m : ApnsMessage) : m.retry.1.getPayload = m.getPayload := rfl

theorem retry_deviceToken (m : ApnsMessage) : m.retry.1.deviceToken = m.deviceToken := rfl

theorem retry_id (m : ApnsMessage) : m.retry.1.id = m.id := rfl

/-- The path of `_sendPayload` on which a packet is framed and handed to `write`. -/
theorem sendPayload_write (pf : Platform) (s : PushController) (p : Nat) (now : Int)
    (io : SendIo) (P packet : List Nat)
    (hretry : (s.heap p).retry.2 = true)
    (hP : (s.heap p).getPayload = some P)
    (hF : framePacket pf (s.heap p).retry.1 P now io.tmpi0 = some packet) :
    ∃ s1, s._sendPayload pf p now io
        = some (s1, decide ((s.toSslController.write io.write).2 ≠ 0)) ∧
      s1.writeLog = s.writeLog ++ [WriteCall.mk p (s.heap p).retry.1 packet] ∧
      s1.heap = Function.update s.heap p (s.heap p).retry.1 ∧
      s1.toSslController = (s.toSslController.write io.write).1 ∧
      s1.numStatsSent = (s.numStatsSent + 1) % 2 ^ 32 ∧
      s1.messageErrorQueue = s.messageErrorQueue ∧
      s1.destroyed = s.destroyed ∧
      (if (s.toSslController.write io.write).2 < 1
          ∨ (s.toSslController.write io.write).2 ≠ ((OFF_PAYLOAD + P.length : Nat) : Int) then
        s1.messageStageQueue = setErase p s.messageStageQueue ∧
        s1.messageSendQueue = setInsert p s.messageSendQueue
       else
        s1.messageStageQueue = s.messageStageQueue ∧
        s1.messageSendQueue = s.messageSendQueue) := by
  have hP' : (s.heap p).retry.1.getPayload = some P := hP
  simp only [PushController._sendPayload, hretry, hP', hF, Bool.not_true, Bool.false_eq_true,
    if_false]
  by_cases hw : (s.toSslController.write io.write).2 < 1
      ∨ (s.toSslController.write io.write).2 ≠ ((OFF_PAYLOAD + P.length : Nat) : Int)
  · simp only [if_pos hw]
    exact ⟨_, rfl, rfl, rfl, rfl, rfl, rfl, rfl, rfl, rfl⟩
  · simp only [if_neg hw]
    exact ⟨_, rfl, rfl, rfl, rfl, rfl, rfl, rfl, rfl, rfl⟩

theorem poke_take_before (buf : List Nat) (n off : Nat) (bs : List Nat) (h1 : n ≤ off)
    (h2 : off ≤ buf.length) : (poke buf off bs).take n = buf.take n := by
  unfold poke
  rw [List.append_assoc, List.take_append_of_le_length (by simp; omega), List.take_take]
  congr 1
  omega

theorem convertDeviceToken_header (l : List Nat) (j tmpi : Nat) (p p1 : List Nat)
    (hp : p.length = PACKET_STRUCT_SIZE) (h : convertDeviceToken l j tmpi p = some p1) :
    p1.length = PACKET_STRUCT_SIZE ∧ p1.take OFF_DEVICETOKEN = p.take OFF_DEVICETOKEN := by
  have store : ∀ (q q1 : List Nat) (i v : Nat), q.length = PACKET_STRUCT_SIZE →
      storeToken q i v = some q1 →
      q1.length = PACKET_STRUCT_SIZE ∧ q1.take OFF_DEVICETOKEN = q.take OFF_DEVICETOKEN := by
    intro q q1 i v hq hs
    simp only [storeToken] at hs
    split at hs
    · rename_i hlt
      cases hs
      refine ⟨?_, ?_⟩
      · rw [poke_length _ _ _ (by simp; omega)]; exact hq
      · exact poke_take_before _ _ _ _ (by omega) (by omega)
    · cases hs
  induction l, j, tmpi, p using convertDeviceToken.induct with
  | case1 j tmpi p => simp only [convertDeviceToken] at h; cases h; exact ⟨hp, rfl⟩
  | case2 j tmpi p => simp [convertDeviceToken] at h; cases h; exact ⟨hp, rfl⟩
  | case3 c0 j tmpi p hc =>
    simp only [convertDeviceToken, hc, if_false] at h
    exact store _ _ _ _ hp h
  | case4 c1 rest j tmpi p ih =>
    simp only [convertDeviceToken, if_true] at h
    exact ih hp h
  | case5 c0 c1 rest j tmpi p hc hs =>
    simp only [convertDeviceToken, hc, if_false, hs] at h
    cases h
  | case6 c0 c1 rest j tmpi p hc p2 hs ih =>
    simp only [convertDeviceToken, hc, if_false, hs] at h
    obtain ⟨a1, a2⟩ := store _ _ _ _ hp hs
    obtain ⟨b1, b2⟩ := ih a1 h
    exact ⟨b1, b2.trans a2⟩

theorem peeks_eq_take (q : List Nat) (n : Nat) :
    peek q 0 1 ++ peek q OFF_IDENTIFIER 4 ++ peek q OFF_EXPIRY 4
      ++ peek q OFF_TOKENLEN 2 ++ peek q OFF_DEVICETOKEN DEVICE_BINARY_SIZE
      ++ peek q OFF_PAYLOADLEN 2 ++ peek q OFF_PAYLOAD n
      = q.take (OFF_PAYLOAD + n) := by
  have a1 := peek_add q 0 1 4
  have a2 := peek_add q 0 5 4
  have a3 := peek_add q 0 9 2
  have a4 := peek_add q 0 11 32
  have a5 := peek_add q 0 43 2
  have a6 := peek_add q 0 45 n
  simp only [OFF_IDENTIFIER, OFF_EXPIRY, OFF_TOKENLEN, OFF_DEVICETOKEN, OFF_PAYLOADLEN,
    OFF_PAYLOAD, DEVICE_BINARY_SIZE]
  norm_num at a1 a2 a3 a4 a5 a6
  rw [a1, a2, a3, a4, a5, a6]
  simp [peek]

/-- Every packet `_sendPayload` assembles, whatever the device token, starts
with the command byte, the identifier and expiry in network order and the
token length 32, and is 45 bytes longer than the payload string. -/
theorem framePacket_header (pf : Platform) (m : ApnsMessage) (P : List Nat) (now : Int)
    (tmpi0 : Nat) (pkt : List Nat) (h : framePacket pf m P now tmpi0 = some pkt) :
    pkt.take 11 = [1, m.id / 2 ^ 24 % 256, m.id / 2 ^ 16 % 256, m.id / 2 ^ 8 % 256, m.id % 256,
        toU32 (now + 300) / 2 ^ 24 % 256, toU32 (now + 300) / 2 ^ 16 % 256,
        toU32 (now + 300) / 2 ^ 8 % 256, toU32 (now + 300) % 256, 0, 32] ∧
      pkt.length = 45 + P.length := by
  unfold framePacket at h
  simp only [memBytes_htonl, memBytes_htons, beBytes_four, beBytes_two] at h
  split at h
  · cases h
  rename_i hN
  have h32 : DEVICE_BINARY_SIZE / 2 ^ 8 % 256 = 0 := by decide
  have h32' : DEVICE_BINARY_SIZE % 256 = 32 := by decide
  rw [h32, h32', frame_scalars] at h
  set H : List Nat := [1, m.id / 2 ^ 24 % 256, m.id / 2 ^ 16 % 256, m.id / 2 ^ 8 % 256,
    m.id % 256, toU32 (now + 300) / 2 ^ 24 % 256, toU32 (now + 300) / 2 ^ 16 % 256,
    toU32 (now + 300) / 2 ^ 8 % 256, toU32 (now + 300) % 256, 0, 32] with hH
  set L : List Nat := [P.length / 2 ^ 8 % 256, P.length % 256] with hL
  have hHl : H.length = 11 := rfl
  have hLl : L.length = 2 := rfl
  have hS : PACKET_STRUCT_SIZE = 301 := rfl
  have hO : OFF_DEVICETOKEN = 11 := rfl
  have hOP : OFF_PAYLOAD = 45 := rfl
  have hM : MAXPAYLOAD_SIZE = 256 := rfl
  have hlen : (H ++ (List.replicate 32 0 ++ (L ++ List.replicate 256 0))).length
      = PACKET_STRUCT_SIZE := by
    simp only [List.length_append, List.length_replicate, hHl, hLl]
    rfl
  split at h
  · cases h
  rename_i p6 hconv
  obtain ⟨h6l, h6t⟩ := convertDeviceToken_header _ _ _ _ _ hlen hconv
  simp only [Option.some.injEq] at h
  rw [peeks_eq_take] at h
  have hpl : ((strncpy MAXPAYLOAD_SIZE P).take P.length).length = P.length := by
    rw [List.length_take, strncpy_length]; omega
  have h7l : (poke p6 OFF_PAYLOAD ((strncpy MAXPAYLOAD_SIZE P).take P.length)).length = 301 := by
    rw [poke_length _ _ _ (by rw [hpl, h6l, hS, hOP]; omega), h6l, hS]
  subst h
  refine ⟨?_, ?_⟩
  · rw [List.take_take, min_eq_left (by rw [hOP]; omega),
      poke_take_before _ _ _ _ (by rw [hOP]; omega) (by rw [h6l, hS, hOP]; omega)]
    rw [hO] at h6t
    rw [h6t, ← hHl, List.take_left' rfl]
  · rw [List.length_take, h7l, hOP]; omega


theorem findById_some (s : PushController) (id p : Nat) (h : s._findById id = some p) :
    p ∈ s.messageStageQueue ∧ (s.heap p).id = id := by
  unfold PushController._findById at h
  exact ⟨List.mem_of_find?_eq_some h, by simpa using List.find?_some h⟩

theorem findById_isSome (s : PushController) (id : Nat)
    (h : ∃ q ∈ s.messageStageQueue, (s.heap q).id = id) : ∃ p, s._findById id = some p := by
  obtain ⟨q, hq, hid⟩ := h
  unfold PushController._findById
  cases hf : s.messageStageQueue.find? (fun p => (s.heap p).id = id) with
  | some p => exact ⟨p, rfl⟩
  | none =>
    rw [List.find?_eq_none] at hf
    exact absurd (by simpa using hid) (hf q hq)

theorem charToInt_command (pf : Platform) : charToInt pf 8 = ERROR_RESPONSE_COMMAND := by
  unfold charToInt ERROR_RESPONSE_COMMAND
  simp

theorem peek_take (q : List Nat) (a n k : Nat) (h : a + n ≤ k) :
    peek (q.take k) a n = peek q a n := by
  unfold peek
  rw [List.drop_take, List.take_take]
  congr 1
  omega

/-- What `_processResponseFromApns` does with an error response (command 8)
whose identifier names a staged message. -/
theorem processResponse_found (pf : Platform) (s : PushController) (r : ApnsResponse) (p : Nat)
    (hc : r.command = 8) (hf : s._findById (ntohl pf (memValue pf r.identifier)) = some p) :
    s._processResponseFromApns pf r = some
      { s with
        messageStageQueue := setErase p s.messageStageQueue
        messageErrorQueue := setInsert p s.messageErrorQueue
        heap := Function.update s.heap p { s.heap p with error := charToInt pf r.status } } := by
  have hp := (findById_some s _ p hf).1
  simp only [PushController._processResponseFromApns, hc, charToInt_command, ne_eq,
    not_true_eq_false, if_false, hf, PushController._removeMessageFromQueue, hp, if_true]


/-! ## The paths of `_sendPayload` -/

/-- The path of `_sendPayload` on which the retry check fails. -/
theorem sendPayload_exhausted (pf : Platform) (s : PushController) (p : Nat) (now : Int)
    (io : SendIo) (hp : p ∈ s.messageStageQueue) (hretry : (s.heap p).retry.2 = false) :
    s._sendPayload pf p now io = some
      ({ s with
          heap := Function.update s.heap p (s.heap p).retry.1
          messageStageQueue := setErase p s.messageStageQueue
          destroyed := setInsert p s.destroyed }, false) := by
  simp only [PushController._sendPayload, hretry, Bool.not_false, if_true,
    PushController._removeMessageFromQueue, hp, not_true_eq_false, if_false,
    Bool.false_eq_true, PushController.delete]

/-- The path of `_sendPayload` on which `getPayload` throws. -/
theorem sendPayload_payloadFailure (pf : Platform) (s : PushController) (p : Nat) (now : Int)
    (io : SendIo) (hp : p ∈ s.messageStageQueue) (hretry : (s.heap p).retry.2 = true)
    (hP : (s.heap p).getPayload = none) :
    s._sendPayload pf p now io = some
      ({ s with
          heap := Function.update s.heap p
            { (s.heap p).retry.1 with error := ERR_INVALID_PAYLOAD_SIZE }
          messageStageQueue := setErase p s.messageStageQueue
          messageErrorQueue := setInsert p s.messageErrorQueue }, false) := by
  have hP' : (s.heap p).retry.1.getPayload = none := hP
  simp only [PushController._sendPayload, hretry, Bool.not_true, Bool.false_eq_true, if_false,
    hP', PushController._removeMessageFromQueue, hp, not_true_eq_false, if_true,
    Function.update_idem]

/-- The path of `_sendPayload` on which the token conversion leaves the struct. -/
theorem sendPayload_fault (pf : Platform) (s : PushController) (p : Nat) (now : Int)
    (io : SendIo) (P : List Nat) (hretry : (s.heap p).retry.2 = true)
    (hP : (s.heap p).getPayload = some P)
    (hF : framePacket pf (s.heap p).retry.1 P now io.tmpi0 = none) :
    s._sendPayload pf p now io = none := by
  have hP' : (s.heap p).retry.1.getPayload = some P := hP
  simp only [PushController._sendPayload, hretry, Bool.not_true, Bool.false_eq_true, if_false,
    hP', hF]


/-! ## Effects of the response handler and of one loop iteration -/

theorem processResponse_effect (pf : Platform) (s : PushController) (r : ApnsResponse) :
    ∃ s1, s._processResponseFromApns pf r = some s1 ∧ ErrorMove s s1 ∧
      s1.toSslController = s.toSslController ∧ s1.numStatsSent = s.numStatsSent ∧
      s1.lastId = s.lastId := by
  unfold PushController._processResponseFromApns
  simp only
  split
  · exact ⟨s, rfl, Or.inl ⟨rfl, rfl, rfl, rfl, rfl, rfl⟩, rfl, rfl, rfl⟩
  · split
    · exact ⟨s, rfl, Or.inl ⟨rfl, rfl, rfl, rfl, rfl, rfl⟩, rfl, rfl, rfl⟩
    · rename_i p hf
      have hp := (findById_some s _ p hf).1
      simp only [PushController._removeMessageFromQueue, hp, not_true_eq_false, if_false,
        if_true]
      exact ⟨_, rfl, Or.inr ⟨p, _, hp, rfl, rfl, rfl, rfl, rfl, rfl⟩, rfl, rfl, rfl⟩

theorem readResponse_effect (pf : Platform) (s : PushController) (io : ReadIo) :
    ∃ s1 n, s._readResponseFromApns pf io = some (s1, n) ∧ ErrorMove s s1 ∧
      s1.toSslController = (s.toSslController.read io).1 ∧
      s1.numStatsSent = s.numStatsSent ∧ s1.lastId = s.lastId := by
  unfold PushController._readResponseFromApns
  simp only
  split
  · exact ⟨_, _, rfl, Or.inl ⟨rfl, rfl, rfl, rfl, rfl, rfl⟩, rfl, rfl, rfl⟩
  · obtain ⟨s1, h1, h2, h3, h4, h5⟩ := processResponse_effect pf
      { s with toSslController := (s.toSslController.read io).1 }
      { command := (peek io.buf 0 1).headD 0
        status := (peek io.buf 1 1).headD 0
        identifier := peek io.buf 2 4 }
    rw [h1]
    exact ⟨s1, _, rfl, h2, h3, h4, h5⟩

/-- One loop iteration is a call of `_sendPayload` on the message moved to
the stage queue, followed by at most one move to the error queue. -/
theorem sendLoopBody_effect (pf : Platform) (now : Int) (io : LoopIo) (s s1 : PushController)
    (ptr : Nat) (h : s.sendLoopBody pf now io ptr = some s1) :
    ∃ s2 b, ({ s with
        messageStageQueue := setInsert ptr s.messageStageQueue
        messageSendQueue := setErase ptr s.messageSendQueue })._sendPayload pf ptr now io.send
          = some (s2, b) ∧
      ErrorMove s2 s1 ∧ s1.numStatsSent = s2.numStatsSent ∧ s1.lastId = s2.lastId := by
  unfold PushController.sendLoopBody at h
  simp only at h
  split at h
  · cases h
  · rename_i r hr
    obtain ⟨s3, n, h3, hm, -, hs, hl⟩ := readResponse_effect pf r.1 io.read
    rw [h3] at h
    simp only at h
    refine ⟨r.1, r.2, hr, ?_⟩
    split at h
    · cases h
      exact ⟨hm, hs, hl⟩
    · cases h
      exact ⟨hm, hs, hl⟩


theorem sendPayload_effect (pf : Platform) (s s2 : PushController) (p : Nat) (now : Int)
    (io : SendIo) (b : Bool) (hp : p ∈ s.messageStageQueue)
    (h : s._sendPayload pf p now io = some (s2, b)) :
    SendOutcome s p s2 ∧ s2.lastId = s.lastId := by
  cases hr : (s.heap p).retry.2 with
  | false =>
    rw [sendPayload_exhausted pf s p now io hp hr] at h
    cases h
    exact ⟨Or.inl ⟨hr, rfl, rfl, rfl, rfl, rfl, rfl⟩, rfl⟩
  | true =>
    cases hP : (s.heap p).getPayload with
    | none =>
      rw [sendPayload_payloadFailure pf s p now io hp hr hP] at h
      cases h
      exact ⟨Or.inr (Or.inl ⟨hr, hP, rfl, rfl, rfl, rfl, rfl, rfl⟩), rfl⟩
    | some P =>
      cases hF : framePacket pf (s.heap p).retry.1 P now io.tmpi0 with
      | none =>
        rw [sendPayload_fault pf s p now io P hr hP hF] at h
        cases h
      | some pkt =>
        obtain ⟨s3, h1, h2, h3, -, -, h6, h7, h8⟩ :=
          sendPayload_write pf s p now io P pkt hr hP hF
        rw [h1] at h
        cases h
        have hl : s2.lastId = s.lastId := by
          have := h1
          simp only [PushController._sendPayload] at this
          have hP' : (s.heap p).retry.1.getPayload = some P := hP
          simp only [hr, hP', hF, Bool.not_true, Bool.false_eq_true, if_false,
            Option.some.injEq, Prod.mk.injEq] at this
          rw [← this.1]
          split <;> rfl
        refine ⟨?_, hl⟩
        split at h8
        · exact Or.inr (Or.inr (Or.inl ⟨hr, ⟨pkt, h2⟩, h8.2, h8.1, h6, h7, h3⟩))
        · exact Or.inr (Or.inr (Or.inr ⟨hr, ⟨pkt, h2⟩, h8.2, h8.1, h6, h7, h3⟩))


/-! ## Invariants of one loop iteration -/

theorem sendLoopBody_outcome (pf : Platform) (now : Int) (io : LoopIo) (s s1 : PushController)
    (ptr : Nat) (h : s.sendLoopBody pf now io ptr = some s1) :
    ∃ s2, SendOutcome { s with
        messageStageQueue := setInsert ptr s.messageStageQueue
        messageSendQueue := setErase ptr s.messageSendQueue } ptr s2 ∧
      ErrorMove s2 s1 ∧ s1.lastId = s.lastId := by
  obtain ⟨s2, b, h1, h2, -, h4⟩ := sendLoopBody_effect pf now io s s1 ptr h
  obtain ⟨h5, h6⟩ := sendPayload_effect pf _ s2 ptr now io.send b
    (by simp [mem_setInsert]) h1
  exact ⟨s2, h5, h2, by rw [h4, h6]⟩

theorem sorted_setErase (x : Nat) (q : List Nat) (h : q.Pairwise (· < ·)) :
    (setErase x q).Pairwise (· < ·) :=
  List.Pairwise.filter _ h

theorem sorted_setInsert (x : Nat) (q : List Nat) (h : q.Pairwise (· < ·)) :
    (setInsert x q).Pairwise (· < ·) := by
  induction q with
  | nil => simp [setInsert]
  | cons y ys ih =>
    simp only [setInsert]
    have hy := List.pairwise_cons.mp h
    split_ifs with h1 h2
    · refine List.pairwise_cons.mpr ⟨?_, h⟩
      intro a ha
      simp only [List.mem_cons] at ha
      rcases ha with rfl | ha
      · exact h1
      · exact lt_trans h1 (hy.1 a ha)
    · exact h
    · refine List.pairwise_cons.mpr ⟨?_, ih hy.2⟩
      intro a ha
      rw [mem_setInsert] at ha
      rcases ha with rfl | ha
      · omega
      · exact hy.1 a ha

theorem nodup_of_sorted (q : List Nat) (h : q.Pairwise (· < ·)) : q.Nodup :=
  List.Pairwise.imp (fun hab => Nat.ne_of_lt hab) h

/-- One loop iteration on a message of the send queue keeps the four places
disjoint, keeps the send queue ascending, loses no message, and changes the
send queue at most at the message processed. -/
theorem sendLoopBody_invariant (pf : Platform) (now : Int) (io : LoopIo) (s s1 : PushController)
    (ptr : Nat) (h : s.sendLoopBody pf now io ptr = some s1) :
    (QueuesDisjoint s → ptr ∈ s.messageSendQueue → QueuesDisjoint s1) ∧
    (s.messageSendQueue.Pairwise (· < ·) → s1.messageSendQueue.Pairwise (· < ·)) ∧
    (∀ q, Tracked s q → Tracked s1 q) ∧
    (∀ q, q ≠ ptr → (q ∈ s1.messageSendQueue ↔ q ∈ s.messageSendQueue)) := by
  obtain ⟨s2, ho, hm, -⟩ := sendLoopBody_outcome pf now io s s1 ptr h
  have hsend : s1.messageSendQueue = s2.messageSendQueue := by
    rcases hm with ⟨b1, -⟩ | ⟨p, st, -, b1, -⟩ <;> exact b1
  refine ⟨?_, ?_, ?_, ?_⟩
  · intro hd hin q
    have hq := hd q
    have hptr := hd ptr
    rcases ho with ⟨-, a1, a2, a3, a4, -, -⟩ | ⟨-, -, a1, a2, a3, a4, -, -⟩
      | ⟨-, -, a1, a2, a3, a4, -⟩ | ⟨-, -, a1, a2, a3, a4, -⟩ <;>
    rcases hm with ⟨b1, b2, b3, b4, -, -⟩ | ⟨p, st, hp, b1, b2, b3, b4, -, -⟩
    all_goals
      first
      | (have hpp := hd p
         rw [a2] at hp
         simp only [b1, b2, b3, b4, a1, a2, a3, a4, mem_setInsert, mem_setErase] at hp ⊢
         by_cases e1 : q = ptr <;> by_cases e2 : q = p <;> by_cases e3 : p = ptr <;>
           simp_all)
      | (simp only [b1, b2, b3, b4, a1, a2, a3, a4, mem_setInsert, mem_setErase]
         by_cases e1 : q = ptr <;> simp_all)
  · intro hs
    rw [hsend]
    rcases ho with ⟨-, a1, -⟩ | ⟨-, -, a1, -⟩ | ⟨-, -, a1, -⟩ | ⟨-, -, a1, -⟩ <;> rw [a1]
    · exact sorted_setErase _ _ hs
    · exact sorted_setErase _ _ hs
    · exact sorted_setInsert _ _ (sorted_setErase _ _ hs)
    · exact sorted_setErase _ _ hs
  · intro q hq
    unfold Tracked at hq ⊢
    rcases ho with ⟨-, a1, a2, a3, a4, -, -⟩ | ⟨-, -, a1, a2, a3, a4, -, -⟩
      | ⟨-, -, a1, a2, a3, a4, -⟩ | ⟨-, -, a1, a2, a3, a4, -⟩ <;>
    rcases hm with ⟨b1, b2, b3, b4, -, -⟩ | ⟨p, st, hp, b1, b2, b3, b4, -, -⟩
    all_goals
      first
      | (simp only [b1, b2, b3, b4, a1, a2, a3, a4, mem_setInsert, mem_setErase]
         by_cases e1 : q = ptr <;> by_cases e2 : q = p <;> simp_all)
      | (simp only [b1, b2, b3, b4, a1, a2, a3, a4, mem_setInsert, mem_setErase]
         by_cases e1 : q = ptr <;> simp_all)
  · intro q hq
    rw [hsend]
    rcases ho with ⟨-, a1, -⟩ | ⟨-, -, a1, -⟩ | ⟨-, -, a1, -⟩ | ⟨-, -, a1, -⟩ <;> rw [a1] <;>
      simp [mem_setInsert, mem_setErase, hq]


/-! ## Invariants of the send loop and of `run` -/

/-- Induction over the send loop: a property of the remaining queue and the
state that survives dropping the head and is kept by one iteration holds,
for the empty queue, when the loop ends. -/
theorem sendLoop_induct (pf : Platform) (now : Int) (io : Nat → LoopIo)
    (I : List Nat → PushController → Prop)
    (hmono : ∀ ptr rest s, I (ptr :: rest) s → I rest s)
    (hstep : ∀ ptr rest k s s1, I (ptr :: rest) s → s.connected = true →
      s.sendLoopBody pf now (io k) ptr = some s1 → I rest s1) :
    ∀ l k s s1, I l s → PushController.sendLoop pf now io l k s = some s1 → I [] s1 := by
  intro l
  induction l with
  | nil =>
    intro k s s1 hI h
    simp only [PushController.sendLoop, Option.some.injEq] at h
    subst h
    exact hI
  | cons ptr rest ih =>
    intro k s s1 hI h
    have drop : ∀ (l : List Nat) s, I l s → I [] s := by
      intro l
      induction l with
      | nil => exact fun _ h => h
      | cons a l ih2 => exact fun s h => ih2 s (hmono a l s h)
    simp only [PushController.sendLoop, SslController.isConnected] at h
    cases hc : s.connected with
    | false =>
      simp only [hc, Bool.not_false, if_true, Option.some.injEq] at h
      subst h
      exact drop _ _ hI
    | true =>
      simp only [hc, Bool.not_true, Bool.false_eq_true, if_false] at h
      split at h
      · cases h
      · rename_i s2 hb
        exact ih (k + 1) s2 s1 (hstep ptr rest k s s2 hI hc hb) h

theorem sendLoop_invariant (pf : Platform) (now : Int) (io : Nat → LoopIo) (l : List Nat)
    (k : Nat) (s s1 : PushController) (hd : QueuesDisjoint s)
    (hs : s.messageSendQueue.Pairwise (· < ·)) (hl : l.Nodup)
    (hin : ∀ q ∈ l, q ∈ s.messageSendQueue)
    (h : PushController.sendLoop pf now io l k s = some s1) :
    QueuesDisjoint s1 ∧ s1.messageSendQueue.Pairwise (· < ·) ∧ ∀ q, Tracked s q → Tracked s1 q := by
  have key := sendLoop_induct pf now io
    (fun rest t => QueuesDisjoint t ∧ t.messageSendQueue.Pairwise (· < ·) ∧ rest.Nodup ∧
      (∀ q ∈ rest, q ∈ t.messageSendQueue) ∧ ∀ q, Tracked s q → Tracked t q)
    (by
      intro ptr rest t ⟨h1, h2, h3, h4, h5⟩
      exact ⟨h1, h2, (List.nodup_cons.mp h3).2, fun q hq => h4 q (List.mem_cons_of_mem _ hq), h5⟩)
    (by
      intro ptr rest k t t1 ⟨h1, h2, h3, h4, h5⟩ _ hb
      obtain ⟨i1, i2, i3, i4⟩ := sendLoopBody_invariant pf now (io k) t t1 ptr hb
      have hn := List.nodup_cons.mp h3
      refine ⟨i1 h1 (h4 ptr (List.mem_cons_self _ _)), i2 h2, hn.2, ?_, fun q hq => i3 q (h5 q hq)⟩
      intro q hq
      have hne : q ≠ ptr := fun e => hn.1 (e ▸ hq)
      exact (i4 q hne).mpr (h4 q (List.mem_cons_of_mem _ hq)))
    l k s s1 ⟨hd, hs, hl, hin, fun _ h => h⟩ h
  exact ⟨key.1, key.2.1, key.2.2.2.2⟩

theorem processMessageSendQueue_invariant (pf : Platform) (s s1 : PushController) (io : TickIo)
    (hd : QueuesDisjoint s) (hs : s.messageSendQueue.Pairwise (· < ·))
    (h : s._processMessageSendQueue pf io = some s1) :
    QueuesDisjoint s1 ∧ s1.messageSendQueue.Pairwise (· < ·) ∧ ∀ q, Tracked s q → Tracked s1 q := by
  unfold PushController._processMessageSendQueue at h
  split at h
  · cases h; exact ⟨hd, hs, fun _ h => h⟩
  · split at h
    · cases h; exact ⟨hd, hs, fun _ h => h⟩
    · split at h
      · exact sendLoop_invariant pf io.now io.loop _ 0
          { s with toSslController := (s.toSslController.connect io.connectOk).1 } s1 hd hs
          (nodup_of_sorted _ hs) (fun _ h => h) h
      · exact sendLoop_invariant pf io.now io.loop _ 0 s s1 hd hs (nodup_of_sorted _ hs)
          (fun _ h => h) h

theorem mem_foldl_setErase (l q : List Nat) (a : Nat) :
    a ∈ l.foldl (fun q p => setErase p q) q ↔ a ∈ q ∧ a ∉ l := by
  induction l generalizing q with
  | nil => simp
  | cons x l ih =>
    simp only [List.foldl_cons, ih, mem_setErase, List.mem_cons, not_or]
    tauto

theorem mem_foldl_setInsert (l d : List Nat) (a : Nat) :
    a ∈ l.foldl (fun d p => setInsert p d) d ↔ a ∈ d ∨ a ∈ l := by
  induction l generalizing d with
  | nil => simp
  | cons x l ih =>
    simp only [List.foldl_cons, ih, mem_setInsert, List.mem_cons]
    tauto

theorem mem_expiredOf (heap : Nat → ApnsMessage) (now : Int) (q : List Nat) (a : Nat) :
    a ∈ expiredOf heap now q ↔ a ∈ q ∧ now > (heap a).expiry := by
  unfold expiredOf
  have gen : ∀ (q acc : List Nat),
      a ∈ q.foldl (fun removeMe p => if now > (heap p).expiry then setInsert p removeMe
        else removeMe) acc ↔ a ∈ acc ∨ (a ∈ q ∧ now > (heap a).expiry) := by
    intro q
    induction q with
    | nil => simp
    | cons x q ih =>
      intro acc
      simp only [List.foldl_cons, ih, List.mem_cons]
      split_ifs with hx
      · rw [mem_setInsert]
        constructor
        · rintro ((rfl | h) | h)
          · exact Or.inr ⟨Or.inl rfl, hx⟩
          · exact Or.inl h
          · exact Or.inr ⟨Or.inr h.1, h.2⟩
        · rintro (h | ⟨rfl | h, h2⟩)
          · exact Or.inl (Or.inr h)
          · exact Or.inl (Or.inl rfl)
          · exact Or.inr ⟨h, h2⟩
      · constructor
        · rintro (h | h)
          · exact Or.inl h
          · exact Or.inr ⟨Or.inr h.1, h.2⟩
        · rintro (h | ⟨rfl | h, h2⟩)
          · exact Or.inl h
          · exact absurd h2 hx
          · exact Or.inr ⟨h, h2⟩
  simpa using gen q []


theorem run_invariant (pf : Platform) (s s1 : PushController) (io : TickIo) (b : Bool)
    (hd : QueuesDisjoint s) (hs : s.messageSendQueue.Pairwise (· < ·))
    (h : s.run pf io = some (s1, b)) :
    QueuesDisjoint s1 ∧ s1.messageSendQueue.Pairwise (· < ·) ∧ ∀ q, Tracked s q → Tracked s1 q := by
  unfold PushController.run at h
  split at h
  · cases h; exact ⟨hd, hs, fun _ h => h⟩
  · split at h
    · cases h
    · rename_i s2 hp
      have hpre : QueuesDisjoint (if io.now > s.logStatsTs then s._logStats io.now else s) ∧
          (if io.now > s.logStatsTs then s._logStats io.now else s).messageSendQueue.Pairwise
            (· < ·) ∧
          ∀ q, Tracked s q → Tracked (if io.now > s.logStatsTs then s._logStats io.now else s) q := by
        split
        · exact ⟨hd, hs, fun _ h => h⟩
        · exact ⟨hd, hs, fun _ h => h⟩
      obtain ⟨i1, i2, i3⟩ := processMessageSendQueue_invariant pf _ s2 io hpre.1 hpre.2.1 hp
      simp only [Option.some.injEq, Prod.mk.injEq] at h
      obtain ⟨h, -⟩ := h
      subst h
      have he : ∀ t : PushController,
          (t._expireIdleConnection io.now io.idleDisc).messageSendQueue = t.messageSendQueue ∧
          (t._expireIdleConnection io.now io.idleDisc).messageStageQueue = t.messageStageQueue ∧
          (t._expireIdleConnection io.now io.idleDisc).messageErrorQueue = t.messageErrorQueue ∧
          (t._expireIdleConnection io.now io.idleDisc).destroyed = t.destroyed ∧
          (t._expireIdleConnection io.now io.idleDisc).heap = t.heap := by
        intro t
        unfold PushController._expireIdleConnection
        split
        · exact ⟨rfl, rfl, rfl, rfl, rfl⟩
        · split <;> exact ⟨rfl, rfl, rfl, rfl, rfl⟩
      obtain ⟨e1, e2, e3, e4, e5⟩ := he s2
      refine ⟨?_, ?_, ?_⟩
      · intro q
        have hq := i1 q
        simp only [_removeExpiredMessagesFromQueue, mem_foldl_setErase, mem_foldl_setInsert,
          mem_expiredOf, e1, e2, e3, e4, e5]
        tauto
      · simp only [e1]; exact i2
      · intro q hq
        have hq2 := i3 q (hpre.2.2 q hq)
        unfold Tracked at hq2 ⊢
        simp only [_removeExpiredMessagesFromQueue, mem_foldl_setErase, mem_foldl_setInsert,
          mem_expiredOf, e1, e2, e3, e4, e5]
        tauto

theorem add_invariant (s : PushController) (p : Nat) (m : ApnsMessage) (now : Int)
    (hd : QueuesDisjoint s) (hs : s.messageSendQueue.Pairwise (· < ·))
    (h1 : p ∉ s.messageSendQueue) (h2 : p ∉ s.messageStageQueue)
    (h3 : p ∉ s.messageErrorQueue) :
    QueuesDisjoint ((s.construct p m).add p now) ∧
    ((s.construct p m).add p now).messageSendQueue.Pairwise (· < ·) ∧
    (∀ q, Tracked s q → Tracked ((s.construct p m).add p now) q) ∧
    Tracked ((s.construct p m).add p now) p := by
  refine ⟨?_, sorted_setInsert _ _ hs, ?_, ?_⟩
  · intro q
    have hq := hd q
    simp only [PushController.add, PushController._add, PushController.construct,
      mem_setInsert, mem_setErase]
    by_cases e : q = p
    · subst e; simp_all
    · simp_all
  · intro q hq
    unfold Tracked at hq ⊢
    simp only [PushController.add, PushController._add, PushController.construct,
      mem_setInsert, mem_setErase]
    by_cases e : q = p
    · subst e; simp
    · simp_all
  · unfold Tracked
    simp [PushController.add, PushController._add, PushController.construct, mem_setInsert]

theorem remove_invariant (s : PushController) (p : Nat)
    (hd : QueuesDisjoint s) (hs : s.messageSendQueue.Pairwise (· < ·)) :
    QueuesDisjoint (s.remove p).1 ∧ (s.remove p).1.messageSendQueue.Pairwise (· < ·) ∧
    ∀ q, Tracked s q → Tracked (s.remove p).1 q := by
  unfold PushController.remove PushController._remove
  split
  · exact ⟨hd, hs, fun _ h => h⟩
  · rename_i hin
    refine ⟨?_, sorted_setErase _ _ hs, ?_⟩
    · intro q
      have hq := hd q
      have hp := hd p
      simp only [PushController.delete, mem_setInsert, mem_setErase]
      by_cases e : q = p
      · subst e; simp_all
      · simp_all
    · intro q hq
      unfold Tracked at hq ⊢
      simp only [PushController.delete, mem_setInsert, mem_setErase]
      by_cases e : q = p
      · subst e; simp
      · simp_all

theorem exec_invariant (pf : Platform) (ops : List Op) (s s1 : PushController)
    (hd : QueuesDisjoint s) (hs : s.messageSendQueue.Pairwise (· < ·))
    (hf : freshAdds pf s ops = true) (h : PushController.exec pf s ops = some s1) :
    QueuesDisjoint s1 ∧ s1.messageSendQueue.Pairwise (· < ·) ∧
    (∀ q, Tracked s q → Tracked s1 q) ∧ ∀ q ∈ addedMessages ops, Tracked s1 q := by
  induction ops generalizing s with
  | nil =>
    simp only [PushController.exec, Option.some.injEq] at h
    subst h
    exact ⟨hd, hs, fun _ h => h, by simp [addedMessages]⟩
  | cons op ops ih =>
    simp only [PushController.exec] at h
    simp only [freshAdds, Bool.and_eq_true] at hf
    obtain ⟨hf1, hf2⟩ := hf
    cases op with
    | add p m now =>
      simp only [PushController.step] at h hf2
      simp only [Bool.and_eq_true, decide_eq_true_eq] at hf1
      obtain ⟨a1, a2, a3, a4⟩ := add_invariant s p m now hd hs hf1.1.1 hf1.1.2 hf1.2
      obtain ⟨b1, b2, b3, b4⟩ := ih _ a1 a2 hf2 h
      refine ⟨b1, b2, fun q hq => b3 q (a3 q hq), ?_⟩
      intro q hq
      simp only [addedMessages, List.mem_cons] at hq
      rcases hq with rfl | hq
      · exact b3 _ a4
      · exact b4 q hq
    | remove p =>
      simp only [PushController.step] at h hf2
      obtain ⟨a1, a2, a3⟩ := remove_invariant s p hd hs
      obtain ⟨b1, b2, b3, b4⟩ := ih _ a1 a2 hf2 h
      exact ⟨b1, b2, fun q hq => b3 q (a3 q hq), fun q hq => b4 q (by
        simpa [addedMessages] using hq)⟩
    | run io =>
      simp only [PushController.step] at h hf2
      cases hr : s.run pf io with
      | none => simp [hr] at h
      | some r =>
        simp only [hr, Option.map_some'] at h hf2
        obtain ⟨a1, a2, a3⟩ := run_invariant pf s r.1 io r.2 hd hs hr
        obtain ⟨b1, b2, b3, b4⟩ := ih _ a1 a2 hf2 h
        exact ⟨b1, b2, fun q hq => b3 q (a3 q hq), fun q hq => b4 q (by
          simpa [addedMessages] using hq)⟩


/-! ## What one loop iteration does to the messages in memory -/

theorem errorMove_heap (s2 s1 : PushController) (h : ErrorMove s2 s1) (q : Nat) :
    (s1.heap q).retries = (s2.heap q).retries ∧ (s1.heap q).maxRetries = (s2.heap q).maxRetries ∧
    (s1.heap q).id = (s2.heap q).id ∧ (s1.heap q).deviceToken = (s2.heap q).deviceToken ∧
    (s1.heap q).expiry = (s2.heap q).expiry ∧
    s1.messageSendQueue = s2.messageSendQueue ∧ s1.writeLog = s2.writeLog := by
  rcases h with ⟨b1, -, -, -, b5, b6⟩ | ⟨p, st, -, b1, -, -, -, b5, b6⟩
  · rw [b5]; exact ⟨rfl, rfl, rfl, rfl, rfl, b1, b6⟩
  · rw [b5]
    by_cases e : q = p
    · subst e; simp [b1, b6]
    · simp [Function.update_noteq e, b1, b6]

theorem sendOutcome_heap (s s2 : PushController) (p : Nat) (h : SendOutcome s p s2) (q : Nat) :
    (s2.heap q).maxRetries = (s.heap q).maxRetries ∧
    (s2.heap q).id = (s.heap q).id ∧ (s2.heap q).deviceToken = (s.heap q).deviceToken ∧
    (s2.heap q).expiry = (s.heap q).expiry ∧
    (q ≠ p → s2.heap q = s.heap q) ∧
    (s2.heap p).retries = ((s.heap p).retries + 1) % 2 ^ 32 := by
  have key : s2.heap = Function.update s.heap p (s.heap p).retry.1 ∨
      s2.heap = Function.update s.heap p
        { (s.heap p).retry.1 with error := ERR_INVALID_PAYLOAD_SIZE } := by
    rcases h with ⟨-, -, -, -, -, a, -⟩ | ⟨-, -, -, -, -, -, a, -⟩ | ⟨-, -, -, -, -, -, a⟩
      | ⟨-, -, -, -, -, -, a⟩
    · exact Or.inl a
    · exact Or.inr a
    · exact Or.inl a
    · exact Or.inl a
  rcases key with a | a <;> rw [a] <;> by_cases e : q = p
  · subst e; simp [ApnsMessage.retry]
  · simp [Function.update_noteq e, ApnsMessage.retry]
  · subst e; simp [ApnsMessage.retry]
  · simp [Function.update_noteq e, ApnsMessage.retry]

theorem sendOutcome_log (s s2 : PushController) (p : Nat) (h : SendOutcome s p s2) :
    (s2.writeLog = s.writeLog ∧ ¬ (p ∈ s2.messageSendQueue ∧ p ∉ s.messageSendQueue)) ∨
    ((s.heap p).retry.2 = true ∧
      ∃ pkt, s2.writeLog = s.writeLog ++ [WriteCall.mk p (s.heap p).retry.1 pkt]) := by
  rcases h with ⟨-, a1, -, -, -, -, a⟩ | ⟨-, -, a1, -, -, -, -, a⟩ | ⟨hr, a, -⟩ | ⟨hr, a, -⟩
  · exact Or.inl ⟨a, by rw [a1]; tauto⟩
  · exact Or.inl ⟨a, by rw [a1]; tauto⟩
  · exact Or.inr ⟨hr, a⟩
  · exact Or.inr ⟨hr, a⟩

/-- One loop iteration keeps the retry budget of any message whose allowance
is below `2^32 - 1`, provided that message, when it is the one processed, is
in the send queue. -/
theorem sendLoopBody_retryBudget (pf : Platform) (now : Int) (io : LoopIo)
    (s s1 : PushController) (ptr : Nat) (L0 : List WriteCall) (p M : Nat)
    (hM : M < 2 ^ 32 - 1) (hJ : RetryBudget L0 p M s)
    (hin : ptr = p → p ∈ s.messageSendQueue)
    (h : s.sendLoopBody pf now io ptr = some s1) : RetryBudget L0 p M s1 := by
  obtain ⟨s2, ho, hm, -⟩ := sendLoopBody_outcome pf now io s s1 ptr h
  obtain ⟨-, -, -, i4⟩ := sendLoopBody_invariant pf now io s s1 ptr h
  obtain ⟨new, j1, j2, j3, j4, j5⟩ := hJ
  have e1 := errorMove_heap s2 s1 hm p
  have o1 := sendOutcome_heap _ s2 ptr ho p
  have hmax : (s1.heap p).maxRetries = M := by rw [e1.2.1, o1.1]; exact j4
  by_cases e : ptr = p
  · subst e
    obtain ⟨k1, k2⟩ := j5 (hin rfl)
    have hret : (s1.heap ptr).retries = ((s.heap ptr).retries + 1) % 2 ^ 32 := by
      rw [e1.1, o1.2.2.2.2.2]
    have hlt : ((s.heap ptr).retries + 1) % 2 ^ 32 = (s.heap ptr).retries + 1 :=
      Nat.mod_eq_of_lt (by omega)
    rcases ho with ⟨-, a1, -, -, -, -, a⟩ | ⟨-, -, a1, -, -, -, -, a⟩ | ⟨hr, ⟨pkt, a⟩, a1, -⟩
      | ⟨hr, ⟨pkt, a⟩, a1, -⟩
    · refine ⟨new, by rw [e1.2.2.2.2.2.2, a]; exact j1, j2, j3, hmax, ?_⟩
      intro hc
      rw [e1.2.2.2.2.2.1, a1] at hc
      simp [mem_setErase] at hc
    · refine ⟨new, by rw [e1.2.2.2.2.2.2, a]; exact j1, j2, j3, hmax, ?_⟩
      intro hc
      rw [e1.2.2.2.2.2.1, a1] at hc
      simp [mem_setErase] at hc
    · have hr' : (s.heap ptr).retries + 1 ≤ M := by
        simp only [ApnsMessage.retry, Bool.not_eq_true', decide_eq_false_iff_not, not_lt,
          gt_iff_lt] at hr
        rw [hlt] at hr
        exact hr.trans (le_of_eq j4)
      refine ⟨new ++ [WriteCall.mk ptr (s.heap ptr).retry.1 pkt], ?_, ?_, ?_, hmax, ?_⟩
      · rw [e1.2.2.2.2.2.2, a]
        simp only [j1, List.append_assoc]
      · simp only [List.filter_append, List.length_append, List.filter_cons, List.filter_nil,
          decide_True, if_true, List.length_singleton]
        omega
      · intro w hw hp
        simp only [List.mem_append, List.mem_singleton] at hw
        rcases hw with hw | rfl
        · exact j3 w hw hp
        · simp only [ApnsMessage.retry]
          rw [hlt, j4]
          exact ⟨hr', rfl⟩
      · intro _
        rw [hret, hlt]
        simp only [List.filter_append, List.length_append, List.filter_cons, List.filter_nil,
          decide_True, if_true, List.length_singleton]
        omega
    · refine ⟨new ++ [WriteCall.mk ptr (s.heap ptr).retry.1 pkt], ?_, ?_, ?_, hmax, ?_⟩
      · rw [e1.2.2.2.2.2.2, a]
        simp only [j1, List.append_assoc]
      · have hr' : (s.heap ptr).retries + 1 ≤ M := by
          simp only [ApnsMessage.retry, Bool.not_eq_true', decide_eq_false_iff_not, not_lt,
            gt_iff_lt] at hr
          rw [hlt] at hr
          exact hr.trans (le_of_eq j4)
        simp only [List.filter_append, List.length_append, List.filter_cons, List.filter_nil,
          decide_True, if_true, List.length_singleton]
        omega
      · intro w hw hp
        simp only [List.mem_append, List.mem_singleton] at hw
        rcases hw with hw | rfl
        · exact j3 w hw hp
        · have hr' : (s.heap ptr).retries + 1 ≤ M := by
            simp only [ApnsMessage.retry, Bool.not_eq_true', decide_eq_false_iff_not, not_lt,
              gt_iff_lt] at hr
            rw [hlt] at hr
            exact hr.trans (le_of_eq j4)
          simp only [ApnsMessage.retry]
          rw [hlt, j4]
          exact ⟨hr', rfl⟩
      · intro hc
        rw [e1.2.2.2.2.2.1, a1] at hc
        simp [mem_setErase] at hc
  · have hne : p ≠ ptr := fun e' => e e'.symm
    have hsame : s2.heap p = ({ s with
        messageStageQueue := setInsert ptr s.messageStageQueue
        messageSendQueue := setErase ptr s.messageSendQueue } : PushController).heap p :=
      o1.2.2.2.2.1 hne
    have hret : (s1.heap p).retries = (s.heap p).retries := by rw [e1.1, hsame]
    have hsend : p ∈ s1.messageSendQueue ↔ p ∈ s.messageSendQueue := i4 p hne
    rcases sendOutcome_log _ s2 ptr ho with ⟨a, -⟩ | ⟨-, pkt, a⟩
    · refine ⟨new, by rw [e1.2.2.2.2.2.2, a]; exact j1, j2, j3, hmax, ?_⟩
      intro hc
      rw [hret]
      exact j5 (hsend.mp hc)
    · have hf : (List.filter (fun w => decide (w.ptr = p))
          (new ++ [WriteCall.mk ptr (s.heap ptr).retry.1 pkt])).length
          = (List.filter (fun w => decide (w.ptr = p)) new).length := by
        simp [List.filter_append, List.filter_cons, e]
      refine ⟨new ++ [WriteCall.mk ptr (s.heap ptr).retry.1 pkt], ?_, ?_, ?_, hmax, ?_⟩
      · rw [e1.2.2.2.2.2.2, a]
        simp only [j1, List.append_assoc]
      · rw [hf]; exact j2
      · intro w hw hp
        simp only [List.mem_append, List.mem_singleton] at hw
        rcases hw with hw | rfl
        · exact j3 w hw hp
        · exact absurd hp e
      · intro hc
        rw [hret, hf]
        exact j5 (hsend.mp hc)


/-! ## Claims -/

/-- C1: for a message whose device token is 64 hex digits with spaces only
between byte pairs, whose payload `P` is accepted by `getPayload` (so at most
256 bytes) and whose retry check passes, `_sendPayload` returns and hands to
`write()` exactly: 0x01, the id big-endian on 4 bytes, `(now+300) mod 2^32`
big-endian on 4 bytes, 0x00 0x20, the 32 token bytes, the payload length
big-endian on 2 bytes, then `P`; that is `45 + N` bytes. -/
theorem c1_frame_layout (pf : Platform) (s : PushController) (aMessage : Nat) (now : Int)
    (io : SendIo) (P : List Nat)
    (htok : pairAligned (s.heap aMessage).deviceToken = true)
    (h64 : (stripSpaces (s.heap aMessage).deviceToken).length = 64)
    (hP : (s.heap aMessage).getPayload = some P)
    (hretry : (s.heap aMessage).retry.2 = true) :
    ∃ s1 b packet, s._sendPayload pf aMessage now io = some (s1, b) ∧
      s1.writeLog.map WriteCall.packet = s.writeLog.map WriteCall.packet ++ [packet] ∧
      packet =
        [1, (s.heap aMessage).id / 2 ^ 24 % 256, (s.heap aMessage).id / 2 ^ 16 % 256,
          (s.heap aMessage).id / 2 ^ 8 % 256, (s.heap aMessage).id % 256,
          (((now + 300) % 2 ^ 32).toNat) / 2 ^ 24 % 256,
          (((now + 300) % 2 ^ 32).toNat) / 2 ^ 16 % 256,
          (((now + 300) % 2 ^ 32).toNat) / 2 ^ 8 % 256,
          (((now + 300) % 2 ^ 32).toNat) % 256, 0, 32]
        ++ hexPairs (stripSpaces (s.heap aMessage).deviceToken)
        ++ [P.length / 2 ^ 8 % 256, P.length % 256] ++ P ∧
      (hexPairs (stripSpaces (s.heap aMessage).deviceToken)).length = 32 ∧
      P.length ≤ 256 ∧ packet.length = 45 + P.length := by
  obtain ⟨hnul, hlen⟩ := getPayload_no_nul _ P hP
  have hc : cstr (s.heap aMessage).deviceToken = (s.heap aMessage).deviceToken :=
    cstr_of_no_nul _ (pairAligned_no_nul _ htok)
  have htb : ∀ t, tokenBytes (cstr (s.heap aMessage).retry.1.deviceToken) t
      = hexPairs (stripSpaces (s.heap aMessage).deviceToken) := by
    intro t
    rw [retry_deviceToken, hc, tokenBytes_aligned _ _ htok]
  have h32 : (hexPairs (stripSpaces (s.heap aMessage).deviceToken)).length = 32 := by
    rw [hexPairs_length, h64]
  have hF := framePacket_eq pf (s.heap aMessage).retry.1 P now io.tmpi0 hnul hlen (by
    rw [htb, h32]; decide)
  rw [htb, h32, retry_id] at hF
  simp only [Nat.sub_self, List.replicate_zero, List.append_nil, toU32] at hF
  obtain ⟨s1, h1, h2, -⟩ := sendPayload_write pf s aMessage now io P _ hretry hP hF
  exact ⟨s1, _, _, h1, by rw [h2]; simp, rfl, h32, hlen, by
    simp only [List.length_append, List.length_cons, List.length_nil, h32]⟩

theorem c1_frame_layout_witness :
    pairAligned (exampleStaged.heap 10).deviceToken = true ∧
    (stripSpaces (exampleStaged.heap 10).deviceToken).length = 64 ∧
    (exampleStaged.heap 10).getPayload = some (buildPayload exampleMessage) ∧
    (exampleStaged.heap 10).retry.2 = true ∧
    ∃ s1 b packet, exampleStaged._sendPayload examplePlatform 10 1000 exampleSendIo
        = some (s1, b) ∧
      s1.writeLog.map WriteCall.packet = exampleStaged.writeLog.map WriteCall.packet ++ [packet] ∧
      packet =
        [1, (exampleStaged.heap 10).id / 2 ^ 24 % 256, (exampleStaged.heap 10).id / 2 ^ 16 % 256,
          (exampleStaged.heap 10).id / 2 ^ 8 % 256, (exampleStaged.heap 10).id % 256,
          ((((1000 : Int) + 300) % 2 ^ 32).toNat) / 2 ^ 24 % 256,
          ((((1000 : Int) + 300) % 2 ^ 32).toNat) / 2 ^ 16 % 256,
          ((((1000 : Int) + 300) % 2 ^ 32).toNat) / 2 ^ 8 % 256,
          ((((1000 : Int) + 300) % 2 ^ 32).toNat) % 256, 0, 32]
        ++ hexPairs (stripSpaces (exampleStaged.heap 10).deviceToken)
        ++ [(buildPayload exampleMessage).length / 2 ^ 8 % 256,
            (buildPayload exampleMessage).length % 256] ++ buildPayload exampleMessage ∧
      (hexPairs (stripSpaces (exampleStaged.heap 10).deviceToken)).length = 32 ∧
      (buildPayload exampleMessage).length ≤ 256 ∧
      packet.length = 45 + (buildPayload exampleMessage).length :=
  ⟨by decide, by decide, by decide, by decide,
    c1_frame_layout examplePlatform exampleStaged 10 1000 exampleSendIo
      (buildPayload exampleMessage) (by decide) (by decide) (by decide) (by decide)⟩

/-- C2: an error response (command byte 8) whose four identifier bytes, read
most significant first, give the id of a staged message makes
`_processResponseFromApns` move exactly one message carrying that id from
the stage queue to the error queue, every other message staying in its
queue; and that decoding inverts the identifier encoding found at offsets
1..5 of a framed packet. -/
theorem c2_error_response_moves_named_message (pf : Platform) (s : PushController)
    (status b0 b1 b2 b3 : Nat) (h0 : b0 < 256) (h1 : b1 < 256) (h2 : b2 < 256) (h3 : b3 < 256)
    (hex : ∃ q ∈ s.messageStageQueue,
      (s.heap q).id = b0 * 2 ^ 24 + b1 * 2 ^ 16 + b2 * 2 ^ 8 + b3) :
    (∃ p s1,
      s._processResponseFromApns pf
        { command := 8, status := status, identifier := [b0, b1, b2, b3] } = some s1 ∧
      p ∈ s.messageStageQueue ∧
      (s.heap p).id = b0 * 2 ^ 24 + b1 * 2 ^ 16 + b2 * 2 ^ 8 + b3 ∧
      p ∉ s1.messageStageQueue ∧ p ∈ s1.messageErrorQueue ∧
      s1.messageSendQueue = s.messageSendQueue ∧
      (∀ q, q ≠ p →
        ((q ∈ s1.messageStageQueue ↔ q ∈ s.messageStageQueue) ∧
         (q ∈ s1.messageErrorQueue ↔ q ∈ s.messageErrorQueue) ∧
         s1.heap q = s.heap q))) ∧
    (∀ (m : ApnsMessage) (P : List Nat) (now : Int) (tmpi0 : Nat) (pkt : List Nat),
      m.id < 2 ^ 32 → framePacket pf m P now tmpi0 = some pkt →
      ntohl pf (memValue pf (peek pkt 1 4)) = m.id) := by
  constructor
  · have hid := ntohl_memValue pf b0 b1 b2 b3 h0 h1 h2 h3
    obtain ⟨p, hp⟩ := findById_isSome s _ hex
    have hp' : s._findById (ntohl pf (memValue pf
        (ApnsResponse.mk 8 status [b0, b1, b2, b3]).identifier)) = some p := by
      simpa [hid] using hp
    obtain ⟨hm, hi⟩ := findById_some s _ p hp
    refine ⟨p, _, processResponse_found pf s _ p rfl hp', hm, hi, ?_, ?_, rfl, ?_⟩
    · simp [mem_setErase]
    · simp [mem_setInsert]
    · intro q hq
      refine ⟨?_, ?_, ?_⟩
      · simp [mem_setErase, hq]
      · simp [mem_setInsert, hq]
      · simp [Function.update_noteq hq]
  · intro m P now tmpi0 pkt hlt hF
    obtain ⟨hh, -⟩ := framePacket_header pf m P now tmpi0 pkt hF
    rw [← peek_take pkt 1 4 11 (by omega), hh]
    have e : peek [1, m.id / 2 ^ 24 % 256, m.id / 2 ^ 16 % 256, m.id / 2 ^ 8 % 256, m.id % 256,
        toU32 (now + 300) / 2 ^ 24 % 256, toU32 (now + 300) / 2 ^ 16 % 256,
        toU32 (now + 300) / 2 ^ 8 % 256, toU32 (now + 300) % 256, 0, 32] 1 4
        = [m.id / 2 ^ 24 % 256, m.id / 2 ^ 16 % 256, m.id / 2 ^ 8 % 256, m.id % 256] := rfl
    rw [e, ntohl_memValue pf _ _ _ _ (Nat.mod_lt _ (by norm_num)) (Nat.mod_lt _ (by norm_num))
      (Nat.mod_lt _ (by norm_num)) (Nat.mod_lt _ (by norm_num))]
    omega

theorem c2_error_response_moves_named_message_witness :
    (∃ q ∈ exampleStaged.messageStageQueue,
      (exampleStaged.heap q).id = 0 * 2 ^ 24 + 0 * 2 ^ 16 + 0 * 2 ^ 8 + 1) ∧
    ((∃ p s1,
      exampleStaged._processResponseFromApns examplePlatform
        { command := 8, status := 8, identifier := [0, 0, 0, 1] } = some s1 ∧
      p ∈ exampleStaged.messageStageQueue ∧
      (exampleStaged.heap p).id = 0 * 2 ^ 24 + 0 * 2 ^ 16 + 0 * 2 ^ 8 + 1 ∧
      p ∉ s1.messageStageQueue ∧ p ∈ s1.messageErrorQueue ∧
      s1.messageSendQueue = exampleStaged.messageSendQueue ∧
      (∀ q, q ≠ p →
        ((q ∈ s1.messageStageQueue ↔ q ∈ exampleStaged.messageStageQueue) ∧
         (q ∈ s1.messageErrorQueue ↔ q ∈ exampleStaged.messageErrorQueue) ∧
         s1.heap q = exampleStaged.heap q))) ∧
    (∀ (m : ApnsMessage) (P : List Nat) (now : Int) (tmpi0 : Nat) (pkt : List Nat),
      m.id < 2 ^ 32 → framePacket examplePlatform m P now tmpi0 = some pkt →
      ntohl examplePlatform (memValue examplePlatform (peek pkt 1 4)) = m.id)) :=
  ⟨⟨10, by decide, by decide⟩,
    c2_error_response_moves_named_message examplePlatform exampleStaged 8 0 0 0 1
      (by decide) (by decide) (by decide) (by decide) ⟨10, by decide, by decide⟩⟩


/-- C3: starting from a freshly constructed engine, after every sequence of
`add` (of a message not held at that moment), `remove` and `run`, the send,
stage and error queues are pairwise disjoint, a destroyed message is in none
of them, and every message ever added is in exactly one of: send queue,
stage queue, error queue, destroyed. -/
theorem c3_queues_pairwise_disjoint (pf : Platform) (timeout now connectRetryTs0 : Int)
    (heap0 : Nat → ApnsMessage) (ops : List Op) (s : PushController)
    (hf : freshAdds pf (PushController.new timeout now connectRetryTs0 heap0) ops = true)
    (h : PushController.exec pf (PushController.new timeout now connectRetryTs0 heap0) ops
      = some s) :
    (∀ p, (p ∈ s.messageSendQueue → p ∉ s.messageStageQueue ∧ p ∉ s.messageErrorQueue) ∧
      (p ∈ s.messageStageQueue → p ∉ s.messageErrorQueue)) ∧
    (∀ p ∈ s.destroyed,
      p ∉ s.messageSendQueue ∧ p ∉ s.messageStageQueue ∧ p ∉ s.messageErrorQueue) ∧
    (∀ p ∈ addedMessages ops,
      (p ∈ s.messageSendQueue ∧ p ∉ s.messageStageQueue ∧ p ∉ s.messageErrorQueue
        ∧ p ∉ s.destroyed) ∨
      (p ∉ s.messageSendQueue ∧ p ∈ s.messageStageQueue ∧ p ∉ s.messageErrorQueue
        ∧ p ∉ s.destroyed) ∨
      (p ∉ s.messageSendQueue ∧ p ∉ s.messageStageQueue ∧ p ∈ s.messageErrorQueue
        ∧ p ∉ s.destroyed) ∨
      (p ∉ s.messageSendQueue ∧ p ∉ s.messageStageQueue ∧ p ∉ s.messageErrorQueue
        ∧ p ∈ s.destroyed)) := by
  have h0 : QueuesDisjoint (PushController.new timeout now connectRetryTs0 heap0) := by
    intro p; simp [PushController.new]
  have hs0 : (PushController.new timeout now connectRetryTs0 heap0).messageSendQueue.Pairwise
      (· < ·) := by simp [PushController.new]
  obtain ⟨i1, -, -, i4⟩ := exec_invariant pf ops _ s h0 hs0 hf h
  refine ⟨?_, ?_, ?_⟩
  · intro p
    have := i1 p
    tauto
  · intro p hp
    have := i1 p
    tauto
  · intro p hp
    have := i1 p
    have ht := i4 p hp
    unfold Tracked at ht
    tauto

set_option maxRecDepth 100000 in
theorem c3_queues_pairwise_disjoint_witness :
    freshAdds examplePlatform (PushController.new 0 1000 0 (fun _ => exampleMessage))
      exampleHistory = true ∧
    ∃ s, PushController.exec examplePlatform
        (PushController.new 0 1000 0 (fun _ => exampleMessage)) exampleHistory = some s ∧
      ((∀ p, (p ∈ s.messageSendQueue → p ∉ s.messageStageQueue ∧ p ∉ s.messageErrorQueue) ∧
        (p ∈ s.messageStageQueue → p ∉ s.messageErrorQueue)) ∧
      (∀ p ∈ s.destroyed,
        p ∉ s.messageSendQueue ∧ p ∉ s.messageStageQueue ∧ p ∉ s.messageErrorQueue) ∧
      (∀ p ∈ addedMessages exampleHistory,
        (p ∈ s.messageSendQueue ∧ p ∉ s.messageStageQueue ∧ p ∉ s.messageErrorQueue
          ∧ p ∉ s.destroyed) ∨
        (p ∉ s.messageSendQueue ∧ p ∈ s.messageStageQueue ∧ p ∉ s.messageErrorQueue
          ∧ p ∉ s.destroyed) ∨
        (p ∉ s.messageSendQueue ∧ p ∉ s.messageStageQueue ∧ p ∈ s.messageErrorQueue
          ∧ p ∉ s.destroyed) ∨
        (p ∉ s.messageSendQueue ∧ p ∉ s.messageStageQueue ∧ p ∉ s.messageErrorQueue
          ∧ p ∈ s.destroyed))) := by
  have hs : (PushController.exec examplePlatform
      (PushController.new 0 1000 0 (fun _ => exampleMessage)) exampleHistory).isSome = true := by
    decide
  obtain ⟨s, hs⟩ := Option.isSome_iff_exists.mp hs
  exact ⟨by decide, s, hs,
    c3_queues_pairwise_disjoint examplePlatform 0 1000 0 (fun _ => exampleMessage)
      exampleHistory s (by decide) hs⟩


theorem sendLoop_retryBudget (pf : Platform) (now : Int) (io : Nat → LoopIo) (l : List Nat)
    (k : Nat) (s s1 : PushController) (L0 : List WriteCall) (p M : Nat) (hM : M < 2 ^ 32 - 1)
    (hJ : RetryBudget L0 p M s) (hs : s.messageSendQueue.Pairwise (· < ·)) (hl : l.Nodup)
    (hin : ∀ q ∈ l, q ∈ s.messageSendQueue)
    (h : PushController.sendLoop pf now io l k s = some s1) :
    RetryBudget L0 p M s1 ∧ s1.messageSendQueue.Pairwise (· < ·) := by
  have key := sendLoop_induct pf now io
    (fun rest t => RetryBudget L0 p M t ∧ t.messageSendQueue.Pairwise (· < ·) ∧ rest.Nodup ∧
      ∀ q ∈ rest, q ∈ t.messageSendQueue)
    (by
      intro ptr rest t ⟨h1, h2, h3, h4⟩
      exact ⟨h1, h2, (List.nodup_cons.mp h3).2, fun q hq => h4 q (List.mem_cons_of_mem _ hq)⟩)
    (by
      intro ptr rest k t t1 ⟨h1, h2, h3, h4⟩ _ hb
      obtain ⟨-, i2, -, i4⟩ := sendLoopBody_invariant pf now (io k) t t1 ptr hb
      have hn := List.nodup_cons.mp h3
      refine ⟨sendLoopBody_retryBudget pf now (io k) t t1 ptr L0 p M hM h1
        (fun e => e ▸ h4 ptr (List.mem_cons_self _ _)) hb, i2 h2, hn.2, ?_⟩
      intro q hq
      have hne : q ≠ ptr := fun e => hn.1 (e ▸ hq)
      exact (i4 q hne).mpr (h4 q (List.mem_cons_of_mem _ hq)))
    l k s s1 ⟨hJ, hs, hl, hin⟩ h
  exact ⟨key.1, key.2.1⟩

theorem processMessageSendQueue_retryBudget (pf : Platform) (s s1 : PushController)
    (io : TickIo) (L0 : List WriteCall) (p M : Nat) (hM : M < 2 ^ 32 - 1)
    (hJ : RetryBudget L0 p M s) (hs : s.messageSendQueue.Pairwise (· < ·))
    (h : s._processMessageSendQueue pf io = some s1) :
    RetryBudget L0 p M s1 ∧ s1.messageSendQueue.Pairwise (· < ·) := by
  unfold PushController._processMessageSendQueue at h
  split at h
  · cases h; exact ⟨hJ, hs⟩
  · split at h
    · cases h; exact ⟨hJ, hs⟩
    · split at h
      · exact sendLoop_retryBudget pf io.now io.loop _ 0
          { s with toSslController := (s.toSslController.connect io.connectOk).1 } s1 L0 p M hM
          hJ hs (nodup_of_sorted _ hs) (fun _ h => h) h
      · exact sendLoop_retryBudget pf io.now io.loop _ 0 s s1 L0 p M hM hJ hs
          (nodup_of_sorted _ hs) (fun _ h => h) h

theorem run_retryBudget (pf : Platform) (s s1 : PushController) (io : TickIo) (b : Bool)
    (L0 : List WriteCall) (p M : Nat) (hM : M < 2 ^ 32 - 1)
    (hJ : RetryBudget L0 p M s) (hs : s.messageSendQueue.Pairwise (· < ·))
    (h : s.run pf io = some (s1, b)) :
    RetryBudget L0 p M s1 ∧ s1.messageSendQueue.Pairwise (· < ·) := by
  unfold PushController.run at h
  split at h
  · cases h; exact ⟨hJ, hs⟩
  · split at h
    · cases h
    · rename_i s2 hp
      have hpre : RetryBudget L0 p M (if io.now > s.logStatsTs then s._logStats io.now else s) ∧
          (if io.now > s.logStatsTs then s._logStats io.now else s).messageSendQueue.Pairwise
            (· < ·) := by
        split
        · exact ⟨hJ, hs⟩
        · exact ⟨hJ, hs⟩
      have h2 := processMessageSendQueue_retryBudget pf _ s2 io L0 p M hM hpre.1 hpre.2 hp
      simp only [Option.some.injEq, Prod.mk.injEq] at h
      obtain ⟨h, -⟩ := h
      subst h
      have he : ∀ t : PushController,
          (t._expireIdleConnection io.now io.idleDisc).messageSendQueue = t.messageSendQueue ∧
          (t._expireIdleConnection io.now io.idleDisc).writeLog = t.writeLog ∧
          (t._expireIdleConnection io.now io.idleDisc).heap = t.heap := by
        intro t
        unfold PushController._expireIdleConnection
        split
        · exact ⟨rfl, rfl, rfl⟩
        · split <;> exact ⟨rfl, rfl, rfl⟩
      obtain ⟨e1, e2, e3⟩ := he s2
      obtain ⟨new, j1, j2, j3, j4, j5⟩ := h2.1
      refine ⟨⟨new, ?_, j2, j3, ?_, ?_⟩, ?_⟩
      · simp only [e2]; exact j1
      · simp only [e3]; exact j4
      · simp only [e1, e3]; exact j5
      · simp only [e1]; exact h2.2

theorem exec_ticks_retryBudget (pf : Platform) (ticks : List TickIo) (s s1 : PushController)
    (L0 : List WriteCall) (p M : Nat) (hM : M < 2 ^ 32 - 1)
    (hJ : RetryBudget L0 p M s) (hs : s.messageSendQueue.Pairwise (· < ·))
    (h : PushController.exec pf s (ticks.map Op.run) = some s1) :
    RetryBudget L0 p M s1 := by
  induction ticks generalizing s with
  | nil =>
    simp only [List.map_nil, PushController.exec, Option.some.injEq] at h
    subst h
    exact hJ
  | cons io ticks ih =>
    simp only [List.map_cons, PushController.exec, PushController.step] at h
    cases hr : s.run pf io with
    | none => simp [hr] at h
    | some r =>
      simp only [hr, Option.map_some'] at h
      obtain ⟨a1, a2⟩ := run_retryBudget pf s r.1 io r.2 L0 p M hM hJ hs hr
      exact ih _ a1 a2 h

/-- C4, as amended: for a message enqueued (on an engine reached by any
history of fresh adds, removes and ticks) with `retries = 0` and
`max_retries < 2^32 - 1`, and every sequence of ticks and transport outcomes,
the calls of `write()` made for it number at most `max_retries`, and each is
made with its retries counter at most `max_retries`; so a message with
`max_retries = 0` is never written. -/
theorem c4_writes_within_max_retries (pf : Platform) (timeout now0 connectRetryTs0 : Int)
    (heap0 : Nat → ApnsMessage) (ops : List Op) (s0 : PushController) (p : Nat)
    (m : ApnsMessage) (now : Int) (ticks : List TickIo) (s1 : PushController)
    (hf : freshAdds pf (PushController.new timeout now0 connectRetryTs0 heap0) ops = true)
    (h0 : PushController.exec pf (PushController.new timeout now0 connectRetryTs0 heap0) ops
      = some s0)
    (hr : m.retries = 0) (hM : m.maxRetries < 2 ^ 32 - 1)
    (h : PushController.exec pf ((s0.construct p m).add p now) (ticks.map Op.run) = some s1) :
    ∃ calls, s1.writeLog = s0.writeLog ++ calls ∧
      (calls.filter (fun w => w.ptr = p)).length ≤ m.maxRetries ∧
      ∀ w ∈ calls, w.ptr = p → w.msg.retries ≤ w.msg.maxRetries ∧
        w.msg.maxRetries = m.maxRetries := by
  have hd0 : QueuesDisjoint (PushController.new timeout now0 connectRetryTs0 heap0) := by
    intro q; simp [PushController.new]
  have hs0 : (PushController.new timeout now0 connectRetryTs0 heap0).messageSendQueue.Pairwise
      (· < ·) := by simp [PushController.new]
  obtain ⟨-, i2, -, -⟩ := exec_invariant pf ops _ s0 hd0 hs0 hf h0
  have hJ : RetryBudget s0.writeLog p m.maxRetries ((s0.construct p m).add p now) := by
    refine ⟨[], by simp [PushController.add, PushController._add, PushController.construct],
      by simp, by simp, ?_, ?_⟩
    · simp [PushController.add, PushController._add, PushController.construct]
    · intro _
      simp [PushController.add, PushController._add, PushController.construct, hr]
  obtain ⟨calls, j1, j2, j3, -, -⟩ := exec_ticks_retryBudget pf ticks _ s1 s0.writeLog p
    m.maxRetries hM hJ (sorted_setInsert _ _ i2) h
  exact ⟨calls, j1, j2, j3⟩


/-- One loop iteration on a connected transport that blocks the write and has
nothing to read: the message is written once and goes back to the send
queue. -/
theorem sendLoopBody_blocked (pf : Platform) (now : Int) (io : LoopIo) (s : PushController)
    (ptr : Nat) (P pkt : List Nat) (hc : s.connected = true)
    (hretry : (s.heap ptr).retry.2 = true) (hP : (s.heap ptr).getPayload = some P)
    (hF : framePacket pf (s.heap ptr).retry.1 P now io.send.tmpi0 = some pkt)
    (hw : io.send.write.sslErr = SslError.wantWrite) (hr : io.read.readable = false)
    (hsel : io.read.selectRet ≠ -1) :
    s.sendLoopBody pf now io ptr = some
      { s with
        heap := Function.update s.heap ptr (s.heap ptr).retry.1
        writeLog := s.writeLog ++ [WriteCall.mk ptr (s.heap ptr).retry.1 pkt]
        messageStageQueue := setErase ptr (setInsert ptr s.messageStageQueue)
        messageSendQueue := setInsert ptr (setErase ptr s.messageSendQueue)
        numStatsSent := (s.numStatsSent + 1) % 2 ^ 32 } := by
  have hP' : (s.heap ptr).retry.1.getPayload = some P := hP
  simp only [PushController.sendLoopBody, PushController._sendPayload, hretry, hP', hF,
    SslController.write, hc, hw, Bool.not_true, Bool.false_eq_true, if_false,
    PushController._readResponseFromApns, SslController.read, hsel, hr, Bool.not_false, if_true]
  simp


theorem wrapMessage_frame (pf : Platform) (r : Nat) (now : Int) (tmpi0 : Nat) :
    ∃ pkt, framePacket pf ({ wrapMessage with retries := r, id := 1 } : ApnsMessage).retry.1
      (buildPayload wrapMessage) now tmpi0 = some pkt := by
  refine ⟨_, framePacket_eq pf _ (buildPayload wrapMessage) now tmpi0
    (buildPayload_no_nul wrapMessage) (by decide) ?_⟩
  have : tokenBytes (cstr exampleToken) tmpi0 = hexPairs (stripSpaces exampleToken) := by
    rw [cstr_of_no_nul _ (pairAligned_no_nul _ (by decide))]
    exact tokenBytes_aligned _ _ (by decide)
  show (tokenBytes (cstr exampleToken) tmpi0).length ≤ DEVICE_BINARY_SIZE
  rw [this]
  decide

theorem run_blocked_step (pf : Platform) (n : Nat) (s : PushController) (h : WrapState n s) :
    ∃ s1, s.run pf blockedTick = some (s1, true) ∧ WrapState (n + 1) s1 := by
  obtain ⟨h1, h2, h3, h4, h5, h6, ⟨r, h7⟩, h8⟩ := h
  obtain ⟨pkt, hF⟩ := wrapMessage_frame pf r 0 0
  have hretry : (s.heap 0).retry.2 = true := by
    rw [h7]
    simp only [ApnsMessage.retry, wrapMessage, exampleMessage, Bool.not_eq_true',
      decide_eq_false_iff_not, not_lt, gt_iff_lt]
    have := Nat.mod_lt (r + 1) (show 0 < 2 ^ 32 by norm_num)
    omega
  have hP : (s.heap 0).getPayload = some (buildPayload wrapMessage) := by
    rw [h7]
    have e : ({ wrapMessage with retries := r, id := 1 } : ApnsMessage).getPayload
        = wrapMessage.getPayload := rfl
    rw [e]
    decide
  rw [← h7] at hF
  have body : ∀ t : PushController, t.connected = true → t.heap = s.heap →
      t.sendLoopBody pf 0 blockedLoopIo 0 = some
        { t with
          heap := Function.update t.heap 0 (t.heap 0).retry.1
          writeLog := t.writeLog ++ [WriteCall.mk 0 (t.heap 0).retry.1 pkt]
          messageStageQueue := setErase 0 (setInsert 0 t.messageStageQueue)
          messageSendQueue := setInsert 0 (setErase 0 t.messageSendQueue)
          numStatsSent := (t.numStatsSent + 1) % 2 ^ 32 } := by
    intro t hc ht
    exact sendLoopBody_blocked pf 0 blockedLoopIo t 0 (buildPayload wrapMessage) pkt hc
      (by rw [ht]; exact hretry) (by rw [ht]; exact hP) (by rw [ht]; exact hF) rfl rfl
      (by decide)
  have hheap : ∀ f : Nat → ApnsMessage, f 0 = s.heap 0 →
      ∃ r', Function.update f 0 (f 0).retry.1 0 = { wrapMessage with retries := r', id := 1 } := by
    intro f hf
    rw [Function.update_same, hf, h7]
    exact ⟨_, rfl⟩
  have hbt : blockedTick.now = 0 := rfl
  have hbl : ∀ k, blockedTick.loop k = blockedLoopIo := fun _ => rfl
  have key : ∀ r, s.run pf blockedTick = r → ∃ s1, r = some (s1, true) ∧ WrapState (n + 1) s1 := by
    intro r hrun
    have hlt : ¬ ((3600 : Int) < 0) := by norm_num
    cases hc : s.connected with
    | true =>
      have hb := body s hc rfl
      simp only [PushController.run, PushController._processMessageSendQueue, hbt, h5, h6, h1,
        lt_self_iff_false, if_false, SslController.isConnected, hc, Bool.not_true,
        Bool.false_and, Bool.false_eq_true, PushController.sendLoop, hbl, hb,
        PushController._expireIdleConnection, h4, Bool.or_false, Bool.or_true,
        decide_True, if_true, gt_iff_lt, hlt] at hrun
      norm_num at hrun
      subst hrun
      refine ⟨_, rfl, ?_, ?_, ?_, rfl, rfl, rfl, ?_, ?_⟩
      · simp [h1, h2, _removeExpiredMessagesFromQueue, expiredOf, setInsert, setErase]
      · simp [h1, h2, _removeExpiredMessagesFromQueue, expiredOf, setInsert, setErase]
      · simp [h3, _removeExpiredMessagesFromQueue, expiredOf]
      · exact hheap s.heap rfl
      · simp [List.filter_append, h8]
    | false =>
      have hk : blockedTick.connectOk = true := rfl
      simp only [PushController.run, PushController._processMessageSendQueue, hbt, h5, h6, h1,
        lt_self_iff_false, if_false, SslController.isConnected, hc, Bool.not_false,
        Bool.true_and, PushController.sendLoop, hbl,
        PushController._expireIdleConnection, h4, Bool.or_false, Bool.or_true,
        decide_True, if_true, gt_iff_lt, hk, hlt] at hrun
      simp only [SslController.connect, SslController._connect, hc, Bool.false_eq_true,
        if_false, if_true, Bool.not_true] at hrun
      norm_num at hrun
      rw [body] at hrun
      · simp only [SslController.isConnected, Bool.not_true, Bool.false_eq_true, if_false] at hrun
        subst hrun
        refine ⟨_, rfl, ?_, ?_, ?_, rfl, rfl, rfl, ?_, ?_⟩
        · simp [h1, h2, _removeExpiredMessagesFromQueue, expiredOf, setInsert, setErase]
        · simp [h1, h2, _removeExpiredMessagesFromQueue, expiredOf, setInsert, setErase]
        · simp [h3, _removeExpiredMessagesFromQueue, expiredOf]
        · exact hheap s.heap rfl
        · simp [List.filter_append, h8]
      · rfl
      · rfl
  obtain ⟨s1, e, hw⟩ := key _ rfl
  exact ⟨s1, e, hw⟩


theorem exec_blocked_ticks (pf : Platform) (n k : Nat) (s : PushController)
    (h : WrapState k s) :
    ∃ s1, PushController.exec pf s ((List.replicate n blockedTick).map Op.run) = some s1 ∧
      WrapState (k + n) s1 := by
  induction n generalizing k s with
  | zero => exact ⟨s, rfl, h⟩
  | succ n ih =>
    obtain ⟨s1, h1, h2⟩ := run_blocked_step pf k s h
    obtain ⟨s2, h3, h4⟩ := ih (k + 1) s1 h2
    refine ⟨s2, ?_, ?_⟩
    · simp only [List.replicate_succ, List.map_cons, PushController.exec, PushController.step,
        h1, Option.map_some']
      exact h3
    · rw [show k + (n + 1) = k + 1 + n by omega]
      exact h4

theorem wrapEngine_wrapState : WrapState 0 wrapEngine := by
  refine ⟨by decide, by decide, by decide, by decide, by decide, by decide, ⟨0, by decide⟩,
    by decide⟩

/-- C4 fails as stated: a message enqueued with `retries = 0` and
`max_retries = 2^32 - 1` on a transport that blocks every write is written
once per tick, the 32-bit retries counter wraps, and after `2^32` ticks
`2^32` calls of `write()` have been made for it, more than `max_retries`. -/
theorem c4_counterexample :
    (wrapEngine.heap 0).retries = 0 ∧
    ∃ s1, PushController.exec examplePlatform wrapEngine
        ((List.replicate (2 ^ 32) blockedTick).map Op.run) = some s1 ∧
      ¬ ((s1.writeLog.filter (fun w => w.ptr = 0)).length ≤ (wrapEngine.heap 0).maxRetries) := by
  refine ⟨by decide, ?_⟩
  obtain ⟨s1, h1, h2⟩ := exec_blocked_ticks examplePlatform (2 ^ 32) 0 wrapEngine
    wrapEngine_wrapState
  refine ⟨s1, h1, ?_⟩
  obtain ⟨-, -, -, -, -, -, -, h8⟩ := h2
  rw [h8]
  have : (wrapEngine.heap 0).maxRetries = 2 ^ 32 - 1 := by decide
  rw [this]
  norm_num

set_option maxRecDepth 100000 in
theorem c4_writes_within_max_retries_witness :
    freshAdds examplePlatform (PushController.new 0 1000 0 (fun _ => exampleMessage)) [] = true ∧
    PushController.exec examplePlatform (PushController.new 0 1000 0 (fun _ => exampleMessage)) []
      = some (PushController.new 0 1000 0 (fun _ => exampleMessage)) ∧
    exampleMessage.retries = 0 ∧ exampleMessage.maxRetries < 2 ^ 32 - 1 ∧
    ∃ s1, PushController.exec examplePlatform
        (((PushController.new 0 1000 0 (fun _ => exampleMessage)).construct 10
          exampleMessage).add 10 1000) ([exampleTick, exampleTick].map Op.run) = some s1 ∧
      ∃ calls, s1.writeLog
          = (PushController.new 0 1000 0 (fun _ => exampleMessage)).writeLog ++ calls ∧
        (calls.filter (fun w => w.ptr = 10)).length ≤ exampleMessage.maxRetries ∧
        ∀ w ∈ calls, w.ptr = 10 → w.msg.retries ≤ w.msg.maxRetries ∧
          w.msg.maxRetries = exampleMessage.maxRetries := by
  have hs : (PushController.exec examplePlatform
      (((PushController.new 0 1000 0 (fun _ => exampleMessage)).construct 10
        exampleMessage).add 10 1000) ([exampleTick, exampleTick].map Op.run)).isSome = true := by
    decide
  obtain ⟨s1, hs⟩ := Option.isSome_iff_exists.mp hs
  exact ⟨rfl, rfl, rfl, by decide, s1, hs,
    c4_writes_within_max_retries examplePlatform 0 1000 0 (fun _ => exampleMessage) []
      (PushController.new 0 1000 0 (fun _ => exampleMessage)) 10 exampleMessage 1000
      [exampleTick, exampleTick] s1 rfl rfl rfl (by decide) hs⟩


/-! ## Messages outside the send queue are not written -/

theorem sendLoopBody_notResent (pf : Platform) (now : Int) (io : LoopIo)
    (s s1 : PushController) (ptr : Nat) (L0 : List WriteCall) (p : Nat) (hne : ptr ≠ p)
    (hJ : NotResent L0 p s) (h : s.sendLoopBody pf now io ptr = some s1) :
    NotResent L0 p s1 := by
  obtain ⟨s2, ho, hm, -⟩ := sendLoopBody_outcome pf now io s s1 ptr h
  obtain ⟨-, -, -, i4⟩ := sendLoopBody_invariant pf now io s s1 ptr h
  obtain ⟨j1, calls, j2, j3⟩ := hJ
  have e1 := errorMove_heap s2 s1 hm p
  refine ⟨fun hc => j1 ((i4 p (fun e => hne e.symm)).mp hc), ?_⟩
  rcases sendOutcome_log _ s2 ptr ho with ⟨a, -⟩ | ⟨-, pkt, a⟩
  · exact ⟨calls, by rw [e1.2.2.2.2.2.2, a]; exact j2, j3⟩
  · refine ⟨calls ++ [WriteCall.mk ptr (s.heap ptr).retry.1 pkt], ?_, ?_⟩
    · rw [e1.2.2.2.2.2.2, a]
      simp only [j2, List.append_assoc]
    · intro w hw
      simp only [List.mem_append, List.mem_singleton] at hw
      rcases hw with hw | rfl
      · exact j3 w hw
      · exact hne

theorem run_notResent (pf : Platform) (s s1 : PushController) (io : TickIo) (b : Bool)
    (L0 : List WriteCall) (p : Nat) (hJ : NotResent L0 p s) (h : s.run pf io = some (s1, b)) :
    NotResent L0 p s1 := by
  have loop : ∀ (t t1 : PushController), NotResent L0 p t →
      PushController.sendLoop pf io.now io.loop t.messageSendQueue 0 t = some t1 →
      NotResent L0 p t1 := by
    intro t t1 ht hl
    have key := sendLoop_induct pf io.now io.loop
      (fun rest u => p ∉ rest ∧ NotResent L0 p u)
      (by
        intro ptr rest u ⟨h1, h2⟩
        exact ⟨fun hc => h1 (List.mem_cons_of_mem _ hc), h2⟩)
      (by
        intro ptr rest k u u1 ⟨h1, h2⟩ _ hb
        refine ⟨fun hc => h1 (List.mem_cons_of_mem _ hc), ?_⟩
        exact sendLoopBody_notResent pf io.now (io.loop k) u u1 ptr L0 p
          (fun e => h1 (e ▸ List.mem_cons_self _ _)) h2 hb)
      t.messageSendQueue 0 t t1 ⟨ht.1, ht⟩ hl
    exact key.2
  have proc : ∀ (t t1 : PushController), NotResent L0 p t →
      t._processMessageSendQueue pf io = some t1 → NotResent L0 p t1 := by
    intro t t1 ht hp
    unfold PushController._processMessageSendQueue at hp
    split at hp
    · cases hp; exact ht
    · split at hp
      · cases hp; exact ht
      · split at hp
        · exact loop { t with toSslController := (t.toSslController.connect io.connectOk).1 } t1
            ht hp
        · exact loop t t1 ht hp
  unfold PushController.run at h
  split at h
  · cases h; exact hJ
  · split at h
    · cases h
    · rename_i s2 hp
      have hpre : NotResent L0 p (if io.now > s.logStatsTs then s._logStats io.now else s) := by
        split
        · exact hJ
        · exact hJ
      have h2 := proc _ s2 hpre hp
      simp only [Option.some.injEq, Prod.mk.injEq] at h
      obtain ⟨h, -⟩ := h
      subst h
      have he : ∀ t : PushController,
          (t._expireIdleConnection io.now io.idleDisc).messageSendQueue = t.messageSendQueue ∧
          (t._expireIdleConnection io.now io.idleDisc).writeLog = t.writeLog := by
        intro t
        unfold PushController._expireIdleConnection
        split
        · exact ⟨rfl, rfl⟩
        · split <;> exact ⟨rfl, rfl⟩
      obtain ⟨e1, e2⟩ := he s2
      obtain ⟨j1, calls, j2, j3⟩ := h2
      refine ⟨?_, calls, ?_, j3⟩
      · simp only [e1]; exact j1
      · simp only [e2]; exact j2

theorem exec_ticks_notResent (pf : Platform) (ticks : List TickIo) (s s1 : PushController)
    (L0 : List WriteCall) (p : Nat) (hJ : NotResent L0 p s)
    (h : PushController.exec pf s (ticks.map Op.run) = some s1) : NotResent L0 p s1 := by
  induction ticks generalizing s with
  | nil =>
    simp only [List.map_nil, PushController.exec, Option.some.injEq] at h
    subst h
    exact hJ
  | cons io ticks ih =>
    simp only [List.map_cons, PushController.exec, PushController.step] at h
    cases hr : s.run pf io with
    | none => simp [hr] at h
    | some r =>
      simp only [hr, Option.map_some'] at h
      exact ih _ (run_notResent pf s r.1 io r.2 L0 p hJ hr) h

/-- C5: when `getPayload()` fails for the staged message that `_sendPayload`
is called on (so after its retry check has passed), `_sendPayload` returns
without calling `write()`, sets the message's error to 7
(`ERR_INVALID_PAYLOAD_SIZE`) and leaves it in the error queue and in neither
the send nor the stage queue; no later tick writes it or puts it back in the
send queue. -/
theorem c5_payload_failure_to_error_queue (pf : Platform) (s : PushController) (p : Nat)
    (now : Int) (io : SendIo) (hp : p ∈ s.messageStageQueue) (hs : p ∉ s.messageSendQueue)
    (hretry : (s.heap p).retry.2 = true) (hP : (s.heap p).getPayload = none) :
    ∃ s1, s._sendPayload pf p now io = some (s1, false) ∧
      s1.writeLog = s.writeLog ∧ (s1.heap p).error = 7 ∧
      p ∈ s1.messageErrorQueue ∧ p ∉ s1.messageSendQueue ∧ p ∉ s1.messageStageQueue ∧
      ∀ (ticks : List TickIo) (s2 : PushController),
        PushController.exec pf s1 (ticks.map Op.run) = some s2 →
        p ∉ s2.messageSendQueue ∧
        ∃ calls, s2.writeLog = s.writeLog ++ calls ∧ ∀ w ∈ calls, w.ptr ≠ p := by
  refine ⟨_, sendPayload_payloadFailure pf s p now io hp hretry hP, rfl, ?_, ?_, hs, ?_, ?_⟩
  · simp [ERR_INVALID_PAYLOAD_SIZE]
  · simp [mem_setInsert]
  · simp [mem_setErase]
  · intro ticks s2 h2
    have hJ : NotResent s.writeLog p
        { s with
          heap := Function.update s.heap p
            { (s.heap p).retry.1 with error := ERR_INVALID_PAYLOAD_SIZE }
          messageStageQueue := setErase p s.messageStageQueue
          messageErrorQueue := setInsert p s.messageErrorQueue } :=
      ⟨hs, [], by simp, by simp⟩
    exact exec_ticks_notResent pf ticks _ s2 s.writeLog p hJ h2


set_option maxRecDepth 100000 in
theorem c5_payload_failure_to_error_queue_witness :
    10 ∈ oversizeStaged.messageStageQueue ∧ 10 ∉ oversizeStaged.messageSendQueue ∧
    (oversizeStaged.heap 10).retry.2 = true ∧ (oversizeStaged.heap 10).getPayload = none ∧
    ∃ s1, oversizeStaged._sendPayload examplePlatform 10 1000 exampleSendIo = some (s1, false) ∧
      s1.writeLog = oversizeStaged.writeLog ∧ (s1.heap 10).error = 7 ∧
      10 ∈ s1.messageErrorQueue ∧ 10 ∉ s1.messageSendQueue ∧ 10 ∉ s1.messageStageQueue ∧
      ∀ (ticks : List TickIo) (s2 : PushController),
        PushController.exec examplePlatform s1 (ticks.map Op.run) = some s2 →
        10 ∉ s2.messageSendQueue ∧
        ∃ calls, s2.writeLog = oversizeStaged.writeLog ++ calls ∧ ∀ w ∈ calls, w.ptr ≠ 10 :=
  ⟨by decide, by decide, by decide, by decide,
    c5_payload_failure_to_error_queue examplePlatform oversizeStaged 10 1000 exampleSendIo
      (by decide) (by decide) (by decide) (by decide)⟩


theorem hexPairs_getD (l : List Nat) (k : Nat) (h : k < l.length / 2) :
    (hexPairs l).getD k 0 = 16 * hexVal (l.getD (2 * k) 0) + hexVal (l.getD (2 * k + 1) 0) := by
  induction l using hexPairs.induct generalizing k with
  | case1 a b rest ih =>
    cases k with
    | zero => simp [hexPairs]
    | succ k =>
      have hk : k < rest.length / 2 := by
        simp only [List.length_cons] at h; omega
      have := ih k hk
      simp only [hexPairs, List.getD_cons_succ, this, show 2 * (k + 1) = 2 * k + 1 + 1 by omega,
        show 2 * k + 1 + 1 + 1 = (2 * k + 1) + 1 + 1 by omega]
  | case2 l hl =>
    match l, hl with
    | [], _ => simp at h
    | [a], _ =>
      have e : [a].length / 2 = 0 := by simp
      omega
    | a :: b :: rest, hl => exact absurd rfl (hl a b rest)

/-- C6, as amended: for every device-token string made of two-digit hex
pairs with spaces only before, between or after the pairs, holding exactly
64 hex digits in either letter case, the 32 bytes framed at packet offsets
11..43 are the bytes denoted by the stripped 64-digit string: byte `k` is
made of its digits `2k` and `2k+1`, and an upper-case digit has the value of
the lower-case one. -/
theorem c6_aligned_token_bytes (pf : Platform) (s : PushController) (aMessage : Nat)
    (now : Int) (io : SendIo) (P : List Nat)
    (htok : pairAligned (s.heap aMessage).deviceToken = true)
    (h64 : (stripSpaces (s.heap aMessage).deviceToken).length = 64)
    (hP : (s.heap aMessage).getPayload = some P)
    (hretry : (s.heap aMessage).retry.2 = true) :
    (∃ s1 b packet, s._sendPayload pf aMessage now io = some (s1, b) ∧
      s1.writeLog.map WriteCall.packet = s.writeLog.map WriteCall.packet ++ [packet] ∧
      peek packet 11 32 = hexPairs (stripSpaces (s.heap aMessage).deviceToken) ∧
      (peek packet 11 32).length = 32 ∧
      ∀ k, k < 32 → (peek packet 11 32).getD k 0
        = 16 * hexVal ((stripSpaces (s.heap aMessage).deviceToken).getD (2 * k) 0)
          + hexVal ((stripSpaces (s.heap aMessage).deviceToken).getD (2 * k + 1) 0)) ∧
    (∀ c, 65 ≤ c → c ≤ 70 → hexVal c = hexVal (c + 32)) := by
  constructor
  · obtain ⟨hnul, hlen⟩ := getPayload_no_nul _ P hP
    have hc : cstr (s.heap aMessage).deviceToken = (s.heap aMessage).deviceToken :=
      cstr_of_no_nul _ (pairAligned_no_nul _ htok)
    have htb : ∀ t, tokenBytes (cstr (s.heap aMessage).retry.1.deviceToken) t
        = hexPairs (stripSpaces (s.heap aMessage).deviceToken) := by
      intro t
      rw [retry_deviceToken, hc, tokenBytes_aligned _ _ htok]
    have h32 : (hexPairs (stripSpaces (s.heap aMessage).deviceToken)).length = 32 := by
      rw [hexPairs_length, h64]
    have hF := framePacket_eq pf (s.heap aMessage).retry.1 P now io.tmpi0 hnul hlen (by
      rw [htb, h32]; decide)
    rw [htb, h32] at hF
    simp only [Nat.sub_self, List.replicate_zero, List.append_nil] at hF
    have hpk : ∀ (H T L R : List Nat), H.length = 11 → T.length = 32 →
        peek (H ++ T ++ L ++ R) 11 32 = T := by
      intro H T L R hH hT
      unfold peek
      rw [List.append_assoc, List.append_assoc, ← hH, List.drop_left, ← hT, List.take_left]
    have hpeek := hpk [1, (s.heap aMessage).retry.1.id / 2 ^ 24 % 256,
        (s.heap aMessage).retry.1.id / 2 ^ 16 % 256, (s.heap aMessage).retry.1.id / 2 ^ 8 % 256,
        (s.heap aMessage).retry.1.id % 256, toU32 (now + 300) / 2 ^ 24 % 256,
        toU32 (now + 300) / 2 ^ 16 % 256, toU32 (now + 300) / 2 ^ 8 % 256,
        toU32 (now + 300) % 256, 0, 32]
      (hexPairs (stripSpaces (s.heap aMessage).deviceToken))
      [P.length / 2 ^ 8 % 256, P.length % 256] P rfl h32
    generalize [1, (s.heap aMessage).retry.1.id / 2 ^ 24 % 256,
        (s.heap aMessage).retry.1.id / 2 ^ 16 % 256, (s.heap aMessage).retry.1.id / 2 ^ 8 % 256,
        (s.heap aMessage).retry.1.id % 256, toU32 (now + 300) / 2 ^ 24 % 256,
        toU32 (now + 300) / 2 ^ 16 % 256, toU32 (now + 300) / 2 ^ 8 % 256,
        toU32 (now + 300) % 256, 0, 32]
      ++ hexPairs (stripSpaces (s.heap aMessage).deviceToken)
      ++ [P.length / 2 ^ 8 % 256, P.length % 256] ++ P = pkt at hF hpeek
    obtain ⟨s1, h1, h2, -⟩ := sendPayload_write pf s aMessage now io P pkt hretry hP hF
    refine ⟨s1, _, pkt, h1, by rw [h2]; simp, hpeek, by rw [hpeek]; exact h32, ?_⟩
    intro k hk
    rw [hpeek]
    exact hexPairs_getD (stripSpaces (s.heap aMessage).deviceToken) k (by rw [h64]; omega)
  · intro c h1 h2
    unfold hexVal
    rw [if_neg (by omega), if_pos ⟨h1, h2⟩, if_neg (by omega), if_neg (by omega),
      if_pos (by omega)]
    omega

theorem c6_aligned_token_bytes_witness :
    pairAligned (exampleStaged.heap 10).deviceToken = true ∧
    (stripSpaces (exampleStaged.heap 10).deviceToken).length = 64 ∧
    (exampleStaged.heap 10).getPayload = some (buildPayload exampleMessage) ∧
    (exampleStaged.heap 10).retry.2 = true ∧
    ((∃ s1 b packet, exampleStaged._sendPayload examplePlatform 10 1000 exampleSendIo
        = some (s1, b) ∧
      s1.writeLog.map WriteCall.packet = exampleStaged.writeLog.map WriteCall.packet ++ [packet] ∧
      peek packet 11 32 = hexPairs (stripSpaces (exampleStaged.heap 10).deviceToken) ∧
      (peek packet 11 32).length = 32 ∧
      ∀ k, k < 32 → (peek packet 11 32).getD k 0
        = 16 * hexVal ((stripSpaces (exampleStaged.heap 10).deviceToken).getD (2 * k) 0)
          + hexVal ((stripSpaces (exampleStaged.heap 10).deviceToken).getD (2 * k + 1) 0)) ∧
    (∀ c, 65 ≤ c → c ≤ 70 → hexVal c = hexVal (c + 32))) :=
  ⟨by decide, by decide, by decide, by decide,
    c6_aligned_token_bytes examplePlatform exampleStaged 10 1000 exampleSendIo
      (buildPayload exampleMessage) (by decide) (by decide) (by decide) (by decide)⟩

set_option maxRecDepth 100000 in
/-- C6 fails as stated: the token `0 1` followed by 62 digits `0` becomes 64
hex digits once its space is removed, denoting the bytes 01 00 .. 00, but the
loop reads `0␣` as the byte 00 and then `10` as the byte 10, so the bytes
framed at offsets 11..43 are 00 10 00 .. 00. -/
theorem c6_counterexample :
    (stripSpaces (misalignedStaged.heap 10).deviceToken).length = 64 ∧
    (stripSpaces (misalignedStaged.heap 10).deviceToken).all isHexDigit = true ∧
    (misalignedStaged._sendPayload examplePlatform 10 1000 exampleSendIo).map
        (fun r => r.1.writeLog.map (fun w => peek w.packet 11 32))
      = some [[0, 16] ++ List.replicate 30 0] ∧
    hexPairs (stripSpaces (misalignedStaged.heap 10).deviceToken) = [1] ++ List.replicate 31 0 := by
  refine ⟨by decide, by decide, by decide, by decide⟩


/-- C7, as amended: `_sendPayload` makes no check of the decoded length of
the device token. For every message whose retry and payload checks pass and
whose token makes the conversion loop store at most 32 bytes (fewer
included), a packet is framed and handed to `write()`, and its fields at
offsets 0, 9..11 and 43..45 are 0x01, big-endian 32 and the big-endian
payload length. -/
theorem c7_fixed_fields_without_length_check (pf : Platform) (s : PushController)
    (aMessage : Nat) (now : Int) (io : SendIo) (P : List Nat)
    (ht : (tokenBytes (cstr (s.heap aMessage).deviceToken) io.tmpi0).length ≤ 32)
    (hP : (s.heap aMessage).getPayload = some P)
    (hretry : (s.heap aMessage).retry.2 = true) :
    ∃ s1 b packet, s._sendPayload pf aMessage now io = some (s1, b) ∧
      s1.writeLog.map WriteCall.packet = s.writeLog.map WriteCall.packet ++ [packet] ∧
      peek packet 0 1 = [1] ∧ peek packet 9 2 = [0, 32] ∧
      peek packet 43 2 = [P.length / 2 ^ 8 % 256, P.length % 256] ∧
      packet.length = 45 + P.length := by
  obtain ⟨hnul, hlen⟩ := getPayload_no_nul _ P hP
  have hF := framePacket_eq pf (s.heap aMessage).retry.1 P now io.tmpi0 hnul hlen ht
  rw [retry_deviceToken] at hF
  set T : List Nat := tokenBytes (cstr (s.heap aMessage).deviceToken) io.tmpi0
    ++ List.replicate (32 - (tokenBytes (cstr (s.heap aMessage).deviceToken) io.tmpi0).length) 0
    with hT
  have hTl : T.length = 32 := by
    simp only [hT, List.length_append, List.length_replicate]; omega
  have hpk : ∀ (i0 i1 i2 i3 e0 e1 e2 e3 : Nat) (T L R : List Nat), T.length = 32 →
      L.length = 2 →
      peek ([1, i0, i1, i2, i3, e0, e1, e2, e3, 0, 32] ++ T ++ L ++ R) 0 1 = [1] ∧
      peek ([1, i0, i1, i2, i3, e0, e1, e2, e3, 0, 32] ++ T ++ L ++ R) 9 2 = [0, 32] ∧
      peek ([1, i0, i1, i2, i3, e0, e1, e2, e3, 0, 32] ++ T ++ L ++ R) 43 2 = L := by
    intro i0 i1 i2 i3 e0 e1 e2 e3 T L R hT hL
    refine ⟨rfl, rfl, ?_⟩
    unfold peek
    have hl : ([1, i0, i1, i2, i3, e0, e1, e2, e3, 0, 32] ++ T).length = 43 := by
      simp [hT]
    rw [List.append_assoc, ← hl, List.drop_left, ← hL, List.take_left]
  obtain ⟨k1, k2, k3⟩ := hpk _ _ _ _ _ _ _ _ T [P.length / 2 ^ 8 % 256, P.length % 256] P hTl rfl
  have hlen2 : ([1, (s.heap aMessage).retry.1.id / 2 ^ 24 % 256,
        (s.heap aMessage).retry.1.id / 2 ^ 16 % 256, (s.heap aMessage).retry.1.id / 2 ^ 8 % 256,
        (s.heap aMessage).retry.1.id % 256, toU32 (now + 300) / 2 ^ 24 % 256,
        toU32 (now + 300) / 2 ^ 16 % 256, toU32 (now + 300) / 2 ^ 8 % 256,
        toU32 (now + 300) % 256, 0, 32] ++ T
        ++ [P.length / 2 ^ 8 % 256, P.length % 256] ++ P).length = 45 + P.length := by
    simp only [List.length_append, List.length_cons, List.length_nil, hTl]
  generalize [1, (s.heap aMessage).retry.1.id / 2 ^ 24 % 256,
        (s.heap aMessage).retry.1.id / 2 ^ 16 % 256, (s.heap aMessage).retry.1.id / 2 ^ 8 % 256,
        (s.heap aMessage).retry.1.id % 256, toU32 (now + 300) / 2 ^ 24 % 256,
        toU32 (now + 300) / 2 ^ 16 % 256, toU32 (now + 300) / 2 ^ 8 % 256,
        toU32 (now + 300) % 256, 0, 32] ++ T
      ++ [P.length / 2 ^ 8 % 256, P.length % 256] ++ P = pkt at hF k1 k2 k3 hlen2
  obtain ⟨s1, h1, h2, -⟩ := sendPayload_write pf s aMessage now io P pkt hretry hP hF
  exact ⟨s1, _, pkt, h1, by rw [h2]; simp, k1, k2, k3, hlen2⟩

theorem c7_fixed_fields_without_length_check_witness :
    (tokenBytes (cstr (shortTokenStaged.heap 10).deviceToken) exampleSendIo.tmpi0).length ≤ 32 ∧
    (shortTokenStaged.heap 10).getPayload = some (buildPayload exampleMessage) ∧
    (shortTokenStaged.heap 10).retry.2 = true ∧
    ∃ s1 b packet, shortTokenStaged._sendPayload examplePlatform 10 1000 exampleSendIo
        = some (s1, b) ∧
      s1.writeLog.map WriteCall.packet
        = shortTokenStaged.writeLog.map WriteCall.packet ++ [packet] ∧
      peek packet 0 1 = [1] ∧ peek packet 9 2 = [0, 32] ∧
      peek packet 43 2 = [(buildPayload exampleMessage).length / 2 ^ 8 % 256,
        (buildPayload exampleMessage).length % 256] ∧
      packet.length = 45 + (buildPayload exampleMessage).length :=
  ⟨by decide, by decide, by decide,
    c7_fixed_fields_without_length_check examplePlatform shortTokenStaged 10 1000 exampleSendIo
      (buildPayload exampleMessage) (by decide) (by decide) (by decide)⟩

set_option maxRecDepth 100000 in
/-- C7 fails as stated: the token `01` decodes to one byte, not 32, and
`_sendPayload` still frames a 77-byte packet and hands it to `write()`, with
the token field holding 01 followed by 31 zero bytes. -/
theorem c7_counterexample :
    (tokenBytes (cstr (shortTokenStaged.heap 10).deviceToken) exampleSendIo.tmpi0).length = 1 ∧
    shortTokenStaged.writeLog = [] ∧
    (shortTokenStaged._sendPayload examplePlatform 10 1000 exampleSendIo).map
        (fun r => r.1.writeLog.map (fun w => (w.ptr, w.packet.length, peek w.packet 11 32)))
      = some [(10, 77, [1] ++ List.replicate 31 0)] := by
  refine ⟨by decide, by decide, by decide⟩


/-! ## The identifier counter -/

theorem run_lastId (pf : Platform) (s s1 : PushController) (io : TickIo) (b : Bool)
    (h : s.run pf io = some (s1, b)) : s1.lastId = s.lastId := by
  have loop : ∀ (l : List Nat) (t t1 : PushController),
      PushController.sendLoop pf io.now io.loop l 0 t = some t1 → t1.lastId = t.lastId := by
    intro l t t1 hl
    exact sendLoop_induct pf io.now io.loop (fun _ u => u.lastId = t.lastId)
      (fun _ _ _ h => h)
      (by
        intro ptr rest k u u1 hu _ hb
        obtain ⟨s2, -, -, e⟩ := sendLoopBody_outcome pf io.now (io.loop k) u u1 ptr hb
        rw [e]; exact hu)
      l 0 t t1 rfl hl
  have proc : ∀ (t t1 : PushController),
      t._processMessageSendQueue pf io = some t1 → t1.lastId = t.lastId := by
    intro t t1 hp
    unfold PushController._processMessageSendQueue at hp
    split at hp
    · cases hp; rfl
    · split at hp
      · cases hp; rfl
      · split at hp
        · exact loop _ { t with toSslController := (t.toSslController.connect io.connectOk).1 }
            t1 hp
        · exact loop _ t t1 hp
  unfold PushController.run at h
  split at h
  · cases h; rfl
  · split at h
    · cases h
    · rename_i s2 hp
      have h2 := proc _ s2 hp
      have hpre : (if io.now > s.logStatsTs then s._logStats io.now else s).lastId = s.lastId := by
        split <;> rfl
      simp only [Option.some.injEq, Prod.mk.injEq] at h
      obtain ⟨h, -⟩ := h
      subst h
      have he : ∀ t : PushController,
          (t._expireIdleConnection io.now io.idleDisc).lastId = t.lastId := by
        intro t
        unfold PushController._expireIdleConnection
        split
        · rfl
        · split <;> rfl
      simp only [he, h2, hpre]

theorem exec_lastId (pf : Platform) (ops : List Op) (s s1 : PushController)
    (h : PushController.exec pf s ops = some s1) :
    s1.lastId % 2 ^ 32 = (s.lastId + addCount ops) % 2 ^ 32 := by
  induction ops generalizing s with
  | nil =>
    simp only [PushController.exec, Option.some.injEq] at h
    subst h
    simp [addCount]
  | cons op ops ih =>
    simp only [PushController.exec] at h
    cases op with
    | add p m now =>
      simp only [PushController.step] at h
      rw [ih _ h]
      simp only [PushController.add, PushController._add, PushController.construct, addCount]
      omega
    | remove p =>
      simp only [PushController.step] at h
      rw [ih _ h]
      have : (s.remove p).1.lastId = s.lastId := by
        unfold PushController.remove PushController._remove
        split <;> rfl
      rw [this]
      simp [addCount]
    | run io =>
      simp only [PushController.step] at h
      cases hr : s.run pf io with
      | none => simp [hr] at h
      | some r =>
        simp only [hr, Option.map_some'] at h
        rw [ih _ h, run_lastId pf s r.1 io r.2 hr]
        simp [addCount]

/-- C8: on an engine freshly constructed and then taken through any history
that holds `n - 1` calls of `add()`, the next (the `n`-th) call of `add()`
gives the message the id `n mod 1024` (1 for the first), sets
`lastActivityTs` to the current time and leaves the message in the send
queue; the stage and error queues and the three counters are unchanged. -/
theorem c8_add_assigns_sequence_id (pf : Platform) (timeout now0 connectRetryTs0 : Int)
    (heap0 : Nat → ApnsMessage) (ops : List Op) (s : PushController) (aMessage : Nat)
    (now : Int)
    (h : PushController.exec pf (PushController.new timeout now0 connectRetryTs0 heap0) ops
      = some s) :
    ((s.add aMessage now).heap aMessage).id = (addCount ops + 1) % 1024 ∧
    (s.add aMessage now).lastActivityTs = now ∧
    aMessage ∈ (s.add aMessage now).messageSendQueue ∧
    (s.add aMessage now).messageStageQueue = s.messageStageQueue ∧
    (s.add aMessage now).messageErrorQueue = s.messageErrorQueue ∧
    (s.add aMessage now).numStatsSent = s.numStatsSent ∧
    (s.add aMessage now).numStatsError = s.numStatsError ∧
    (s.add aMessage now).numStatsDisconnected = s.numStatsDisconnected := by
  have hl := exec_lastId pf ops _ s h
  simp only [PushController.new, zero_add] at hl
  refine ⟨?_, rfl, ?_, rfl, rfl, rfl, rfl, rfl⟩
  · simp only [PushController.add, PushController._add, Function.update_same]
    omega
  · simp [PushController.add, PushController._add, mem_setInsert]

set_option maxRecDepth 100000 in
theorem c8_add_assigns_sequence_id_witness :
    ∃ s, PushController.exec examplePlatform
        (PushController.new 0 1000 0 (fun _ => exampleMessage)) exampleHistory = some s ∧
      (((s.add 30 1001).heap 30).id = (addCount exampleHistory + 1) % 1024 ∧
      (s.add 30 1001).lastActivityTs = 1001 ∧
      30 ∈ (s.add 30 1001).messageSendQueue ∧
      (s.add 30 1001).messageStageQueue = s.messageStageQueue ∧
      (s.add 30 1001).messageErrorQueue = s.messageErrorQueue ∧
      (s.add 30 1001).numStatsSent = s.numStatsSent ∧
      (s.add 30 1001).numStatsError = s.numStatsError ∧
      (s.add 30 1001).numStatsDisconnected = s.numStatsDisconnected) := by
  have hs : (PushController.exec examplePlatform
      (PushController.new 0 1000 0 (fun _ => exampleMessage)) exampleHistory).isSome = true := by
    decide
  obtain ⟨s, hs⟩ := Option.isSome_iff_exists.mp hs
  exact ⟨s, hs,
    c8_add_assigns_sequence_id examplePlatform 0 1000 0 (fun _ => exampleMessage) exampleHistory
      s 30 1001 hs⟩


/-! ## Identifiers of the held messages -/

theorem sendLoopBody_held (pf : Platform) (now : Int) (io : LoopIo) (s s1 : PushController)
    (ptr : Nat) (hin : ptr ∈ s.messageSendQueue)
    (h : s.sendLoopBody pf now io ptr = some s1) :
    (∀ q, Held s1 q → Held s q) ∧ ∀ q, (s1.heap q).id = (s.heap q).id := by
  obtain ⟨s2, ho, hm, -⟩ := sendLoopBody_outcome pf now io s s1 ptr h
  refine ⟨?_, ?_⟩
  · intro q hq
    unfold Held at hq ⊢
    rcases ho with ⟨-, a1, a2, a3, a4, -, -⟩ | ⟨-, -, a1, a2, a3, a4, -, -⟩
      | ⟨-, -, a1, a2, a3, a4, -⟩ | ⟨-, -, a1, a2, a3, a4, -⟩ <;>
    rcases hm with ⟨b1, b2, b3, b4, -, -⟩ | ⟨p, st, hp, b1, b2, b3, b4, -, -⟩
    all_goals
      first
      | (rw [a2] at hp
         simp only [b1, b2, b3, b4, a1, a2, a3, a4, mem_setInsert, mem_setErase] at hq hp
         by_cases e1 : q = ptr <;> by_cases e2 : q = p <;> simp_all <;> (try tauto))
      | (simp only [b1, b2, b3, b4, a1, a2, a3, a4, mem_setInsert, mem_setErase] at hq
         by_cases e1 : q = ptr <;> simp_all)
  · intro q
    rw [(errorMove_heap s2 s1 hm q).2.2.1, (sendOutcome_heap _ s2 ptr ho q).2.1]

theorem run_held (pf : Platform) (s s1 : PushController) (io : TickIo) (b : Bool)
    (hs : s.messageSendQueue.Pairwise (· < ·)) (h : s.run pf io = some (s1, b)) :
    (∀ q, Held s1 q → Held s q) ∧ ∀ q, (s1.heap q).id = (s.heap q).id := by
  have loop : ∀ (t t1 : PushController), t.messageSendQueue.Pairwise (· < ·) →
      PushController.sendLoop pf io.now io.loop t.messageSendQueue 0 t = some t1 →
      (∀ q, Held t1 q → Held t q) ∧ ∀ q, (t1.heap q).id = (t.heap q).id := by
    intro t t1 ht hl
    have key := sendLoop_induct pf io.now io.loop
      (fun rest u => u.messageSendQueue.Pairwise (· < ·) ∧ rest.Nodup ∧
        (∀ q ∈ rest, q ∈ u.messageSendQueue) ∧
        (∀ q, Held u q → Held t q) ∧ ∀ q, (u.heap q).id = (t.heap q).id)
      (by
        intro ptr rest u ⟨h1, h2, h3, h4, h5⟩
        exact ⟨h1, (List.nodup_cons.mp h2).2, fun q hq => h3 q (List.mem_cons_of_mem _ hq),
          h4, h5⟩)
      (by
        intro ptr rest k u u1 ⟨h1, h2, h3, h4, h5⟩ _ hb
        obtain ⟨-, i2, -, i4⟩ := sendLoopBody_invariant pf io.now (io.loop k) u u1 ptr hb
        obtain ⟨j1, j2⟩ := sendLoopBody_held pf io.now (io.loop k) u u1 ptr
          (h3 ptr (List.mem_cons_self _ _)) hb
        have hn := List.nodup_cons.mp h2
        refine ⟨i2 h1, hn.2, ?_, fun q hq => h4 q (j1 q hq), fun q => by rw [j2, h5]⟩
        intro q hq
        have hne : q ≠ ptr := fun e => hn.1 (e ▸ hq)
        exact (i4 q hne).mpr (h3 q (List.mem_cons_of_mem _ hq)))
      t.messageSendQueue 0 t t1
      ⟨ht, nodup_of_sorted _ ht, fun _ h => h, fun _ h => h, fun _ => rfl⟩ hl
    exact ⟨key.2.2.2.1, key.2.2.2.2⟩
  have proc : ∀ (t t1 : PushController), t.messageSendQueue.Pairwise (· < ·) →
      t._processMessageSendQueue pf io = some t1 →
      (∀ q, Held t1 q → Held t q) ∧ ∀ q, (t1.heap q).id = (t.heap q).id := by
    intro t t1 ht hp
    unfold PushController._processMessageSendQueue at hp
    split at hp
    · cases hp; exact ⟨fun _ h => h, fun _ => rfl⟩
    · split at hp
      · cases hp; exact ⟨fun _ h => h, fun _ => rfl⟩
      · split at hp
        · exact loop { t with toSslController := (t.toSslController.connect io.connectOk).1 } t1
            ht hp
        · exact loop t t1 ht hp
  unfold PushController.run at h
  split at h
  · cases h; exact ⟨fun _ h => h, fun _ => rfl⟩
  · split at h
    · cases h
    · rename_i s2 hp
      have hpre : (if io.now > s.logStatsTs then s._logStats io.now else s).messageSendQueue.Pairwise
            (· < ·) ∧
          (∀ q, Held (if io.now > s.logStatsTs then s._logStats io.now else s) q → Held s q) ∧
          ∀ q, ((if io.now > s.logStatsTs then s._logStats io.now else s).heap q).id
            = (s.heap q).id := by
        split
        · exact ⟨hs, fun _ h => h, fun _ => rfl⟩
        · exact ⟨hs, fun _ h => h, fun _ => rfl⟩
      obtain ⟨k1, k2⟩ := proc _ s2 hpre.1 hp
      simp only [Option.some.injEq, Prod.mk.injEq] at h
      obtain ⟨h, -⟩ := h
      subst h
      have he : ∀ t : PushController,
          (t._expireIdleConnection io.now io.idleDisc).messageSendQueue = t.messageSendQueue ∧
          (t._expireIdleConnection io.now io.idleDisc).messageStageQueue = t.messageStageQueue ∧
          (t._expireIdleConnection io.now io.idleDisc).messageErrorQueue = t.messageErrorQueue ∧
          (t._expireIdleConnection io.now io.idleDisc).heap = t.heap := by
        intro t
        unfold PushController._expireIdleConnection
        split
        · exact ⟨rfl, rfl, rfl, rfl⟩
        · split <;> exact ⟨rfl, rfl, rfl, rfl⟩
      obtain ⟨e1, e2, e3, e4⟩ := he s2
      refine ⟨?_, ?_⟩
      · intro q hq
        apply hpre.2.1 q
        apply k1 q
        unfold Held at hq ⊢
        simp only [_removeExpiredMessagesFromQueue, mem_foldl_setErase, mem_expiredOf, e1, e2,
          e3, e4] at hq
        tauto
      · intro q
        simp only [e4]
        rw [k2, hpre.2.2]


theorem add_idsDistinct (s : PushController) (p : Nat) (m : ApnsMessage) (now : Int)
    (hI : IdsDistinct s) (hL : s.lastId + 1 ≤ 1024) (hp : ¬ Held s p) :
    IdsDistinct ((s.construct p m).add p now) ∧
    ((s.construct p m).add p now).lastId = s.lastId + 1 := by
  have hl : ((s.construct p m).add p now).lastId = s.lastId + 1 := by
    simp only [PushController.add, PushController._add, PushController.construct]
    omega
  have hheld : ∀ q, Held ((s.construct p m).add p now) q ↔ q = p ∨ Held s q := by
    intro q
    simp only [Held, PushController.add, PushController._add, PushController.construct,
      mem_setInsert]
    tauto
  have hid : ((s.construct p m).add p now).heap p = { m with id := (s.lastId + 1) % 1024 } := by
    simp only [PushController.add, PushController._add, PushController.construct,
      Function.update_same]
    congr 1
    omega
  have hother : ∀ q, q ≠ p → ((s.construct p m).add p now).heap q = s.heap q := by
    intro q hq
    simp [PushController.add, PushController._add, PushController.construct,
      Function.update_noteq hq]
  refine ⟨⟨?_, ?_⟩, hl⟩
  · intro q hq
    rw [hl]
    by_cases e : q = p
    · subst e
      exact ⟨s.lastId + 1, by omega, le_refl _, by rw [hid]⟩
    · obtain ⟨k, k1, k2, k3⟩ := hI.1 q (((hheld q).mp hq).resolve_left e)
      exact ⟨k, k1, by omega, by rw [hother q e]; exact k3⟩
  · intro q r hq hr hne
    by_cases e1 : q = p <;> by_cases e2 : r = p
    · exact absurd (e1.trans e2.symm) hne
    · subst e1
      obtain ⟨k, k1, k2, k3⟩ := hI.1 r (((hheld r).mp hr).resolve_left e2)
      rw [hid, hother r e2, k3]
      simp only
      omega
    · subst e2
      obtain ⟨k, k1, k2, k3⟩ := hI.1 q (((hheld q).mp hq).resolve_left e1)
      rw [hid, hother q e1, k3]
      simp only
      omega
    · rw [hother q e1, hother r e2]
      exact hI.2 q r (((hheld q).mp hq).resolve_left e1) (((hheld r).mp hr).resolve_left e2) hne

theorem idsDistinct_mono (s s1 : PushController) (hI : IdsDistinct s)
    (hh : ∀ q, Held s1 q → Held s q) (hid : ∀ q, (s1.heap q).id = (s.heap q).id)
    (hl : s1.lastId = s.lastId) : IdsDistinct s1 := by
  refine ⟨?_, ?_⟩
  · intro q hq
    obtain ⟨k, k1, k2, k3⟩ := hI.1 q (hh q hq)
    exact ⟨k, k1, by rw [hl]; exact k2, by rw [hid]; exact k3⟩
  · intro q r hq hr hne
    rw [hid, hid]
    exact hI.2 q r (hh q hq) (hh r hr) hne

theorem exec_idsDistinct (pf : Platform) (ops : List Op) (s s1 : PushController)
    (hd : QueuesDisjoint s) (hs : s.messageSendQueue.Pairwise (· < ·)) (hI : IdsDistinct s)
    (hL : s.lastId + addCount ops ≤ 1024)
    (hf : freshAdds pf s ops = true) (h : PushController.exec pf s ops = some s1) :
    IdsDistinct s1 := by
  induction ops generalizing s with
  | nil =>
    simp only [PushController.exec, Option.some.injEq] at h
    subst h
    exact hI
  | cons op ops ih =>
    simp only [PushController.exec] at h
    simp only [freshAdds, Bool.and_eq_true] at hf
    obtain ⟨hf1, hf2⟩ := hf
    cases op with
    | add p m now =>
      simp only [PushController.step] at h hf2
      simp only [Bool.and_eq_true, decide_eq_true_eq] at hf1
      simp only [addCount] at hL
      obtain ⟨a1, a2, -, -⟩ := add_invariant s p m now hd hs hf1.1.1 hf1.1.2 hf1.2
      obtain ⟨b1, b2⟩ := add_idsDistinct s p m now hI (by omega) (by
        unfold Held; tauto)
      exact ih _ a1 a2 b1 (by rw [b2]; omega) hf2 h
    | remove p =>
      simp only [PushController.step] at h hf2
      simp only [addCount] at hL
      obtain ⟨a1, a2, -⟩ := remove_invariant s p hd hs
      have hrem : (∀ q, Held (s.remove p).1 q → Held s q) ∧
          (∀ q, ((s.remove p).1.heap q).id = (s.heap q).id) ∧
          (s.remove p).1.lastId = s.lastId := by
        unfold PushController.remove PushController._remove
        split
        · exact ⟨fun _ h => h, fun _ => rfl, rfl⟩
        · refine ⟨?_, fun _ => rfl, rfl⟩
          intro q hq
          unfold Held at hq ⊢
          simp only [PushController.delete, mem_setErase] at hq
          tauto
      exact ih _ a1 a2 (idsDistinct_mono s _ hI hrem.1 hrem.2.1 hrem.2.2)
        (by rw [hrem.2.2]; exact hL) hf2 h
    | run io =>
      simp only [PushController.step] at h hf2
      simp only [addCount] at hL
      cases hr : s.run pf io with
      | none => simp [hr] at h
      | some r =>
        simp only [hr, Option.map_some'] at h hf2
        obtain ⟨a1, a2, -⟩ := run_invariant pf s r.1 io r.2 hd hs hr
        obtain ⟨c1, c2⟩ := run_held pf s r.1 io r.2 hs hr
        have c3 := run_lastId pf s r.1 io r.2 hr
        exact ih _ a1 a2 (idsDistinct_mono s _ hI c1 c2 c3) (by rw [c3]; exact hL) hf2 h

/-- C9, as amended: as long as at most 1024 calls of `add()` have been made
since the engine was constructed, after every history of `add` (of a message
not held at that moment), `remove` and ticks, any two distinct messages held
in the send or stage queue carry different ids. -/
theorem c9_ids_distinct_up_to_1024_adds (pf : Platform) (timeout now0 connectRetryTs0 : Int)
    (heap0 : Nat → ApnsMessage) (ops : List Op) (s : PushController)
    (hn : addCount ops ≤ 1024)
    (hf : freshAdds pf (PushController.new timeout now0 connectRetryTs0 heap0) ops = true)
    (h : PushController.exec pf (PushController.new timeout now0 connectRetryTs0 heap0) ops
      = some s) :
    ∀ p q, p ≠ q →
      (p ∈ s.messageSendQueue ∨ p ∈ s.messageStageQueue) →
      (q ∈ s.messageSendQueue ∨ q ∈ s.messageStageQueue) →
      (s.heap p).id ≠ (s.heap q).id := by
  have h0 : QueuesDisjoint (PushController.new timeout now0 connectRetryTs0 heap0) := by
    intro p; simp [PushController.new]
  have hs0 : (PushController.new timeout now0 connectRetryTs0 heap0).messageSendQueue.Pairwise
      (· < ·) := by simp [PushController.new]
  have hI0 : IdsDistinct (PushController.new timeout now0 connectRetryTs0 heap0) := by
    refine ⟨?_, ?_⟩
    · intro p hp
      simp [Held, PushController.new] at hp
    · intro p q hp
      simp [Held, PushController.new] at hp
  have hI := exec_idsDistinct pf ops _ s h0 hs0 hI0 (by
    simp only [PushController.new, zero_add]; exact hn) hf h
  intro p q hne hp hq
  exact hI.2 p q (by unfold Held; tauto) (by unfold Held; tauto) hne

set_option maxRecDepth 100000 in
theorem c9_ids_distinct_up_to_1024_adds_witness :
    addCount exampleHistory ≤ 1024 ∧
    freshAdds examplePlatform (PushController.new 0 1000 0 (fun _ => exampleMessage))
      exampleHistory = true ∧
    ∃ s, PushController.exec examplePlatform
        (PushController.new 0 1000 0 (fun _ => exampleMessage)) exampleHistory = some s ∧
      ∀ p q, p ≠ q →
        (p ∈ s.messageSendQueue ∨ p ∈ s.messageStageQueue) →
        (q ∈ s.messageSendQueue ∨ q ∈ s.messageStageQueue) →
        (s.heap p).id ≠ (s.heap q).id := by
  have hs : (PushController.exec examplePlatform
      (PushController.new 0 1000 0 (fun _ => exampleMessage)) exampleHistory).isSome = true := by
    decide
  obtain ⟨s, hs⟩ := Option.isSome_iff_exists.mp hs
  exact ⟨by decide, by decide, s, hs,
    c9_ids_distinct_up_to_1024_adds examplePlatform 0 1000 0 (fun _ => exampleMessage)
      exampleHistory s (by decide) (by decide) hs⟩


theorem exec_append (pf : Platform) (a b : List Op) (s s1 : PushController)
    (h : PushController.exec pf s a = some s1) :
    PushController.exec pf s (a ++ b) = PushController.exec pf s1 b := by
  induction a generalizing s with
  | nil =>
    simp only [PushController.exec, Option.some.injEq] at h
    subst h
    rfl
  | cons op a ih =>
    simp only [List.cons_append, PushController.exec] at h ⊢
    cases hs2 : s.step pf op with
    | none => simp [hs2] at h
    | some s2 =>
      simp only [hs2] at h ⊢
      exact ih s2 h

theorem freshAdds_append (pf : Platform) (a b : List Op) (s s1 : PushController)
    (h : PushController.exec pf s a = some s1) (ha : freshAdds pf s a = true)
    (hb : freshAdds pf s1 b = true) : freshAdds pf s (a ++ b) = true := by
  induction a generalizing s with
  | nil =>
    simp only [PushController.exec, Option.some.injEq] at h
    subst h
    exact hb
  | cons op a ih =>
    simp only [List.cons_append, PushController.exec] at h
    simp only [List.cons_append, freshAdds, Bool.and_eq_true] at ha ⊢
    refine ⟨ha.1, ?_⟩
    cases hs2 : s.step pf op with
    | none => simp [hs2] at h
    | some s2 =>
      simp only [hs2] at h ha ⊢
      exact ih s2 h ha.2

/-- The state after `n` adds of distinct messages on a fresh engine: the
messages `1..n` are all in the send queue, message `k` with id `k mod 1024`. -/
theorem exec_manyAdds (pf : Platform) (n : Nat) (hn : n < 2 ^ 32) :
    ∃ s, PushController.exec pf (PushController.new 0 1000 0 (fun _ => exampleMessage))
        (manyAdds n) = some s ∧
      freshAdds pf (PushController.new 0 1000 0 (fun _ => exampleMessage)) (manyAdds n) = true ∧
      s.lastId = n ∧ s.messageStageQueue = [] ∧ s.messageErrorQueue = [] ∧
      (∀ q ∈ s.messageSendQueue, 1 ≤ q ∧ q ≤ n) ∧
      ∀ k, 1 ≤ k → k ≤ n → k ∈ s.messageSendQueue ∧ (s.heap k).id = k % 1024 := by
  induction n with
  | zero =>
    refine ⟨_, rfl, rfl, rfl, rfl, rfl, ?_, ?_⟩
    · intro q hq; simp [PushController.new] at hq
    · intro k h1 h2; omega
  | succ n ih =>
    obtain ⟨s, h1, h2, h3, h4, h5, h6, h7⟩ := ih (by omega)
    have hm : manyAdds (n + 1) = manyAdds n ++ [Op.add (n + 1) exampleMessage 1000] := by
      simp [manyAdds, List.range_succ]
    have hfresh : n + 1 ∉ s.messageSendQueue := fun hc => by
      have := (h6 _ hc).2; omega
    refine ⟨(s.construct (n + 1) exampleMessage).add (n + 1) 1000, ?_, ?_, ?_, ?_, ?_, ?_, ?_⟩
    · rw [hm, exec_append pf _ _ _ s h1]
      rfl
    · rw [hm]
      apply freshAdds_append pf _ _ _ s h1 h2
      simp [freshAdds, hfresh, h4, h5, PushController.step]
    · simp only [PushController.add, PushController._add, PushController.construct, h3]
      exact Nat.mod_eq_of_lt (by omega)
    · simp [PushController.add, PushController._add, PushController.construct, h4]
    · simp [PushController.add, PushController._add, PushController.construct, h5]
    · intro q hq
      simp only [PushController.add, PushController._add, PushController.construct,
        mem_setInsert] at hq
      rcases hq with rfl | hq
      · omega
      · have := h6 q hq; omega
    · intro k k1 k2
      simp only [PushController.add, PushController._add, PushController.construct,
        mem_setInsert]
      by_cases e : k = n + 1
      · subst e
        refine ⟨Or.inl rfl, ?_⟩
        simp only [Function.update_same, h3]
        rw [Nat.mod_eq_of_lt (show n + 1 < 2 ^ 32 by omega)]
      · obtain ⟨a1, a2⟩ := h7 k k1 (by omega)
        refine ⟨Or.inr a1, ?_⟩
        rw [Function.update_noteq e, Function.update_noteq e]
        exact a2

/-- C9 fails as stated: after 1025 calls of `add()` on a fresh engine, of 1025
distinct messages and with no tick in between, the first and the last
message are both in the send queue and both carry the id 1. -/
theorem c9_counterexample :
    ∃ s, PushController.exec examplePlatform
        (PushController.new 0 1000 0 (fun _ => exampleMessage)) (manyAdds 1025) = some s ∧
      freshAdds examplePlatform (PushController.new 0 1000 0 (fun _ => exampleMessage))
        (manyAdds 1025) = true ∧
      (1 : Nat) ≠ 1025 ∧ 1 ∈ s.messageSendQueue ∧ 1025 ∈ s.messageSendQueue ∧
      (s.heap 1).id = (s.heap 1025).id := by
  obtain ⟨s, h1, h2, -, -, -, -, h7⟩ := exec_manyAdds examplePlatform 1025 (by norm_num)
  obtain ⟨a1, a2⟩ := h7 1 (by norm_num) (by norm_num)
  obtain ⟨b1, b2⟩ := h7 1025 (by norm_num) (by norm_num)
  exact ⟨s, h1, h2, by norm_num, a1, b1, by rw [a2, b2]⟩


/-- C10 does not hold on the code where plain `char` is signed: the status
byte is kept in a `char` and passed to `error(const int)`, so the response
`08 FF 00 00 00 01` naming the staged message with id 1 leaves `error()` at
-1, not at 255; only where `char` is unsigned does it give 255. In both cases
the message goes to the error queue. -/
theorem c10_status_byte_sign_extended :
    (exampleStaged._processResponseFromApns examplePlatform unknownStatusResponse).map
        (fun s => ((s.heap 10).error, decide (10 ∈ s.messageErrorQueue)))
      = some (-1, true) ∧
    (exampleStaged._processResponseFromApns unsignedCharPlatform unknownStatusResponse).map
        (fun s => ((s.heap 10).error, decide (10 ∈ s.messageErrorQueue)))
      = some (255, true) ∧
    examplePlatform.charSigned = true ∧ (exampleStaged.heap 10).id = 1 ∧
    10 ∈ exampleStaged.messageStageQueue := by
  refine ⟨by decide, by decide, rfl, by decide, by decide⟩


/-! ## The shape of a tick -/

theorem run_eq (pf : Platform) (s : PushController) (io : TickIo) :
    s.run pf io =
      if io.now < s.connectRetryTs then some (s, false)
      else
        ((if io.now > s.logStatsTs then s._logStats io.now else s)._processMessageSendQueue
            pf io).map
          (fun s2 => (expiryPasses (s2._expireIdleConnection io.now io.idleDisc) io.now, true)) := by
  unfold PushController.run
  split
  · rfl
  · cases (if io.now > s.logStatsTs then s._logStats io.now else s)._processMessageSendQueue
        pf io <;> rfl

theorem run_some (pf : Platform) (s s1 : PushController) (io : TickIo) (b : Bool)
    (h : s.run pf io = some (s1, b)) :
    (io.now < s.connectRetryTs ∧ s1 = s ∧ b = false) ∨
    (¬ io.now < s.connectRetryTs ∧ b = true ∧ ∃ s0 s2, SameMessages s s0 ∧
      s0.toSslController = s.toSslController ∧
      s0._processMessageSendQueue pf io = some s2 ∧
      s1 = expiryPasses (s2._expireIdleConnection io.now io.idleDisc) io.now) := by
  rw [run_eq] at h
  split at h
  · rename_i hb
    simp only [Option.some.injEq, Prod.mk.injEq] at h
    exact Or.inl ⟨hb, h.1.symm, h.2.symm⟩
  · rename_i hb
    right
    cases hp : (if io.now > s.logStatsTs then s._logStats io.now else s)._processMessageSendQueue
        pf io with
    | none => simp [hp] at h
    | some s2 =>
      simp only [hp, Option.map_some', Option.some.injEq, Prod.mk.injEq] at h
      refine ⟨hb, h.2.symm, _, s2, ?_, ?_, hp, h.1.symm⟩
      · split
        · exact ⟨rfl, rfl, rfl, rfl, rfl, rfl⟩
        · exact ⟨rfl, rfl, rfl, rfl, rfl, rfl⟩
      · split <;> rfl

theorem processMessageSendQueue_some (pf : Platform) (s s1 : PushController) (io : TickIo)
    (h : s._processMessageSendQueue pf io = some s1) :
    SameMessages s s1 ∨
    ∃ s0, SameMessages s s0 ∧ s0.connected = true ∧ s.messageSendQueue ≠ [] ∧
      (s.connected = true ∨ io.connectOk = true) ∧
      PushController.sendLoop pf io.now io.loop s.messageSendQueue 0 s0 = some s1 := by
  unfold PushController._processMessageSendQueue at h
  split at h
  · cases h; exact Or.inl ⟨rfl, rfl, rfl, rfl, rfl, rfl⟩
  · rename_i hne
    split at h
    · cases h; exact Or.inl ⟨rfl, rfl, rfl, rfl, rfl, rfl⟩
    · rename_i hc
      right
      by_cases hcon : s.connected = true
      · have e : s.isConnected = true := hcon
        simp only [e, Bool.not_true, Bool.false_eq_true, if_false] at h
        exact ⟨s, ⟨rfl, rfl, rfl, rfl, rfl, rfl⟩, hcon, hne, Or.inl hcon, h⟩
      · have e : s.isConnected = false := by
          simpa [SslController.isConnected] using hcon
        have e2 : s.connected = false := by simpa using hcon
        simp only [e, Bool.not_false, Bool.true_and, Bool.not_eq_true, Bool.not_eq_false] at hc
        simp only [e, Bool.not_false, if_true] at h
        have hok : io.connectOk = true := by
          cases hk : io.connectOk with
          | true => rfl
          | false =>
            simp [SslController.connect, SslController._connect, e2, hk] at hc
        refine ⟨{ s with toSslController := (s.toSslController.connect io.connectOk).1 },
          ⟨rfl, rfl, rfl, rfl, rfl, rfl⟩, ?_, hne, Or.inr hok, h⟩
        simp [SslController.connect, SslController._connect, e2, hok]

theorem processMessageSendQueue_loop (pf : Platform) (s s1 : PushController) (io : TickIo)
    (hne : s.messageSendQueue ≠ []) (hc : s.connected = true ∨ io.connectOk = true)
    (h : s._processMessageSendQueue pf io = some s1) :
    ∃ s0, SameMessages s s0 ∧ s0.connected = true ∧
      PushController.sendLoop pf io.now io.loop s.messageSendQueue 0 s0 = some s1 := by
  unfold PushController._processMessageSendQueue at h
  simp only [hne, if_false] at h
  by_cases hcon : s.connected = true
  · have e : s.isConnected = true := hcon
    simp only [e, Bool.not_true, Bool.false_and, Bool.false_eq_true, if_false] at h
    exact ⟨s, ⟨rfl, rfl, rfl, rfl, rfl, rfl⟩, hcon, h⟩
  · have hok : io.connectOk = true := hc.resolve_left hcon
    have e2 : s.connected = false := by simpa using hcon
    have e : s.isConnected = false := e2
    have e3 : (s.toSslController.connect io.connectOk).2 = true := by
      simp [SslController.connect, SslController._connect, e2, hok]
    simp only [e, e3, Bool.not_false, Bool.not_true, Bool.and_false, Bool.false_eq_true,
      if_false, if_true] at h
    refine ⟨{ s with toSslController := (s.toSslController.connect io.connectOk).1 },
      ⟨rfl, rfl, rfl, rfl, rfl, rfl⟩, ?_, h⟩
    simp [SslController.connect, SslController._connect, e2, hok]

theorem expireIdle_same (s : PushController) (now : Int) (io : DisconnectIo) :
    SameMessages s (s._expireIdleConnection now io) := by
  unfold PushController._expireIdleConnection
  split
  · exact ⟨rfl, rfl, rfl, rfl, rfl, rfl⟩
  · split <;> exact ⟨rfl, rfl, rfl, rfl, rfl, rfl⟩

theorem expiryPasses_effect (s : PushController) (now : Int) :
    (expiryPasses s now).heap = s.heap ∧
    (expiryPasses s now).messageSendQueue = s.messageSendQueue ∧
    (expiryPasses s now).writeLog = s.writeLog ∧
    (∀ p, p ∈ (expiryPasses s now).messageStageQueue ↔
      p ∈ s.messageStageQueue ∧ ¬ now > (s.heap p).expiry) ∧
    (∀ p, p ∈ (expiryPasses s now).messageErrorQueue ↔
      p ∈ s.messageErrorQueue ∧ ¬ now > (s.heap p).expiry) := by
  refine ⟨rfl, rfl, rfl, ?_, ?_⟩
  · intro p
    simp only [expiryPasses, _removeExpiredMessagesFromQueue, mem_foldl_setErase, mem_expiredOf]
    tauto
  · intro p
    simp only [expiryPasses, _removeExpiredMessagesFromQueue, mem_foldl_setErase, mem_expiredOf]
    tauto

/-! ## The error field of the messages in the error queue -/

theorem sendLoopBody_some (pf : Platform) (now : Int) (io : LoopIo) (s s1 : PushController)
    (ptr : Nat) (h : s.sendLoopBody pf now io ptr = some s1) :
    ∃ s2 b rr n, ({ s with
        messageStageQueue := setInsert ptr s.messageStageQueue
        messageSendQueue := setErase ptr s.messageSendQueue })._sendPayload pf ptr now io.send
          = some (s2, b) ∧
      s2._readResponseFromApns pf io.read = some (rr, n) ∧ SameMessages rr s1 := by
  unfold PushController.sendLoopBody at h
  simp only at h
  split at h
  · cases h
  · rename_i r hr
    obtain ⟨s3, n, h3, -⟩ := readResponse_effect pf r.1 io.read
    rw [h3] at h
    simp only at h
    refine ⟨r.1, r.2, s3, n, hr, h3, ?_⟩
    split at h
    · cases h
      exact ⟨rfl, rfl, rfl, rfl, rfl, rfl⟩
    · cases h
      exact ⟨rfl, rfl, rfl, rfl, rfl, rfl⟩

theorem errorsSet_same (s s1 : PushController) (h : SameMessages s s1) (hE : ErrorsSet s) :
    ErrorsSet s1 := by
  obtain ⟨-, -, h3, -, h5, -⟩ := h
  intro p hp
  rw [h3] at hp
  rw [h5]
  exact hE p hp

theorem sendOutcome_errorsSet (s s2 : PushController) (p : Nat) (h : SendOutcome s p s2)
    (hE : ErrorsSet s) : ErrorsSet s2 := by
  have key : ∀ m : ApnsMessage, m.error = (s.heap p).error →
      s2.messageErrorQueue = s.messageErrorQueue → s2.heap = Function.update s.heap p m →
      ErrorsSet s2 := by
    intro m hm he hh q hq
    rw [he] at hq
    rw [hh]
    by_cases e : q = p
    · subst e
      simp only [Function.update_same, hm]
      exact hE q hq
    · simp only [Function.update_noteq e]
      exact hE q hq
  rcases h with ⟨-, -, -, he, -, hh, -⟩ | ⟨-, -, -, -, he, -, hh, -⟩ | ⟨-, -, -, -, he, -, hh⟩ |
    ⟨-, -, -, -, he, -, hh⟩
  · exact key (s.heap p).retry.1 rfl he hh
  · intro q hq
    rw [he, mem_setInsert] at hq
    rw [hh]
    by_cases e : q = p
    · subst e
      simp [ERR_INVALID_PAYLOAD_SIZE]
    · simp only [Function.update_noteq e]
      rcases hq with hq | hq
      · exact absurd hq e
      · exact hE q hq
  · exact key (s.heap p).retry.1 rfl he hh
  · exact key (s.heap p).retry.1 rfl he hh

theorem processResponse_errorsSet (pf : Platform) (s s1 : PushController) (r : ApnsResponse)
    (hr : charToInt pf r.command = ERROR_RESPONSE_COMMAND → charToInt pf r.status ≠ 0)
    (hE : ErrorsSet s) (h : s._processResponseFromApns pf r = some s1) : ErrorsSet s1 := by
  unfold PushController._processResponseFromApns at h
  simp only at h
  split at h
  · cases h; exact hE
  · rename_i hc
    have hst := hr (not_not.mp hc)
    split at h
    · cases h; exact hE
    · rename_i p hf
      have hp := (findById_some s _ p hf).1
      simp only [PushController._removeMessageFromQueue, hp, not_true_eq_false, if_false,
        if_true, Option.some.injEq] at h
      subst h
      intro q hq
      simp only [mem_setInsert] at hq
      by_cases e : q = p
      · subst e
        simpa using hst
      · simp only [Function.update_noteq e]
        rcases hq with hq | hq
        · exact absurd hq e
        · exact hE q hq

theorem readResponse_errorsSet (pf : Platform) (s s1 : PushController) (io : ReadIo) (n : Int)
    (hr : charToInt pf ((peek io.buf 0 1).headD 0) = ERROR_RESPONSE_COMMAND →
      charToInt pf ((peek io.buf 1 1).headD 0) ≠ 0)
    (hE : ErrorsSet s) (h : s._readResponseFromApns pf io = some (s1, n)) : ErrorsSet s1 := by
  unfold PushController._readResponseFromApns at h
  simp only at h
  split at h
  · cases h; exact hE
  · split at h
    · cases h
    · rename_i s2 hp
      simp only [Option.some.injEq, Prod.mk.injEq] at h
      obtain ⟨h, -⟩ := h
      subst h
      exact processResponse_errorsSet pf
        { s with toSslController := (s.toSslController.read io).1 } s2
        { command := (peek io.buf 0 1).headD 0
          status := (peek io.buf 1 1).headD 0
          identifier := peek io.buf 2 4 } hr hE hp

theorem sendLoopBody_errorsSet (pf : Platform) (now : Int) (io : LoopIo) (s s1 : PushController)
    (ptr : Nat)
    (hr : charToInt pf ((peek io.read.buf 0 1).headD 0) = ERROR_RESPONSE_COMMAND →
      charToInt pf ((peek io.read.buf 1 1).headD 0) ≠ 0)
    (hE : ErrorsSet s) (h : s.sendLoopBody pf now io ptr = some s1) : ErrorsSet s1 := by
  obtain ⟨s2, b, rr, n, h1, h2, h3⟩ := sendLoopBody_some pf now io s s1 ptr h
  have hp : ptr ∈ ({ s with
      messageStageQueue := setInsert ptr s.messageStageQueue
      messageSendQueue := setErase ptr s.messageSendQueue } : PushController).messageStageQueue := by
    simp [mem_setInsert]
  have e1 := sendOutcome_errorsSet _ s2 ptr (sendPayload_effect pf _ s2 ptr now io.send b hp h1).1 hE
  exact errorsSet_same rr s1 h3 (readResponse_errorsSet pf s2 rr io.read n hr e1 h2)

theorem run_errorsSet (pf : Platform) (s s1 : PushController) (io : TickIo) (b : Bool)
    (hr : NoZeroStatus pf io) (hE : ErrorsSet s) (h : s.run pf io = some (s1, b)) :
    ErrorsSet s1 := by
  rcases run_some pf s s1 io b h with ⟨-, e, -⟩ | ⟨-, -, s0, s2, h0, -, hp, e⟩
  · subst e; exact hE
  · have hE0 := errorsSet_same s s0 h0 hE
    have hE2 : ErrorsSet s2 := by
      rcases processMessageSendQueue_some pf s0 s2 io hp with hs | ⟨t, ht, -, -, -, hl⟩
      · exact errorsSet_same s0 s2 hs hE0
      · exact sendLoop_induct pf io.now io.loop (fun _ u => ErrorsSet u)
          (fun _ _ _ hu => hu)
          (fun ptr _ k u u1 hu _ hb => sendLoopBody_errorsSet pf io.now (io.loop k) u u1 ptr
            (hr k) hu hb)
          s0.messageSendQueue 0 t s2 (errorsSet_same s0 t ht hE0) hl
    have hE3 := errorsSet_same _ _ (expireIdle_same s2 io.now io.idleDisc) hE2
    obtain ⟨a1, -, -, -, a5⟩ := expiryPasses_effect (s2._expireIdleConnection io.now io.idleDisc)
      io.now
    subst e
    intro q hq
    rw [a1]
    exact hE3 q ((a5 q).mp hq).1

theorem exec_errorsSet (pf : Platform) (ops : List Op) (s s1 : PushController)
    (hE : ErrorsSet s) (hf : freshAdds pf s ops = true) (hr : NoZeroStatuses pf ops)
    (h : PushController.exec pf s ops = some s1) : ErrorsSet s1 := by
  induction ops generalizing s with
  | nil =>
    simp only [PushController.exec, Option.some.injEq] at h
    subst h
    exact hE
  | cons op ops ih =>
    simp only [PushController.exec] at h
    simp only [freshAdds, Bool.and_eq_true] at hf
    cases hs2 : s.step pf op with
    | none => simp [hs2] at h
    | some s2 =>
      simp only [hs2] at h hf
      refine ih s2 ?_ hf.2 ?_ h
      · cases op with
        | add p m now =>
          simp only [PushController.step, Option.some.injEq] at hs2
          subst hs2
          have hp : p ∉ s.messageErrorQueue := by
            have := hf.1
            simp only [Bool.and_eq_true, decide_eq_true_eq] at this
            exact this.2
          intro q hq
          have hq' : q ∈ s.messageErrorQueue := hq
          have e : q ≠ p := fun e => hp (e ▸ hq')
          have := hE q hq'
          simpa [PushController.add, PushController._add, PushController.construct,
            Function.update_noteq e] using this
        | remove p =>
          simp only [PushController.step, Option.some.injEq] at hs2
          subst hs2
          intro q hq
          have : (s.remove p).1.messageErrorQueue = s.messageErrorQueue ∧
              (s.remove p).1.heap = s.heap := by
            simp only [PushController.remove, PushController._remove, PushController.delete]
            split <;> exact ⟨rfl, rfl⟩
          rw [this.1] at hq
          rw [this.2]
          exact hE q hq
        | run io =>
          simp only [PushController.step] at hs2
          cases hrun : s.run pf io with
          | none => simp [hrun] at hs2
          | some r =>
            simp only [hrun, Option.map_some', Option.some.injEq] at hs2
            subst hs2
            exact run_errorsSet pf s r.1 io r.2 hr.1 hE hrun
      · cases op with
        | add p m now => exact hr
        | remove p => exact hr
        | run io => exact hr.2

set_option maxRecDepth 100000 in
/-- C11 fails as stated: `_processResponseFromApns` moves the message named
by an error response to the error queue before it looks at the status, so
the response `08 00 00 00 00 01`, read after the message with id 1 was
written, leaves that message in the error queue with its error field 0. -/
theorem c11_counterexample :
    (PushController.exec examplePlatform (PushController.new 0 1000 0 (fun _ => exampleMessage))
        (responseHistory 0)).map
      (fun s => (s.messageSendQueue, s.messageStageQueue, s.messageErrorQueue,
        (s.heap 10).error, (s.heap 10).id))
      = some ([], [], [10], 0, 1) ∧
    freshAdds examplePlatform (PushController.new 0 1000 0 (fun _ => exampleMessage))
      (responseHistory 0) = true := by
  refine ⟨by decide, by decide⟩

/-- C11, as amended: starting from a freshly constructed engine, after every
sequence of `add` (of a message not held at that moment), `remove` and `run`
in which no error response read carries the status byte 0, every message in
the error queue has a non-zero error field (7 after a payload failure, the
status of the response that named it otherwise). -/
theorem c11_error_queue_nonzero_error (pf : Platform) (timeout now connectRetryTs0 : Int)
    (heap0 : Nat → ApnsMessage) (ops : List Op) (s : PushController)
    (hf : freshAdds pf (PushController.new timeout now connectRetryTs0 heap0) ops = true)
    (hr : NoZeroStatuses pf ops)
    (h : PushController.exec pf (PushController.new timeout now connectRetryTs0 heap0) ops
      = some s) :
    ∀ p ∈ s.messageErrorQueue, (s.heap p).error ≠ 0 := by
  have h0 : ErrorsSet (PushController.new timeout now connectRetryTs0 heap0) := by
    intro p hp
    simp [PushController.new] at hp
  exact exec_errorsSet pf ops _ s h0 hf hr h

set_option maxRecDepth 100000 in
theorem c11_error_queue_nonzero_error_witness :
    freshAdds examplePlatform (PushController.new 0 1000 0 (fun _ => exampleMessage))
      (responseHistory 8) = true ∧
    NoZeroStatuses examplePlatform (responseHistory 8) ∧
    ∃ s, PushController.exec examplePlatform
        (PushController.new 0 1000 0 (fun _ => exampleMessage)) (responseHistory 8) = some s ∧
      s.messageErrorQueue = [10] ∧
      ∀ p ∈ s.messageErrorQueue, (s.heap p).error ≠ 0 := by
  have hs : (PushController.exec examplePlatform
      (PushController.new 0 1000 0 (fun _ => exampleMessage)) (responseHistory 8)).isSome
        = true := by
    decide
  have hq : (PushController.exec examplePlatform
      (PushController.new 0 1000 0 (fun _ => exampleMessage)) (responseHistory 8)).map
        (fun s => s.messageErrorQueue) = some [10] := by
    decide
  obtain ⟨s, hs⟩ := Option.isSome_iff_exists.mp hs
  have hz : NoZeroStatuses examplePlatform (responseHistory 8) :=
    ⟨fun _ _ => (by decide :
      charToInt examplePlatform ((peek (responseLoopIo 8).read.buf 1 1).headD 0) ≠ 0), trivial⟩
  rw [hs] at hq
  exact ⟨by decide, hz, s, hs, by simpa using hq,
    c11_error_queue_nonzero_error examplePlatform 0 1000 0 (fun _ => exampleMessage)
      (responseHistory 8) s (by decide) hz hs⟩

/-! ## Removal of expired messages -/

theorem setInsert_append (x : Nat) (acc : List Nat) (h : ∀ a ∈ acc, a < x) :
    setInsert x acc = acc ++ [x] := by
  induction acc with
  | nil => rfl
  | cons y ys ih =>
    have hy : y < x := h y (List.mem_cons_self _ _)
    have h1 : ¬ x < y := by omega
    have h2 : ¬ x = y := by omega
    simp only [setInsert, h1, h2, if_false, List.cons_append]
    rw [ih (fun a ha => h a (List.mem_cons_of_mem _ ha))]

theorem foldl_expired_sorted (heap : Nat → ApnsMessage) (now : Int) (q acc : List Nat)
    (hq : q.Pairwise (· < ·)) (ha : ∀ a ∈ acc, ∀ b ∈ q, a < b) :
    q.foldl (fun removeMe p => if now > (heap p).expiry then setInsert p removeMe else removeMe)
        acc
      = acc ++ q.filter (fun p => decide (now > (heap p).expiry)) := by
  induction q generalizing acc with
  | nil => simp
  | cons x xs ih =>
    rw [List.pairwise_cons] at hq
    simp only [List.foldl_cons]
    by_cases hx : now > (heap x).expiry
    · have e : setInsert x acc = acc ++ [x] :=
        setInsert_append x acc (fun a h => ha a h x (List.mem_cons_self _ _))
      simp only [hx, if_true, e, List.filter_cons, decide_True]
      rw [ih (acc ++ [x]) hq.2]
      · simp
      · intro a h b hb
        simp only [List.mem_append, List.mem_singleton] at h
        rcases h with h | rfl
        · exact ha a h b (List.mem_cons_of_mem _ hb)
        · exact hq.1 b hb
    · simp only [hx, if_false, List.filter_cons, decide_False]
      exact ih acc hq.2 (fun a h b hb => ha a h b (List.mem_cons_of_mem _ hb))

theorem expiredOf_sorted (heap : Nat → ApnsMessage) (now : Int) (q : List Nat)
    (hq : q.Pairwise (· < ·)) :
    expiredOf heap now q = q.filter (fun p => decide (now > (heap p).expiry)) := by
  unfold expiredOf
  rw [foldl_expired_sorted heap now q [] hq (fun a h => absurd h (List.not_mem_nil a))]
  rfl

theorem foldl_setErase_filter (l q : List Nat) :
    l.foldl (fun q p => setErase p q) q = q.filter (fun a => decide (a ∉ l)) := by
  induction l generalizing q with
  | nil => simp
  | cons x xs ih =>
    simp only [List.foldl_cons]
    rw [ih (setErase x q)]
    unfold setErase
    rw [List.filter_filter]
    apply List.filter_congr
    intro a _
    simp only [List.mem_cons, not_or, Bool.decide_and, Bool.and_comm]

theorem removeExpired_kept (heap : Nat → ApnsMessage) (now : Int) (q : List Nat) :
    (_removeExpiredMessagesFromQueue heap now q).1
      = q.filter (fun p => decide ((heap p).expiry ≥ now)) := by
  unfold _removeExpiredMessagesFromQueue
  simp only
  rw [foldl_setErase_filter]
  apply List.filter_congr
  intro a ha
  have := mem_expiredOf heap now q a
  by_cases he : now > (heap a).expiry
  · have h1 : a ∈ expiredOf heap now q := this.mpr ⟨ha, he⟩
    have h2 : ¬ (heap a).expiry ≥ now := by omega
    simp [h1, h2]
  · have h1 : a ∉ expiredOf heap now q := fun h => he (this.mp h).2
    have h2 : (heap a).expiry ≥ now := by omega
    simp [h1, h2]

/-- C13: `_removeExpiredMessagesFromQueue` on a queue `Q` at clock reading
`now` leaves exactly the messages of `Q` with expiry >= now, deletes exactly
those with expiry < now, and returns their number (as the `unsigned int` it
is counted in, so for every queue of fewer than 2^32 messages); and after a
tick that is not in backoff no message with expiry < now is left in the
stage queue or in the error queue. -/
theorem c13_expired_messages_removed (pf : Platform) (s s1 : PushController) (io : TickIo)
    (b : Bool) (heap : Nat → ApnsMessage) (now : Int) (Q : List Nat)
    (hb : ¬ io.now < s.connectRetryTs) (h : s.run pf io = some (s1, b)) :
    (_removeExpiredMessagesFromQueue heap now Q).1
      = Q.filter (fun p => decide ((heap p).expiry ≥ now)) ∧
    (∀ p, p ∈ (_removeExpiredMessagesFromQueue heap now Q).2.1 ↔
      p ∈ Q ∧ (heap p).expiry < now) ∧
    (Q.Pairwise (· < ·) →
      (_removeExpiredMessagesFromQueue heap now Q).2.1
        = Q.filter (fun p => decide ((heap p).expiry < now)) ∧
      (_removeExpiredMessagesFromQueue heap now Q).2.2
        = (Q.filter (fun p => decide ((heap p).expiry < now))).length % 2 ^ 32 ∧
      (Q.length < 2 ^ 32 →
        (_removeExpiredMessagesFromQueue heap now Q).2.2
          = (Q.filter (fun p => decide ((heap p).expiry < now))).length ∧
        (_removeExpiredMessagesFromQueue heap now Q).2.2
          = Q.length - (_removeExpiredMessagesFromQueue heap now Q).1.length)) ∧
    b = true ∧
    (∀ p ∈ s1.messageStageQueue, ¬ (s1.heap p).expiry < io.now) ∧
    (∀ p ∈ s1.messageErrorQueue, ¬ (s1.heap p).expiry < io.now) := by
  refine ⟨removeExpired_kept heap now Q, ?_, ?_, ?_⟩
  · intro p
    exact mem_expiredOf heap now Q p
  · intro hQ
    have e1 : (_removeExpiredMessagesFromQueue heap now Q).2.1
        = Q.filter (fun p => decide ((heap p).expiry < now)) := expiredOf_sorted heap now Q hQ
    have e2 : (_removeExpiredMessagesFromQueue heap now Q).2.2
        = (_removeExpiredMessagesFromQueue heap now Q).2.1.length % 2 ^ 32 := rfl
    refine ⟨e1, by rw [e2, e1], ?_⟩
    intro hlt
    have hle := List.length_filter_le (fun p => decide ((heap p).expiry < now)) Q
    have e3 : (_removeExpiredMessagesFromQueue heap now Q).2.2
        = (Q.filter (fun p => decide ((heap p).expiry < now))).length := by
      rw [e2, e1]
      exact Nat.mod_eq_of_lt (by omega)
    refine ⟨e3, ?_⟩
    rw [e3, removeExpired_kept]
    have hsum : Q.length = (Q.filter (fun p => decide ((heap p).expiry < now))).length
        + (Q.filter (fun p => !decide ((heap p).expiry < now))).length :=
      List.length_eq_length_filter_add (fun p => decide ((heap p).expiry < now))
    have hneg : Q.filter (fun p => decide ((heap p).expiry ≥ now))
        = Q.filter (fun p => !decide ((heap p).expiry < now)) := by
      apply List.filter_congr
      intro a _
      by_cases hc : (heap a).expiry < now
      · have : ¬ (heap a).expiry ≥ now := by omega
        simp [hc, this]
      · have : (heap a).expiry ≥ now := by omega
        simp [hc, this]
    rw [hneg]
    omega
  · rcases run_some pf s s1 io b h with ⟨hc, -, -⟩ | ⟨-, hbt, s0, s2, -, -, -, e⟩
    · exact absurd hc hb
    · obtain ⟨a1, -, -, a4, a5⟩ :=
        expiryPasses_effect (s2._expireIdleConnection io.now io.idleDisc) io.now
      subst e
      refine ⟨hbt, ?_, ?_⟩
      · intro p hp
        have := ((a4 p).mp hp).2
        rw [a1]
        omega
      · intro p hp
        have := ((a5 p).mp hp).2
        rw [a1]
        omega

set_option maxRecDepth 100000 in
theorem c13_expired_messages_removed_witness :
    ¬ lateTick.now < expiringEngine.connectRetryTs ∧
    ∃ s1 b, expiringEngine.run examplePlatform lateTick = some (s1, b) ∧
      s1.messageStageQueue = [20] ∧ s1.messageErrorQueue = [40] ∧
      (_removeExpiredMessagesFromQueue mixedHeap 6000 [10, 20]).1
        = [10, 20].filter (fun p => decide ((mixedHeap p).expiry ≥ 6000)) ∧
      (∀ p, p ∈ (_removeExpiredMessagesFromQueue mixedHeap 6000 [10, 20]).2.1 ↔
        p ∈ [10, 20] ∧ (mixedHeap p).expiry < 6000) ∧
      (_removeExpiredMessagesFromQueue mixedHeap 6000 [10, 20]) = ([20], [10], 1) ∧
      b = true ∧
      (∀ p ∈ s1.messageStageQueue, ¬ (s1.heap p).expiry < lateTick.now) ∧
      (∀ p ∈ s1.messageErrorQueue, ¬ (s1.heap p).expiry < lateTick.now) := by
  have hs : (expiringEngine.run examplePlatform lateTick).isSome = true := by decide
  have hq : (expiringEngine.run examplePlatform lateTick).map
      (fun r => (r.1.messageStageQueue, r.1.messageErrorQueue)) = some ([20], [40]) := by decide
  obtain ⟨r, hr⟩ := Option.isSome_iff_exists.mp hs
  rw [hr] at hq
  simp only [Option.map_some', Option.some.injEq, Prod.mk.injEq] at hq
  have key := c13_expired_messages_removed examplePlatform expiringEngine r.1 lateTick r.2
    mixedHeap 6000 [10, 20] (by decide) hr
  exact ⟨by decide, r.1, r.2, hr, hq.1, hq.2, key.1, key.2.1, by decide, key.2.2.2⟩

/-! ## The calls of `write` made during a tick -/

theorem sendLoopBody_log (pf : Platform) (now : Int) (io : LoopIo) (s s1 : PushController)
    (ptr : Nat) (h : s.sendLoopBody pf now io ptr = some s1) :
    s1.writeLog = s.writeLog ∨
    ∃ pkt, s1.writeLog = s.writeLog ++ [WriteCall.mk ptr (s.heap ptr).retry.1 pkt] := by
  obtain ⟨s2, ho, hm, -⟩ := sendLoopBody_outcome pf now io s s1 ptr h
  have e1 := (errorMove_heap s2 s1 hm ptr).2.2.2.2.2.2
  rcases sendOutcome_log _ s2 ptr ho with ⟨a, -⟩ | ⟨-, pkt, a⟩
  · left; rw [e1, a]
  · right; exact ⟨pkt, by rw [e1, a]⟩

theorem sendLoopBody_written (pf : Platform) (now : Int) (io : LoopIo) (s s1 : PushController)
    (ptr : Nat) (P : List Nat) (hretry : (s.heap ptr).retry.2 = true)
    (hP : (s.heap ptr).getPayload = some P) (h : s.sendLoopBody pf now io ptr = some s1) :
    ∃ pkt, s1.writeLog = s.writeLog ++ [WriteCall.mk ptr (s.heap ptr).retry.1 pkt] := by
  obtain ⟨s2, ho, hm, -⟩ := sendLoopBody_outcome pf now io s s1 ptr h
  have e1 := (errorMove_heap s2 s1 hm ptr).2.2.2.2.2.2
  rcases ho with ⟨a, -⟩ | ⟨-, a, -⟩ | ⟨-, ⟨pkt, a⟩, -⟩ | ⟨-, ⟨pkt, a⟩, -⟩
  · have a' : (s.heap ptr).retry.2 = false := a
    rw [hretry] at a'
    cases a'
  · have a' : (s.heap ptr).getPayload = none := a
    rw [hP] at a'
    cases a'
  · exact ⟨pkt, by rw [e1, a]⟩
  · exact ⟨pkt, by rw [e1, a]⟩

theorem sendLoopBody_expiry (pf : Platform) (now : Int) (io : LoopIo) (s s1 : PushController)
    (ptr : Nat) (h : s.sendLoopBody pf now io ptr = some s1) (q : Nat) :
    (s1.heap q).expiry = (s.heap q).expiry := by
  obtain ⟨s2, ho, hm, -⟩ := sendLoopBody_outcome pf now io s s1 ptr h
  rw [(errorMove_heap s2 s1 hm q).2.2.2.2.1, (sendOutcome_heap _ s2 ptr ho q).2.2.2.1]

theorem sendLoop_log (pf : Platform) (now : Int) (io : Nat → LoopIo) (l : List Nat) (k : Nat)
    (s s1 : PushController) (h : PushController.sendLoop pf now io l k s = some s1) :
    (∃ calls, s1.writeLog = s.writeLog ++ calls) ∧ ∀ q, (s1.heap q).expiry = (s.heap q).expiry := by
  have key := sendLoop_induct pf now io
    (fun _ u => (∃ calls, u.writeLog = s.writeLog ++ calls) ∧
      ∀ q, (u.heap q).expiry = (s.heap q).expiry)
    (fun _ _ _ hu => hu)
    (by
      intro ptr rest k u u1 ⟨⟨calls, hc⟩, he⟩ _ hb
      refine ⟨?_, fun q => by rw [sendLoopBody_expiry pf now (io k) u u1 ptr hb q, he q]⟩
      rcases sendLoopBody_log pf now (io k) u u1 ptr hb with a | ⟨pkt, a⟩
      · exact ⟨calls, by rw [a, hc]⟩
      · exact ⟨calls ++ [WriteCall.mk ptr (u.heap ptr).retry.1 pkt], by
          rw [a, hc, List.append_assoc]⟩)
    l k s s1 ⟨⟨[], by simp⟩, fun _ => rfl⟩ h
  exact key

theorem run_expiry (pf : Platform) (s s1 : PushController) (io : TickIo) (b : Bool)
    (h : s.run pf io = some (s1, b)) (q : Nat) : (s1.heap q).expiry = (s.heap q).expiry := by
  rcases run_some pf s s1 io b h with ⟨-, e, -⟩ | ⟨-, -, s0, s2, h0, -, hp, e⟩
  · subst e; rfl
  · have e2 : (s2.heap q).expiry = (s0.heap q).expiry := by
      rcases processMessageSendQueue_some pf s0 s2 io hp with hs | ⟨t, ht, -, -, -, hl⟩
      · rw [hs.2.2.2.2.1]
      · rw [(sendLoop_log pf io.now io.loop _ 0 t s2 hl).2 q, ht.2.2.2.2.1]
    have e3 := (expireIdle_same s2 io.now io.idleDisc).2.2.2.2.1
    have e4 := (expiryPasses_effect (s2._expireIdleConnection io.now io.idleDisc) io.now).1
    subst e
    rw [e4, e3, e2, h0.2.2.2.2.1]

theorem run_head_written (pf : Platform) (s s1 : PushController) (io : TickIo) (b : Bool)
    (p : Nat) (rest P : List Nat) (hq : s.messageSendQueue = p :: rest)
    (hc : s.connected = true ∨ io.connectOk = true)
    (hretry : (s.heap p).retry.2 = true) (hP : (s.heap p).getPayload = some P)
    (hb : ¬ io.now < s.connectRetryTs) (h : s.run pf io = some (s1, b)) :
    ∃ pkt calls, s1.writeLog
      = s.writeLog ++ WriteCall.mk p (s.heap p).retry.1 pkt :: calls := by
  rcases run_some pf s s1 io b h with ⟨hc2, -, -⟩ | ⟨-, -, s0, s2, h0, hcon, hp, e⟩
  · exact absurd hc2 hb
  · have hq0 : s0.messageSendQueue = p :: rest := by rw [h0.1, hq]
    have hc0 : s0.connected = true ∨ io.connectOk = true := by
      rw [show s0.connected = s.connected from congrArg SslController.connected hcon]
      exact hc
    obtain ⟨t, ht, htc, hl⟩ := processMessageSendQueue_loop pf s0 s2 io
      (by rw [hq0]; exact List.cons_ne_nil _ _) hc0 hp
    rw [hq0] at hl
    unfold PushController.sendLoop at hl
    have e1 : t.isConnected = true := htc
    simp only [e1, Bool.not_true, Bool.false_eq_true, if_false] at hl
    cases hbody : t.sendLoopBody pf io.now (io.loop 0) p with
    | none => simp [hbody] at hl
    | some u =>
      simp only [hbody] at hl
      have hth : t.heap = s.heap := by rw [ht.2.2.2.2.1, h0.2.2.2.2.1]
      have htl : t.writeLog = s.writeLog := by rw [ht.2.2.2.2.2, h0.2.2.2.2.2]
      obtain ⟨pkt, hw⟩ := sendLoopBody_written pf io.now (io.loop 0) t u p P
        (by rw [hth]; exact hretry) (by rw [hth]; exact hP) hbody
      obtain ⟨⟨calls, hcalls⟩, -⟩ := sendLoop_log pf io.now io.loop rest 1 u s2 hl
      have e3 := (expireIdle_same s2 io.now io.idleDisc).2.2.2.2.2
      have e4 := (expiryPasses_effect (s2._expireIdleConnection io.now io.idleDisc) io.now).2.2.1
      subst e
      refine ⟨pkt, calls, ?_⟩
      rw [e4, e3, hcalls, hw, htl, hth]
      simp

theorem run_no_expired (pf : Platform) (s s1 : PushController) (io : TickIo) (b : Bool)
    (hb : ¬ io.now < s.connectRetryTs) (h : s.run pf io = some (s1, b)) (q : Nat)
    (he : (s.heap q).expiry < io.now) :
    q ∉ s1.messageStageQueue ∧ q ∉ s1.messageErrorQueue := by
  have hx := run_expiry pf s s1 io b h q
  rcases run_some pf s s1 io b h with ⟨hc, -, -⟩ | ⟨-, -, s0, s2, -, -, -, e⟩
  · exact absurd hc hb
  · obtain ⟨a1, -, -, a4, a5⟩ :=
      expiryPasses_effect (s2._expireIdleConnection io.now io.idleDisc) io.now
    subst e
    rw [a1] at hx
    constructor
    · intro hq
      have := ((a4 q).mp hq).2
      omega
    · intro hq
      have := ((a5 q).mp hq).2
      omega

set_option maxRecDepth 100000 in
/-- C12 fails as stated: nothing on the send path looks at the expiry. The
happy-path message, expiry 5000, waiting in the send queue at the tick of
clock reading 6000 is framed and written; written whole, it is deleted from
the stage queue by the expiry pass that follows; on a transport that would
block, the `write()` call is made all the same and the message is back in
the send queue after the tick. -/
theorem c12_counterexample :
    (exampleEngine.heap 10).expiry < lateTick.now ∧ exampleEngine.messageSendQueue = [10] ∧
    exampleEngine.writeLog = [] ∧
    (exampleEngine.run examplePlatform lateTick).map
        (fun r => (r.1.writeLog.map WriteCall.ptr,
          [r.1.messageSendQueue, r.1.messageStageQueue, r.1.messageErrorQueue, r.1.destroyed],
          r.2))
      = some ([10], [[], [], [], [10]], true) ∧
    (exampleEngine.run examplePlatform lateBlockedTick).map
        (fun r => (r.1.writeLog.map WriteCall.ptr,
          [r.1.messageSendQueue, r.1.messageStageQueue, r.1.messageErrorQueue, r.1.destroyed],
          r.2))
      = some ([10], [[10], [], [], []], true) := by
  refine ⟨by decide, by decide, by decide, by decide, by decide⟩

/-- C12, as amended: the drain makes no expiry check. On a tick that is not
in backoff, with the transport connected or connecting, a `write()` call is
made for the message at the head of the send queue whose retry and payload
checks pass, also when its expiry < now; expiry is applied afterwards and
only to the stage and error queues, so every message that was in the send
queue with expiry < now is, after the tick, in neither of these two: it is
back in the send queue or has been destroyed. -/
theorem c12_expired_message_is_written (pf : Platform) (s s1 : PushController) (io : TickIo)
    (b : Bool) (p : Nat) (rest P : List Nat)
    (hd : QueuesDisjoint s) (hs : s.messageSendQueue.Pairwise (· < ·))
    (hq : s.messageSendQueue = p :: rest) (he : (s.heap p).expiry < io.now)
    (hc : s.connected = true ∨ io.connectOk = true)
    (hretry : (s.heap p).retry.2 = true) (hP : (s.heap p).getPayload = some P)
    (hb : ¬ io.now < s.connectRetryTs) (h : s.run pf io = some (s1, b)) :
    (∃ pkt calls, s1.writeLog
      = s.writeLog ++ WriteCall.mk p (s.heap p).retry.1 pkt :: calls) ∧
    (p ∉ s1.messageStageQueue ∧ p ∉ s1.messageErrorQueue ∧
      (p ∈ s1.messageSendQueue ∨ p ∈ s1.destroyed)) ∧
    ∀ q ∈ s.messageSendQueue, (s.heap q).expiry < io.now →
      q ∉ s1.messageStageQueue ∧ q ∉ s1.messageErrorQueue ∧
      (q ∈ s1.messageSendQueue ∨ q ∈ s1.destroyed) := by
  have all : ∀ q ∈ s.messageSendQueue, (s.heap q).expiry < io.now →
      q ∉ s1.messageStageQueue ∧ q ∉ s1.messageErrorQueue ∧
      (q ∈ s1.messageSendQueue ∨ q ∈ s1.destroyed) := ?_
  · exact ⟨run_head_written pf s s1 io b p rest P hq hc hretry hP hb h,
      all p (by rw [hq]; exact List.mem_cons_self _ _) he, all⟩
  intro q hqs hqe
  obtain ⟨n1, n2⟩ := run_no_expired pf s s1 io b hb h q hqe
  refine ⟨n1, n2, ?_⟩
  have ht := (run_invariant pf s s1 io b hd hs h).2.2 q (Or.inl hqs)
  unfold Tracked at ht
  tauto

set_option maxRecDepth 100000 in
theorem c12_expired_message_is_written_witness :
    QueuesDisjoint exampleEngine ∧ exampleEngine.messageSendQueue.Pairwise (· < ·) ∧
    exampleEngine.messageSendQueue = [10] ∧ (exampleEngine.heap 10).expiry < lateTick.now ∧
    (exampleEngine.connected = true ∨ lateTick.connectOk = true) ∧
    (exampleEngine.heap 10).retry.2 = true ∧
    (exampleEngine.heap 10).getPayload = some (buildPayload exampleMessage) ∧
    ¬ lateTick.now < exampleEngine.connectRetryTs ∧
    ∃ s1 b, exampleEngine.run examplePlatform lateTick = some (s1, b) ∧
      (∃ pkt calls, s1.writeLog
        = exampleEngine.writeLog ++ WriteCall.mk 10 (exampleEngine.heap 10).retry.1 pkt :: calls) ∧
      (10 ∉ s1.messageStageQueue ∧ 10 ∉ s1.messageErrorQueue ∧
        (10 ∈ s1.messageSendQueue ∨ 10 ∈ s1.destroyed)) ∧
      ∀ q ∈ exampleEngine.messageSendQueue, (exampleEngine.heap q).expiry < lateTick.now →
        q ∉ s1.messageStageQueue ∧ q ∉ s1.messageErrorQueue ∧
        (q ∈ s1.messageSendQueue ∨ q ∈ s1.destroyed) := by
  have hs : (exampleEngine.run examplePlatform lateTick).isSome = true := by decide
  obtain ⟨r, hr⟩ := Option.isSome_iff_exists.mp hs
  have hd : QueuesDisjoint exampleEngine := by
    intro p
    simp [exampleEngine, PushController.new, PushController.construct, PushController.add,
      PushController._add, setInsert, setErase]
  exact ⟨hd, by decide, by decide, by decide, Or.inr rfl, by decide, by decide, by decide,
    r.1, r.2, hr,
    c12_expired_message_is_written examplePlatform exampleEngine r.1 lateTick r.2 10 []
      (buildPayload exampleMessage) hd (by decide) (by decide) (by decide) (Or.inr rfl)
      (by decide) (by decide) (by decide) hr⟩

/-! ## The feedback poller -/

theorem leValue_append (a b : List Nat) :
    leValue (a ++ b) = leValue a + 256 ^ a.length * leValue b := by
  induction a with
  | nil => simp [leValue]
  | cons x xs ih =>
    rw [List.cons_append]
    simp only [leValue, List.length_cons, pow_succ]
    rw [ih]
    ring

theorem leValue_lt (a : List Nat) (h : ∀ b ∈ a, b < 256) : leValue a < 256 ^ a.length := by
  induction a with
  | nil => simp [leValue]
  | cons x xs ih =>
    have hx : x < 256 := h x (List.mem_cons_self _ _)
    have := ih (fun b hb => h b (List.mem_cons_of_mem _ hb))
    simp only [leValue, List.length_cons, pow_succ]
    omega

/-- On a little-endian host the bytes that `memcpy` stores at the start of an
object are its low-order bytes. -/
theorem memcpyInto_littleEndian (pf : Platform) (hle : pf.littleEndian = true) (w old : Nat)
    (src : List Nat) (hsrc : ∀ b ∈ src, b < 256) :
    memcpyInto pf w old src % 256 ^ src.length = leValue src := by
  unfold memcpyInto memValue
  simp only [hle, if_true]
  rw [leValue_append, Nat.add_mul_mod_self_left]
  exact Nat.mod_eq_of_lt (leValue_lt src hsrc)

theorem ntohs_memValue (pf : Platform) (b0 b1 : Nat) (h0 : b0 < 256) (h1 : b1 < 256) :
    ntohs pf (memValue pf [b0, b1]) = b0 * 2 ^ 8 + b1 := by
  have hb : ∀ b ∈ [b0, b1], b < 256 := by
    intro b hb
    simp only [List.mem_cons, List.mem_singleton, List.not_mem_nil, or_false] at hb
    rcases hb with rfl | rfl <;> assumption
  have hr := leBytes_leValue [b0, b1] hb
  have hlt : leValue [b0, b1] < 2 ^ 16 := by
    simp only [leValue]; omega
  unfold ntohs htons memValue
  cases pf.littleEndian with
  | true =>
    simp only [if_true, bswap, beBytes]
    rw [Nat.mod_eq_of_lt hlt]
    simp only [List.length_cons, List.length_nil] at hr
    rw [hr]
    simp only [leValue, List.reverse_cons, List.reverse_nil, List.nil_append,
      List.cons_append]
    omega
  | false =>
    simp only [beValue, leValue, List.reverse_cons, List.reverse_nil, List.nil_append,
      List.cons_append, Bool.false_eq_true, if_false]
    omega

theorem ntohl_mod (pf : Platform) (x : Nat) : ntohl pf (x % 2 ^ 32) = ntohl pf x := by
  unfold ntohl htonl
  rw [Nat.mod_mod]

theorem ntohs_mod (pf : Platform) (x : Nat) : ntohs pf (x % 2 ^ 16) = ntohs pf x := by
  unfold ntohs htons
  rw [Nat.mod_mod]

/-- Decoding the timestamp field on a little-endian host. -/
theorem feedback_timestamp (pf : Platform) (hle : pf.littleEndian = true) (t old : Nat)
    (ht : t < 2 ^ 32) : ntohl pf (memcpyInto pf SIZEOF_TIME_T old (beBytes 4 t)) = t := by
  have hb : ∀ b ∈ beBytes 4 t, b < 256 := by
    intro b hb
    exact leBytes_lt 4 t b (List.mem_reverse.mp hb)
  have h1 := memcpyInto_littleEndian pf hle SIZEOF_TIME_T old (beBytes 4 t) hb
  have hl : (beBytes 4 t).length = 4 := by simp [beBytes, leBytes_length]
  rw [hl] at h1
  rw [← ntohl_mod, show (2 : Nat) ^ 32 = 256 ^ 4 by norm_num, h1]
  have h2 : leValue (beBytes 4 t) = memValue pf (beBytes 4 t) := by
    simp [memValue, hle]
  rw [h2, beBytes_four]
  rw [ntohl_memValue pf _ _ _ _ (Nat.mod_lt _ (by norm_num)) (Nat.mod_lt _ (by norm_num))
    (Nat.mod_lt _ (by norm_num)) (Nat.mod_lt _ (by norm_num))]
  omega

/-- Decoding the token-length field on a little-endian host. -/
theorem feedback_tokenLen (pf : Platform) (hle : pf.littleEndian = true) (L old : Nat)
    (hL : L < 2 ^ 16) : ntohs pf (memcpyInto pf SIZEOF_UNSIGNED_INT old (beBytes 2 L)) = L := by
  have hb : ∀ b ∈ beBytes 2 L, b < 256 := by
    intro b hb
    exact leBytes_lt 2 L b (List.mem_reverse.mp hb)
  have h1 := memcpyInto_littleEndian pf hle SIZEOF_UNSIGNED_INT old (beBytes 2 L) hb
  have hl : (beBytes 2 L).length = 2 := by simp [beBytes, leBytes_length]
  rw [hl] at h1
  rw [← ntohs_mod, show (2 : Nat) ^ 16 = 256 ^ 2 by norm_num, h1]
  have h2 : leValue (beBytes 2 L) = memValue pf (beBytes 2 L) := by
    simp [memValue, hle]
  rw [h2, beBytes_two]
  rw [ntohs_memValue pf _ _ (Nat.mod_lt _ (by norm_num)) (Nat.mod_lt _ (by norm_num))]
  omega

/-- On a big-endian host the bytes copied into the wider local are its
high-order bytes: the token length that `ntohs` returns is made of the
indeterminate low-order bytes, whatever the record holds. -/
theorem feedback_tokenLen_bigEndian (pf : Platform) (hbe : pf.littleEndian = false)
    (b0 b1 old : Nat) :
    ntohs pf (memcpyInto pf SIZEOF_UNSIGNED_INT old [b0, b1]) = old % 2 ^ 16 := by
  unfold ntohs htons memcpyInto memValue memBytes
  simp only [hbe, Bool.false_eq_true, if_false, SIZEOF_UNSIGNED_INT, beBytes, leBytes, beValue,
    List.reverse_cons, List.reverse_nil, List.nil_append, List.cons_append, List.length_cons,
    List.length_nil, List.drop_succ_cons, List.drop_zero, List.reverse_append, leValue]
  omega

/-- On a big-endian host with an 8-byte `time_t`, the four bytes copied into
the local are its high-order bytes: the timestamp that `ntohl` returns is
made of the indeterminate low-order bytes, whatever the record holds. -/
theorem feedback_timestamp_bigEndian (pf : Platform) (hbe : pf.littleEndian = false)
    (b0 b1 b2 b3 old : Nat) :
    ntohl pf (memcpyInto pf SIZEOF_TIME_T old [b0, b1, b2, b3]) = old % 2 ^ 32 := by
  unfold ntohl htonl memcpyInto memValue memBytes
  simp only [hbe, Bool.false_eq_true, if_false, SIZEOF_TIME_T, beBytes, leBytes, beValue,
    List.reverse_cons, List.reverse_nil, List.nil_append, List.cons_append, List.length_cons,
    List.length_nil, List.drop_succ_cons, List.drop_zero, List.reverse_append, leValue]
  omega

theorem hexVal_hexDigit : ∀ n < 16, hexVal (if n < 10 then 48 + n else 87 + n) = n := by
  decide

theorem hexPairs_hex2 (T : List Nat) (h : ∀ b ∈ T, b < 256) :
    hexPairs (T.flatMap hex2) = T ∧ (T.flatMap hex2).length = 2 * T.length := by
  induction T with
  | nil => exact ⟨rfl, rfl⟩
  | cons b bs ih =>
    have hb : b < 256 := h b (List.mem_cons_self _ _)
    obtain ⟨i1, i2⟩ := ih (fun c hc => h c (List.mem_cons_of_mem _ hc))
    have e1 := hexVal_hexDigit (b / 16 % 16) (Nat.mod_lt _ (by norm_num))
    have e2 := hexVal_hexDigit (b % 16) (Nat.mod_lt _ (by norm_num))
    simp only [List.flatMap_cons, hex2, List.cons_append, List.nil_append, hexPairs, e1, e2, i1,
      List.length_cons, i2]
    refine ⟨?_, by omega⟩
    congr 1
    omega

theorem feedback_read_record (pf : Platform) (s : FeedbackController) (io : FeedbackIo)
    (r : List Nat) (rest : List (List Nat)) (hc : s.connected = true)
    (hio : io.read = feedbackRead (r :: rest)) :
    s._readFeedbackFromApns pf io =
      s._processFeedbackFromApns pf
        { timestamp := peek r 0 4, tokenLen := peek r 4 2,
          deviceToken := peek r 6 DEVICE_BINARY_SIZE } io.timestamp0 io.tokenLen0 := by
  unfold FeedbackController._readFeedbackFromApns
  simp [hio, feedbackRead, SslController.read, hc, FeedbackController._processFeedbackFromApns]

theorem feedback_read_nothing (pf : Platform) (s : FeedbackController) (io : FeedbackIo)
    (hio : io.read = feedbackRead []) : s._readFeedbackFromApns pf io = s := by
  unfold FeedbackController._readFeedbackFromApns
  cases hc : s.connected <;> simp [hio, feedbackRead, SslController.read, hc]

theorem feedback_read_effect (pf : Platform) (s : FeedbackController) (now : Int)
    (pending : List (List Nat)) (timestamp0 tokenLen0 : Nat) (hc : s.connected = true) :
    ∃ emitted, s._readFeedbackFromApns pf (feedbackPoll now pending timestamp0 tokenLen0)
        = { s with messageFeedbackQueue := s.messageFeedbackQueue ++ emitted } ∧
      emitted.length = min pending.length 1 := by
  cases pending with
  | nil =>
    refine ⟨[], ?_, rfl⟩
    rw [feedback_read_nothing pf s _ rfl]
    simp
  | cons r rest =>
    refine ⟨[FeedbackMessage.mk
      (ntohl pf (memcpyInto pf SIZEOF_TIME_T timestamp0 (peek r 0 4)))
      (ntohs pf (memcpyInto pf SIZEOF_UNSIGNED_INT tokenLen0 (peek r 4 2)))
      (_binaryToDeviceToken (peek r 6 DEVICE_BINARY_SIZE) DEVICE_BINARY_SIZE)], ?_, ?_⟩
    · rw [feedback_read_record pf s _ r rest hc rfl]
      rfl
    · simp

/-- A poll that is due on a transport that connects: the one call of
`_readFeedbackFromApns` is made on a connected transport, and `disconnect()`
follows. -/
theorem feedback_run_due (pf : Platform) (s : FeedbackController) (io : FeedbackIo)
    (hdue : ¬ io.now < s.nextCheckTs) (hok : io.connectOk = true) :
    ∃ S : FeedbackController, (S.connected = true ∧ S.nextCheckTs = io.now + s.timeout ∧
        S.messageFeedbackQueue = s.messageFeedbackQueue) ∧
      s.run pf io = ({ S._readFeedbackFromApns pf io with
        toSslController :=
          ((S._readFeedbackFromApns pf io).toSslController.disconnect io.disc).1 }, true) := by
  cases hc : s.connected with
  | true =>
    refine ⟨{ s with nextCheckTs := io.now + s.timeout }, ⟨hc, rfl, rfl⟩, ?_⟩
    simp [FeedbackController.run, hdue, SslController.isConnected, hc]
  | false =>
    refine ⟨{ s with
      nextCheckTs := io.now + s.timeout
      toSslController := (s.toSslController.connect io.connectOk).1 }, ⟨?_, rfl, rfl⟩, ?_⟩
    · simp [SslController.connect, SslController._connect, hc, hok]
    · simp [FeedbackController.run, hdue, SslController.isConnected, hc, SslController.connect,
        SslController._connect, hok]

/-- C14 fails as stated: `_readFeedbackFromApns` calls `read` once and
`_processFeedbackFromApns` at most once, and `run` calls it once and then
disconnects. With two complete 38-byte records available, a poll emits the
first record only. -/
theorem c14_counterexample :
    exampleRecords.length = 2 ∧ (∀ r ∈ exampleRecords, r.length = 38) ∧
    (FeedbackController.new 60 1000).run examplePlatform (feedbackPoll 1060 exampleRecords 0 0)
      = ({ initialized := false, connected := false, timeout := 60, nextCheckTs := 1120,
           messageFeedbackQueue :=
            [FeedbackMessage.mk 1700000000 32 (exampleTokenBytes.flatMap hex2)] }, true) := by
  refine ⟨by decide, by decide, by decide⟩

/-- C14, as amended: for every number k >= 0 of complete 38-byte records
available on the feedback transport, one poll cycle of
`FeedbackController::run` that is due makes a single `read()` and emits
min(k, 1) feedback records (the first record when k >= 1, none when k = 0),
then disconnects and returns true. -/
theorem c14_one_record_per_poll (pf : Platform) (s : FeedbackController) (now : Int)
    (pending : List (List Nat)) (timestamp0 tokenLen0 : Nat) (hdue : ¬ now < s.nextCheckTs) :
    (s.run pf (feedbackPoll now pending timestamp0 tokenLen0)).2 = true ∧
    (∃ emitted, (s.run pf (feedbackPoll now pending timestamp0 tokenLen0)).1.messageFeedbackQueue
        = s.messageFeedbackQueue ++ emitted ∧ emitted.length = min pending.length 1) ∧
    (s.run pf (feedbackPoll now pending timestamp0 tokenLen0)).1.connected = false ∧
    (s.run pf (feedbackPoll now pending timestamp0 tokenLen0)).1.nextCheckTs
      = now + s.timeout := by
  obtain ⟨S, hS, hrun⟩ := feedback_run_due pf s (feedbackPoll now pending timestamp0 tokenLen0)
    hdue rfl
  obtain ⟨emitted, he, hl⟩ := feedback_read_effect pf S now pending timestamp0 tokenLen0 hS.1
  rw [hrun, he]
  refine ⟨rfl, ⟨emitted, ?_, hl⟩, ?_, ?_⟩
  · simp only [hS.2.2]
  · simp [SslController.disconnect, SslController._disconnect, SslController._deinitialize,
      hS.1, feedbackPoll]
  · simp only [hS.2.1]
    rfl

theorem c14_one_record_per_poll_witness :
    ¬ (1060 : Int) < (FeedbackController.new 60 1000).nextCheckTs ∧
    ((FeedbackController.new 60 1000).run examplePlatform
      (feedbackPoll 1060 exampleRecords 0 0)).2 = true ∧
    (∃ emitted, ((FeedbackController.new 60 1000).run examplePlatform
        (feedbackPoll 1060 exampleRecords 0 0)).1.messageFeedbackQueue
        = (FeedbackController.new 60 1000).messageFeedbackQueue ++ emitted ∧
      emitted.length = min exampleRecords.length 1) ∧
    ((FeedbackController.new 60 1000).run examplePlatform
      (feedbackPoll 1060 exampleRecords 0 0)).1.connected = false ∧
    ((FeedbackController.new 60 1000).run examplePlatform
      (feedbackPoll 1060 exampleRecords 0 0)).1.nextCheckTs
      = 1060 + (FeedbackController.new 60 1000).timeout :=
  ⟨by decide,
    c14_one_record_per_poll examplePlatform (FeedbackController.new 60 1000) 1060 exampleRecords
      0 0 (by decide)⟩

/-- On a little-endian host, for every timestamp t < 2^32, token length
L < 2^16 and 32-byte token T, `_readFeedbackFromApns` on a `read` that
delivers the 38 bytes `BE32(t) ++ BE16(L) ++ T` appends to the feedback queue
the record with timestamp t, token length L and, as device token, the 64
lowercase hexadecimal digits of the bytes T, whatever the indeterminate
bytes of the two locals of `_processFeedbackFromApns` are. -/
theorem feedback_record_littleEndian (pf : Platform) (s : FeedbackController)
    (io : FeedbackIo) (t L : Nat) (T : List Nat) (hle : pf.littleEndian = true)
    (ht : t < 2 ^ 32) (hL : L < 2 ^ 16) (hT : T.length = 32) (hTb : ∀ b ∈ T, b < 256)
    (hc : s.connected = true) (hio : io.read = feedbackRead [feedbackRecord t L T]) :
    s._readFeedbackFromApns pf io
      = { s with
          messageFeedbackQueue :=
            s.messageFeedbackQueue ++ [FeedbackMessage.mk t L (T.flatMap hex2)] } ∧
    (T.flatMap hex2).length = 64 ∧ hexPairs (T.flatMap hex2) = T := by
  obtain ⟨x1, x2⟩ := hexPairs_hex2 T hTb
  refine ⟨?_, by rw [x2, hT], x1⟩
  rw [feedback_read_record pf s io _ [] hc hio]
  have p1 : peek (feedbackRecord t L T) 0 4 = beBytes 4 t := by
    simp [feedbackRecord, peek, beBytes_four, beBytes_two]
  have p2 : peek (feedbackRecord t L T) 4 2 = beBytes 2 L := by
    simp [feedbackRecord, peek, beBytes_four, beBytes_two]
  have p3 : peek (feedbackRecord t L T) 6 DEVICE_BINARY_SIZE = T := by
    simp [feedbackRecord, peek, beBytes_four, beBytes_two, DEVICE_BINARY_SIZE, ← hT]
  rw [p1, p2, p3]
  unfold FeedbackController._processFeedbackFromApns
  simp only [feedback_timestamp pf hle t io.timestamp0 ht,
    feedback_tokenLen pf hle L io.tokenLen0 hL, _binaryToDeviceToken, DEVICE_BINARY_SIZE]
  rw [← hT, List.take_length]

/-- On a big-endian host (with an 8-byte `time_t`), whatever timestamp and
token length the 38 bytes `BE32(t) ++ BE16(L) ++ T` carry, the record that
`_readFeedbackFromApns` appends holds the indeterminate low-order bytes of
the two locals of `_processFeedbackFromApns` in their place; only the device
token is that of the record. -/
theorem feedback_record_bigEndian (pf : Platform) (s : FeedbackController) (io : FeedbackIo)
    (t L : Nat) (T : List Nat) (hbe : pf.littleEndian = false) (hT : T.length = 32)
    (hc : s.connected = true) (hio : io.read = feedbackRead [feedbackRecord t L T]) :
    s._readFeedbackFromApns pf io
      = { s with
          messageFeedbackQueue :=
            s.messageFeedbackQueue ++ [FeedbackMessage.mk (io.timestamp0 % 2 ^ 32)
              (io.tokenLen0 % 2 ^ 16) (T.flatMap hex2)] } := by
  rw [feedback_read_record pf s io _ [] hc hio]
  have p1 : peek (feedbackRecord t L T) 0 4 = beBytes 4 t := by
    simp [feedbackRecord, peek, beBytes_four, beBytes_two]
  have p2 : peek (feedbackRecord t L T) 4 2 = beBytes 2 L := by
    simp [feedbackRecord, peek, beBytes_four, beBytes_two]
  have p3 : peek (feedbackRecord t L T) 6 DEVICE_BINARY_SIZE = T := by
    simp [feedbackRecord, peek, beBytes_four, beBytes_two, DEVICE_BINARY_SIZE, ← hT]
  rw [p1, p2, p3, beBytes_four, beBytes_two]
  unfold FeedbackController._processFeedbackFromApns
  simp only [feedback_timestamp_bigEndian pf hbe, feedback_tokenLen_bigEndian pf hbe,
    _binaryToDeviceToken, DEVICE_BINARY_SIZE]
  rw [← hT, List.take_length]

/-- C15 does not hold on the code on every host. `_processFeedbackFromApns`
copies the 4 timestamp bytes into the first bytes of a `time_t` and the 2
length bytes into the first bytes of an `unsigned int`, then passes these
wider locals to `ntohl` and `ntohs`, which keep their low-order bytes. On a
big-endian host the bytes copied are the high-order ones: the record
`BE32(1700000000) ++ BE16(32) ++ 01..20`, read with the other bytes of the
locals at 0, is parsed to timestamp 0 and token length 0, and in general to
whatever the indeterminate bytes hold. On a little-endian host the parse is
as claimed, for every t < 2^32, L < 2^16 and 32-byte T; the device token is
the hexadecimal encoding of T on both. -/
theorem c15_feedback_parse_depends_on_byte_order :
    bigEndianPlatform.littleEndian = false ∧
    ({ FeedbackController.new 60 1000 with connected := true }
        : FeedbackController)._readFeedbackFromApns bigEndianPlatform
        (feedbackPoll 1060 [feedbackRecord 1700000000 32 exampleTokenBytes] 0 0)
      = { FeedbackController.new 60 1000 with
          connected := true
          messageFeedbackQueue := [FeedbackMessage.mk 0 0 (exampleTokenBytes.flatMap hex2)] } ∧
    ({ FeedbackController.new 60 1000 with connected := true }
        : FeedbackController)._readFeedbackFromApns examplePlatform
        (feedbackPoll 1060 [feedbackRecord 1700000000 32 exampleTokenBytes] 0 0)
      = { FeedbackController.new 60 1000 with
          connected := true
          messageFeedbackQueue :=
            [FeedbackMessage.mk 1700000000 32 (exampleTokenBytes.flatMap hex2)] } ∧
    (∀ (pf : Platform) (s : FeedbackController) (io : FeedbackIo) (t L : Nat) (T : List Nat),
      pf.littleEndian = false → T.length = 32 → s.connected = true →
      io.read = feedbackRead [feedbackRecord t L T] →
      s._readFeedbackFromApns pf io
        = { s with
            messageFeedbackQueue :=
              s.messageFeedbackQueue ++ [FeedbackMessage.mk (io.timestamp0 % 2 ^ 32)
                (io.tokenLen0 % 2 ^ 16) (T.flatMap hex2)] }) ∧
    (∀ (pf : Platform) (s : FeedbackController) (io : FeedbackIo) (t L : Nat) (T : List Nat),
      pf.littleEndian = true → t < 2 ^ 32 → L < 2 ^ 16 → T.length = 32 →
      (∀ b ∈ T, b < 256) → s.connected = true →
      io.read = feedbackRead [feedbackRecord t L T] →
      s._readFeedbackFromApns pf io
        = { s with
            messageFeedbackQueue :=
              s.messageFeedbackQueue ++ [FeedbackMessage.mk t L (T.flatMap hex2)] } ∧
      (T.flatMap hex2).length = 64 ∧ hexPairs (T.flatMap hex2) = T) := by
  refine ⟨rfl, by decide, by decide, ?_, ?_⟩
  · intro pf s io t L T hbe hT hc hio
    exact feedback_record_bigEndian pf s io t L T hbe hT hc hio
  · intro pf s io t L T hle ht hL hT hTb hc hio
    exact feedback_record_littleEndian pf s io t L T hle ht hL hT hTb hc hio

/-! ## At most one call of `write` per message and tick -/

theorem run_writes_once (pf : Platform) (s s1 : PushController) (io : TickIo) (b : Bool)
    (hn : s.messageSendQueue.Nodup) (h : s.run pf io = some (s1, b)) :
    ∃ calls, s1.writeLog = s.writeLog ++ calls ∧ (calls.map WriteCall.ptr).Nodup := by
  rcases run_some pf s s1 io b h with ⟨-, e, -⟩ | ⟨-, -, s0, s2, h0, -, hp, e⟩
  · subst e
    exact ⟨[], by simp, by simp⟩
  · have e3 := (expireIdle_same s2 io.now io.idleDisc).2.2.2.2.2
    have e4 := (expiryPasses_effect (s2._expireIdleConnection io.now io.idleDisc) io.now).2.2.1
    have key : ∃ calls, s2.writeLog = s.writeLog ++ calls ∧ (calls.map WriteCall.ptr).Nodup := by
      rcases processMessageSendQueue_some pf s0 s2 io hp with hs | ⟨t, ht, -, -, -, hl⟩
      · exact ⟨[], by rw [hs.2.2.2.2.2, h0.2.2.2.2.2]; simp, by simp⟩
      · have inv := sendLoop_induct pf io.now io.loop
          (fun rest u => rest.Nodup ∧ ∃ calls, u.writeLog = s.writeLog ++ calls ∧
            (calls.map WriteCall.ptr).Nodup ∧ ∀ w ∈ calls, w.ptr ∉ rest)
          (by
            intro ptr rest u ⟨h1, calls, h2, h3, h4⟩
            exact ⟨(List.nodup_cons.mp h1).2, calls, h2, h3,
              fun w hw hc => h4 w hw (List.mem_cons_of_mem _ hc)⟩)
          (by
            intro ptr rest k u u1 ⟨h1, calls, h2, h3, h4⟩ _ hb
            obtain ⟨n1, n2⟩ := List.nodup_cons.mp h1
            refine ⟨n2, ?_⟩
            rcases sendLoopBody_log pf io.now (io.loop k) u u1 ptr hb with a | ⟨pkt, a⟩
            · exact ⟨calls, by rw [a, h2], h3,
                fun w hw hc => h4 w hw (List.mem_cons_of_mem _ hc)⟩
            · refine ⟨calls ++ [WriteCall.mk ptr (u.heap ptr).retry.1 pkt], ?_, ?_, ?_⟩
              · rw [a, h2, List.append_assoc]
              · rw [List.map_append, List.nodup_append]
                refine ⟨h3, by simp, ?_⟩
                intro x hx hx2
                simp only [List.map_cons, List.map_nil, List.mem_singleton] at hx2
                obtain ⟨w, hw, rfl⟩ := List.mem_map.mp hx
                exact h4 w hw (hx2 ▸ List.mem_cons_self _ _)
              · intro w hw
                simp only [List.mem_append, List.mem_singleton] at hw
                rcases hw with hw | rfl
                · exact fun hc => h4 w hw (List.mem_cons_of_mem _ hc)
                · exact n1)
          s0.messageSendQueue 0 t s2
          ⟨by rw [h0.1]; exact hn, [], by rw [ht.2.2.2.2.2, h0.2.2.2.2.2]; simp, by simp,
            by simp⟩ hl
        obtain ⟨-, calls, c1, c2, -⟩ := inv
        exact ⟨calls, c1, c2⟩
    obtain ⟨calls, c1, c2⟩ := key
    subst e
    exact ⟨calls, by rw [e4, e3, c1], c2⟩

/-- C16: when `write()` returns a value different from the packet length (0
and -1 included) for the message `_sendPayload` is called on, the call
returns with the message in the send queue and in neither the stage nor the
error queue, its error field as it was, and one call of `write` logged; and
no tick writes a message more than once, so the message is not written again
within the same tick. -/
theorem c16_short_write_back_to_send_queue (pf : Platform) (s : PushController) (p : Nat)
    (now : Int) (io : SendIo) (P packet : List Nat)
    (hretry : (s.heap p).retry.2 = true) (hP : (s.heap p).getPayload = some P)
    (hF : framePacket pf (s.heap p).retry.1 P now io.tmpi0 = some packet)
    (he : p ∉ s.messageErrorQueue)
    (hw : (s.toSslController.write io.write).2 ≠ ((OFF_PAYLOAD + P.length : Nat) : Int)) :
    (∃ s1 b, s._sendPayload pf p now io = some (s1, b) ∧
      p ∈ s1.messageSendQueue ∧ p ∉ s1.messageStageQueue ∧ p ∉ s1.messageErrorQueue ∧
      (s1.heap p).error = (s.heap p).error ∧
      s1.writeLog = s.writeLog ++ [WriteCall.mk p (s.heap p).retry.1 packet]) ∧
    ∀ (t t1 : PushController) (tick : TickIo) (r : Bool), t.messageSendQueue.Nodup →
      t.run pf tick = some (t1, r) →
      ∃ calls, t1.writeLog = t.writeLog ++ calls ∧ (calls.map WriteCall.ptr).Nodup := by
  refine ⟨?_, fun t t1 tick r hn hr => run_writes_once pf t t1 tick r hn hr⟩
  obtain ⟨s1, h1, h2, h3, -, -, h6, -, h8⟩ := sendPayload_write pf s p now io P packet hretry hP hF
  rw [if_pos (Or.inr hw)] at h8
  refine ⟨s1, _, h1, ?_, ?_, ?_, ?_, h2⟩
  · rw [h8.2, mem_setInsert]; exact Or.inl rfl
  · rw [h8.1, mem_setErase]; exact fun hc => hc.2 rfl
  · rw [h6]; exact he
  · rw [h3]; simp [ApnsMessage.retry]

set_option maxRecDepth 100000 in
theorem c16_short_write_back_to_send_queue_witness :
    (exampleStaged.heap 10).retry.2 = true ∧
    (exampleStaged.heap 10).getPayload = some (buildPayload exampleMessage) ∧
    10 ∉ exampleStaged.messageErrorQueue ∧
    (exampleStaged.toSslController.write blockedLoopIo.send.write).2 = 0 ∧
    (∃ packet, framePacket examplePlatform (exampleStaged.heap 10).retry.1
        (buildPayload exampleMessage) 1000 blockedLoopIo.send.tmpi0 = some packet ∧
      (∃ s1 b, exampleStaged._sendPayload examplePlatform 10 1000 blockedLoopIo.send
          = some (s1, b) ∧
        10 ∈ s1.messageSendQueue ∧ 10 ∉ s1.messageStageQueue ∧ 10 ∉ s1.messageErrorQueue ∧
        (s1.heap 10).error = (exampleStaged.heap 10).error ∧
        s1.writeLog = exampleStaged.writeLog
          ++ [WriteCall.mk 10 (exampleStaged.heap 10).retry.1 packet]) ∧
      ∀ (t t1 : PushController) (tick : TickIo) (r : Bool), t.messageSendQueue.Nodup →
        t.run examplePlatform tick = some (t1, r) →
        ∃ calls, t1.writeLog = t.writeLog ++ calls ∧ (calls.map WriteCall.ptr).Nodup) := by
  have hs : (framePacket examplePlatform (exampleStaged.heap 10).retry.1
      (buildPayload exampleMessage) 1000 blockedLoopIo.send.tmpi0).isSome = true := by decide
  obtain ⟨packet, hpk⟩ := Option.isSome_iff_exists.mp hs
  exact ⟨by decide, by decide, by decide, by decide, packet, hpk,
    c16_short_write_back_to_send_queue examplePlatform exampleStaged 10 1000 blockedLoopIo.send
      (buildPayload exampleMessage) packet (by decide) (by decide) hpk (by decide) (by decide)⟩

/-- C17: `remove(m)` returns true exactly when `m` is in the send queue, and
then the send queue afterwards is the old one without `m` (and `m` is
deleted); when `m` is not in the send queue, be it in the stage or error
queue or nowhere, it returns false and the engine is unchanged. The stage
and error queues are unchanged in both cases. -/
theorem c17_remove_only_from_send_queue (s : PushController) (m : Nat) :
    ((s.remove m).2 = true ↔ m ∈ s.messageSendQueue) ∧
    (m ∈ s.messageSendQueue →
      (s.remove m).1.messageSendQueue = s.messageSendQueue.filter (fun q => q ≠ m) ∧
      m ∉ (s.remove m).1.messageSendQueue ∧
      (∀ q, q ≠ m → (q ∈ (s.remove m).1.messageSendQueue ↔ q ∈ s.messageSendQueue)) ∧
      m ∈ (s.remove m).1.destroyed) ∧
    (m ∉ s.messageSendQueue → s.remove m = (s, false)) ∧
    (s.remove m).1.messageStageQueue = s.messageStageQueue ∧
    (s.remove m).1.messageErrorQueue = s.messageErrorQueue := by
  have hin : m ∈ s.messageSendQueue → s.remove m
      = (({ s with messageSendQueue := setErase m s.messageSendQueue }).delete m, true) := by
    intro h
    simp [PushController.remove, PushController._remove, h]
  have hout : m ∉ s.messageSendQueue → s.remove m = (s, false) := by
    intro h
    simp [PushController.remove, PushController._remove, h]
  refine ⟨?_, ?_, hout, ?_, ?_⟩
  · by_cases h : m ∈ s.messageSendQueue
    · simp [hin h, h]
    · simp [hout h, h]
  · intro h
    rw [hin h]
    refine ⟨rfl, ?_, ?_, ?_⟩
    · simp [PushController.delete, mem_setErase]
    · intro q hq
      simp [PushController.delete, mem_setErase, hq]
    · simp [PushController.delete, mem_setInsert]
  · by_cases h : m ∈ s.messageSendQueue
    · rw [hin h]; rfl
    · rw [hout h]
  · by_cases h : m ∈ s.messageSendQueue
    · rw [hin h]; rfl
    · rw [hout h]

/-- C18 fails as stated: the idle test is `now < lastActivityTs + timeout`,
so a connection idle for exactly `timeout` seconds is disconnected although
`now > lastActivityTs + timeout` does not hold. Here timeout is 10, the last
activity was at 1000 and the clock reads 1010. -/
theorem c18_counterexample :
    idleEngine.connected = true ∧ idleEngine.timeout = 10 ∧ idleEngine.lastActivityTs = 1000 ∧
    ¬ ((1010 : Int) > idleEngine.lastActivityTs + idleEngine.timeout) ∧
    (idleEngine._expireIdleConnection 1010 ⟨0, 0⟩).connected = false ∧
    (idleEngine._expireIdleConnection 1009 ⟨0, 0⟩).connected = true := by
  refine ⟨by decide, by decide, by decide, by decide, by decide, by decide⟩

/-- C18, as amended: `_expireIdleConnection` calls `disconnect()` on an
established connection if and only if timeout is not 0 and
now >= lastActivityTs + timeout, and the connection is then closed when
`SSL_shutdown` and `close` succeed; when not connected, or when timeout is
0, or earlier than that, it changes nothing. -/
theorem c18_idle_connection_expiry (s : PushController) (now : Int) (io : DisconnectIo) :
    (s.connected = true → s.timeout ≠ 0 → now ≥ s.lastActivityTs + s.timeout →
      s._expireIdleConnection now io
        = { s with toSslController := (s.toSslController.disconnect io).1 } ∧
      (io.shutdownRet ≠ -1 → io.closeRet ≠ -1 →
        (s._expireIdleConnection now io).connected = false)) ∧
    (¬ (s.connected = true ∧ s.timeout ≠ 0 ∧ now ≥ s.lastActivityTs + s.timeout) →
      s._expireIdleConnection now io = s) ∧
    (s.connected = true → io.shutdownRet ≠ -1 → io.closeRet ≠ -1 →
      ((s._expireIdleConnection now io).connected = false ↔
        s.timeout ≠ 0 ∧ now ≥ s.lastActivityTs + s.timeout)) := by
  have h1 : s.connected = true → s.timeout ≠ 0 → now ≥ s.lastActivityTs + s.timeout →
      s._expireIdleConnection now io
        = { s with toSslController := (s.toSslController.disconnect io).1 } := by
    intro hc ht hn
    have hn2 : ¬ now < s.lastActivityTs + s.timeout := by omega
    simp [PushController._expireIdleConnection, SslController.isConnected, hc, ht, hn2]
  have h2 : ¬ (s.connected = true ∧ s.timeout ≠ 0 ∧ now ≥ s.lastActivityTs + s.timeout) →
      s._expireIdleConnection now io = s := by
    intro hn
    unfold PushController._expireIdleConnection
    split
    · rfl
    · rename_i hc
      simp only [SslController.isConnected, Bool.or_eq_true, decide_eq_true_eq,
        Bool.not_eq_true', not_or, Bool.not_eq_false] at hc
      split
      · rfl
      · rename_i hlt
        exact absurd ⟨hc.2, hc.1, by omega⟩ hn
  have h3 : s.connected = true → io.shutdownRet ≠ -1 → io.closeRet ≠ -1 →
      ({ s with toSslController := (s.toSslController.disconnect io).1 }
        : PushController).connected = false := by
    intro hc hs hcl
    simp [SslController.disconnect, SslController._disconnect, SslController._deinitialize, hc,
      hs, hcl]
  refine ⟨fun hc ht hn => ⟨h1 hc ht hn, fun hs hcl => ?_⟩, h2, fun hc hs hcl => ⟨?_, ?_⟩⟩
  · rw [h1 hc ht hn]
    exact h3 hc hs hcl
  · intro hd
    by_contra hn
    rw [h2 (fun h => hn h.2)] at hd
    rw [hc] at hd
    cases hd
  · intro ⟨ht, hn⟩
    rw [h1 hc ht hn]
    exact h3 hc hs hcl

/-- C19: whenever now < connectRetryTs, `PushController::run` returns false
and the engine is as before in every member: queues, messages, counters,
stats timer, connection state, and the record of `write()` calls. -/
theorem c19_backoff_tick_changes_nothing (pf : Platform) (s : PushController) (io : TickIo)
    (h : io.now < s.connectRetryTs) : s.run pf io = some (s, false) := by
  unfold PushController.run
  rw [if_pos h]

theorem c19_backoff_tick_changes_nothing_witness :
    exampleTick.now < backoffEngine.connectRetryTs ∧
    backoffEngine.messageSendQueue = [10] ∧
    backoffEngine.run examplePlatform exampleTick = some (backoffEngine, false) :=
  ⟨by decide, by decide,
    c19_backoff_tick_changes_nothing examplePlatform backoffEngine exampleTick (by decide)⟩

/-- C20 does not hold on the code: after the `switch` on `SSL_get_error`,
`read` ends in `return ret` with `ret` the value of `SSL_read`, where `write`
ends in `return 0` and `return -1`. On want-read it returns what `SSL_read`
returned (-1 when the read would block), not 0; on zero-return it
disconnects and returns what `SSL_read` returned (0), not -1. The other
cases are as claimed: -1 when not connected, when `select` fails or the
socket is not readable, the byte count on success, and -1 after a
`disconnect()` on the remaining errors. -/
theorem c20_read_returns_ssl_read_value :
    connectedTransport.read wantReadIo = (connectedTransport, -1) ∧
    connectedTransport.read zeroReturnIo = ({ initialized := false, connected := false }, 0) ∧
    (∀ (c : SslController) (io : ReadIo), c.connected = true → io.selectRet ≠ -1 →
      io.readable = true →
      (io.sslErr = SslError.wantRead → c.read io = (c, io.sslRet)) ∧
      (io.sslErr = SslError.zeroReturn → c.read io = ((c.disconnect io.disc).1, io.sslRet)) ∧
      (io.sslErr = SslError.none → c.read io = (c, io.sslRet)) ∧
      (io.sslErr = SslError.syscall ∨ io.sslErr = SslError.wantWrite ∨
        io.sslErr = SslError.other → c.read io = ((c.disconnect io.disc).1, -1))) ∧
    (∀ (c : SslController) (io : ReadIo),
      c.connected = false ∨ io.selectRet = -1 ∨ io.readable = false → c.read io = (c, -1)) ∧
    (∀ (c : SslController) (io : WriteIo), c.connected = true →
      (io.sslErr = SslError.wantRead ∨ io.sslErr = SslError.wantWrite → c.write io = (c, 0)) ∧
      (io.sslErr = SslError.zeroReturn → c.write io = ((c.disconnect io.disc).1, -1))) := by
  refine ⟨by decide, by decide, ?_, ?_, ?_⟩
  · intro c io hc hs hr
    refine ⟨?_, ?_, ?_, ?_⟩
    · intro he; simp [SslController.read, hc, hs, hr, he]
    · intro he; simp [SslController.read, hc, hs, hr, he]
    · intro he; simp [SslController.read, hc, hs, hr, he]
    · rintro (he | he | he) <;> simp [SslController.read, hc, hs, hr, he]
  · intro c io h
    unfold SslController.read
    rcases h with h | h | h
    · simp [h]
    · by_cases hc : c.connected = true
      · simp [hc, h]
      · simp [hc]
    · by_cases hc : c.connected = true
      · by_cases hs : io.selectRet = -1
        · simp [hc, hs]
        · simp [hc, hs, h]
      · simp [hc]
  · intro c io hc
    refine ⟨?_, ?_⟩
    · rintro (he | he) <;> simp [SslController.write, hc, he]
    · intro he; simp [SslController.write, hc, he]

/-- C21 fails as stated: `_disconnect` returns false as soon as
`SSL_shutdown` or `close` returns -1, before `_deinitialize()`, and leaves
`_connected` set. Here the transport is connected and `SSL_shutdown` (first
case) or `close` (second case) fails: `isConnected()` is still true after
`disconnect()`. -/
theorem c21_counterexample :
    connectedTransport.disconnect ⟨-1, 0⟩ = (connectedTransport, false) ∧
    connectedTransport.disconnect ⟨0, -1⟩ = (connectedTransport, false) ∧
    (connectedTransport.disconnect ⟨-1, 0⟩).1.isConnected = true := by
  refine ⟨by decide, by decide, by decide⟩

/-- C21, as amended: `disconnect()` returns true exactly when the transport
was connected and neither `SSL_shutdown` nor `close` returned -1, and then
`isConnected()` is false afterwards; in every other case, and so on a
transport that is not connected, it returns false and changes nothing (a
connected transport stays connected when the shutdown or the close fails).
Two consecutive calls meeting the same outcomes leave the same state as
one, and a call after a successful one changes nothing. -/
theorem c21_disconnect_outcomes (c : SslController) (io io2 : DisconnectIo) :
    ((c.disconnect io).2 = true ↔
      c.connected = true ∧ io.shutdownRet ≠ -1 ∧ io.closeRet ≠ -1) ∧
    ((c.disconnect io).2 = true → (c.disconnect io).1.isConnected = false) ∧
    ((c.disconnect io).2 = false → (c.disconnect io).1 = c) ∧
    (c.connected = false → c.disconnect io = (c, false)) ∧
    ((c.disconnect io).1.disconnect io).1 = (c.disconnect io).1 ∧
    ((c.disconnect io).2 = true → (c.disconnect io).1.disconnect io2
      = ((c.disconnect io).1, false)) := by
  unfold SslController.disconnect SslController._disconnect SslController.isConnected
  cases hc : c.connected <;> by_cases hs : io.shutdownRet = -1 <;>
    by_cases hl : io.closeRet = -1 <;>
    simp [hc, hs, hl, SslController._deinitialize]

set_option maxRecDepth 100000 in
/-- C22 fails as stated: the packet `_sendPayload` writes for the happy-path
message is 45 + 32 = 77 bytes long, not 90; its payload is the 32-byte
string of the claim and its other fields are as claimed. -/
theorem c22_counterexample :
    (exampleStaged.heap 10).deviceToken = exampleToken ∧
    (exampleStaged.heap 10).getPayload = some happyPayload ∧ happyPayload.length = 32 ∧
    (exampleStaged._sendPayload examplePlatform 10 1000 exampleSendIo).map
        (fun r => r.1.writeLog.map (fun w => (w.packet.length, peek w.packet 45 32)))
      = some [(77, happyPayload)] := by
  refine ⟨by decide, by decide, by decide, by decide⟩

/-- C22, as amended: for a message with the happy-path token whose payload
is the 32-byte string `happyPayload` and whose retry check passes, the
packet `_sendPayload` writes is 77 bytes long (45 + 32), with command 1, the
identifier equal to the message id (big-endian), tokenLen 32, the
device-token bytes 0x01..0x20, payloadLen 32 and the payload. -/
theorem c22_happy_path_packet (pf : Platform) (s : PushController) (aMessage : Nat) (now : Int)
    (io : SendIo) (htok : (s.heap aMessage).deviceToken = exampleToken)
    (hP : (s.heap aMessage).getPayload = some happyPayload)
    (hretry : (s.heap aMessage).retry.2 = true) :
    ∃ s1 b packet, s._sendPayload pf aMessage now io = some (s1, b) ∧
      s1.writeLog.map WriteCall.packet = s.writeLog.map WriteCall.packet ++ [packet] ∧
      packet.length = 77 ∧ peek packet 0 1 = [1] ∧
      peek packet 1 4 = beBytes 4 (s.heap aMessage).id ∧
      peek packet 9 2 = [0, 32] ∧ peek packet 11 32 = exampleTokenBytes ∧
      peek packet 43 2 = [0, 32] ∧ peek packet 45 32 = happyPayload := by
  have hal : pairAligned exampleToken = true := by decide
  have hc : cstr exampleToken = exampleToken := cstr_of_no_nul _ (pairAligned_no_nul _ hal)
  have htb : ∀ t, tokenBytes (cstr (s.heap aMessage).retry.1.deviceToken) t
      = exampleTokenBytes := by
    intro t
    rw [retry_deviceToken, htok, hc, tokenBytes_aligned _ _ hal]
    decide
  have hF := framePacket_eq pf (s.heap aMessage).retry.1 happyPayload now io.tmpi0
    (by decide) (by decide) (by rw [htb]; decide)
  rw [htb, retry_id] at hF
  have hpk : ∀ (i0 i1 i2 i3 e0 e1 e2 e3 : Nat),
      ([1, i0, i1, i2, i3, e0, e1, e2, e3, 0, 32]
        ++ (exampleTokenBytes ++ List.replicate (32 - exampleTokenBytes.length) 0)
        ++ [happyPayload.length / 2 ^ 8 % 256, happyPayload.length % 256]
        ++ happyPayload).length = 77 ∧
      peek ([1, i0, i1, i2, i3, e0, e1, e2, e3, 0, 32]
        ++ (exampleTokenBytes ++ List.replicate (32 - exampleTokenBytes.length) 0)
        ++ [happyPayload.length / 2 ^ 8 % 256, happyPayload.length % 256]
        ++ happyPayload) 0 1 = [1] ∧
      peek ([1, i0, i1, i2, i3, e0, e1, e2, e3, 0, 32]
        ++ (exampleTokenBytes ++ List.replicate (32 - exampleTokenBytes.length) 0)
        ++ [happyPayload.length / 2 ^ 8 % 256, happyPayload.length % 256]
        ++ happyPayload) 1 4 = [i0, i1, i2, i3] ∧
      peek ([1, i0, i1, i2, i3, e0, e1, e2, e3, 0, 32]
        ++ (exampleTokenBytes ++ List.replicate (32 - exampleTokenBytes.length) 0)
        ++ [happyPayload.length / 2 ^ 8 % 256, happyPayload.length % 256]
        ++ happyPayload) 9 2 = [0, 32] ∧
      peek ([1, i0, i1, i2, i3, e0, e1, e2, e3, 0, 32]
        ++ (exampleTokenBytes ++ List.replicate (32 - exampleTokenBytes.length) 0)
        ++ [happyPayload.length / 2 ^ 8 % 256, happyPayload.length % 256]
        ++ happyPayload) 11 32 = exampleTokenBytes ∧
      peek ([1, i0, i1, i2, i3, e0, e1, e2, e3, 0, 32]
        ++ (exampleTokenBytes ++ List.replicate (32 - exampleTokenBytes.length) 0)
        ++ [happyPayload.length / 2 ^ 8 % 256, happyPayload.length % 256]
        ++ happyPayload) 43 2 = [0, 32] ∧
      peek ([1, i0, i1, i2, i3, e0, e1, e2, e3, 0, 32]
        ++ (exampleTokenBytes ++ List.replicate (32 - exampleTokenBytes.length) 0)
        ++ [happyPayload.length / 2 ^ 8 % 256, happyPayload.length % 256]
        ++ happyPayload) 45 32 = happyPayload := by
    intro i0 i1 i2 i3 e0 e1 e2 e3
    refine ⟨rfl, rfl, rfl, rfl, rfl, rfl, rfl⟩
  obtain ⟨k1, k2, k3, k4, k5, k6, k7⟩ := hpk ((s.heap aMessage).id / 2 ^ 24 % 256)
    ((s.heap aMessage).id / 2 ^ 16 % 256) ((s.heap aMessage).id / 2 ^ 8 % 256)
    ((s.heap aMessage).id % 256) (toU32 (now + 300) / 2 ^ 24 % 256)
    (toU32 (now + 300) / 2 ^ 16 % 256) (toU32 (now + 300) / 2 ^ 8 % 256)
    (toU32 (now + 300) % 256)
  rw [← beBytes_four] at k3
  generalize [1, (s.heap aMessage).id / 2 ^ 24 % 256, (s.heap aMessage).id / 2 ^ 16 % 256,
      (s.heap aMessage).id / 2 ^ 8 % 256, (s.heap aMessage).id % 256,
      toU32 (now + 300) / 2 ^ 24 % 256, toU32 (now + 300) / 2 ^ 16 % 256,
      toU32 (now + 300) / 2 ^ 8 % 256, toU32 (now + 300) % 256, 0, 32]
      ++ (exampleTokenBytes ++ List.replicate (32 - exampleTokenBytes.length) 0)
      ++ [happyPayload.length / 2 ^ 8 % 256, happyPayload.length % 256]
      ++ happyPayload = pkt at hF k1 k2 k3 k4 k5 k6 k7
  obtain ⟨s1, h1, h2, -⟩ := sendPayload_write pf s aMessage now io happyPayload pkt hretry hP hF
  exact ⟨s1, _, pkt, h1, by rw [h2]; simp, k1, k2, k3, k4, k5, k6, k7⟩

theorem c22_happy_path_packet_witness :
    (exampleStaged.heap 10).deviceToken = exampleToken ∧
    (exampleStaged.heap 10).getPayload = some happyPayload ∧
    (exampleStaged.heap 10).retry.2 = true ∧
    ∃ s1 b packet, exampleStaged._sendPayload examplePlatform 10 1000 exampleSendIo
        = some (s1, b) ∧
      s1.writeLog.map WriteCall.packet = exampleStaged.writeLog.map WriteCall.packet ++ [packet] ∧
      packet.length = 77 ∧ peek packet 0 1 = [1] ∧
      peek packet 1 4 = beBytes 4 (exampleStaged.heap 10).id ∧
      peek packet 9 2 = [0, 32] ∧ peek packet 11 32 = exampleTokenBytes ∧
      peek packet 43 2 = [0, 32] ∧ peek packet 45 32 = happyPayload :=
  ⟨by decide, by decide, by decide,
    c22_happy_path_packet examplePlatform exampleStaged 10 1000 exampleSendIo (by decide)
      (by decide) (by decide)⟩

/-! ## Counters and the exact shape of one loop iteration -/

theorem processResponse_stats (pf : Platform) (s s1 : PushController) (r : ApnsResponse)
    (h : s._processResponseFromApns pf r = some s1) :
    s1.numStatsError = s.numStatsError ∧ s1.numStatsDisconnected = s.numStatsDisconnected ∧
    s1.numStatsSent = s.numStatsSent ∧ s1.toSslController = s.toSslController := by
  unfold PushController._processResponseFromApns at h
  simp only at h
  split at h
  · cases h; exact ⟨rfl, rfl, rfl, rfl⟩
  · split at h
    · cases h; exact ⟨rfl, rfl, rfl, rfl⟩
    · rename_i p hf
      have hp := (findById_some s _ p hf).1
      simp only [PushController._removeMessageFromQueue, hp, not_true_eq_false, if_false,
        if_true, Option.some.injEq] at h
      subst h
      exact ⟨rfl, rfl, rfl, rfl⟩

theorem readResponse_stats (pf : Platform) (s s1 : PushController) (io : ReadIo) (n : Int)
    (h : s._readResponseFromApns pf io = some (s1, n)) :
    s1.numStatsError = s.numStatsError ∧ s1.numStatsDisconnected = s.numStatsDisconnected ∧
    s1.numStatsSent = s.numStatsSent ∧
    s1.toSslController = (s.toSslController.read io).1 ∧
    (n > 0 → n = (s.toSslController.read io).2) := by
  unfold PushController._readResponseFromApns at h
  simp only at h
  split at h
  · cases h
    exact ⟨rfl, rfl, rfl, rfl, fun hn => absurd hn (by decide)⟩
  · split at h
    · cases h
    · rename_i s2 hp
      simp only [Option.some.injEq, Prod.mk.injEq] at h
      obtain ⟨h, hn⟩ := h
      subst h
      have := processResponse_stats pf
        { s with toSslController := (s.toSslController.read io).1 } s2
        { command := (peek io.buf 0 1).headD 0
          status := (peek io.buf 1 1).headD 0
          identifier := peek io.buf 2 4 } hp
      exact ⟨this.1, this.2.1, this.2.2.1, this.2.2.2, fun _ => hn.symm⟩

theorem sendPayload_stats (pf : Platform) (s s2 : PushController) (p : Nat) (now : Int)
    (io : SendIo) (b : Bool) (hp : p ∈ s.messageStageQueue)
    (h : s._sendPayload pf p now io = some (s2, b)) :
    s2.numStatsError = s.numStatsError ∧ s2.numStatsDisconnected = s.numStatsDisconnected ∧
    ((s2.numStatsSent = s.numStatsSent ∧ s2.writeLog = s.writeLog ∧
        ((s.heap p).retry.2 = false ∨ (s.heap p).getPayload = none)) ∨
      (s2.numStatsSent = (s.numStatsSent + 1) % 2 ^ 32 ∧ (s.heap p).retry.2 = true ∧
        (s.heap p).getPayload ≠ none ∧
        ∃ pkt, s2.writeLog = s.writeLog ++ [WriteCall.mk p (s.heap p).retry.1 pkt])) := by
  cases hr : (s.heap p).retry.2 with
  | false =>
    rw [sendPayload_exhausted pf s p now io hp hr] at h
    cases h
    exact ⟨rfl, rfl, Or.inl ⟨rfl, rfl, Or.inl rfl⟩⟩
  | true =>
    cases hP : (s.heap p).getPayload with
    | none =>
      rw [sendPayload_payloadFailure pf s p now io hp hr hP] at h
      cases h
      exact ⟨rfl, rfl, Or.inl ⟨rfl, rfl, Or.inr rfl⟩⟩
    | some P =>
      cases hF : framePacket pf (s.heap p).retry.1 P now io.tmpi0 with
      | none =>
        rw [sendPayload_fault pf s p now io P hr hP hF] at h
        cases h
      | some pkt =>
        obtain ⟨s3, h1, h2, -, -, h5, -⟩ := sendPayload_write pf s p now io P pkt hr hP hF
        have hc : s3.numStatsError = s.numStatsError ∧
            s3.numStatsDisconnected = s.numStatsDisconnected := by
          have := h1
          simp only [PushController._sendPayload] at this
          have hP' : (s.heap p).retry.1.getPayload = some P := hP
          simp only [hr, hP', hF, Bool.not_true, Bool.false_eq_true, if_false,
            Option.some.injEq, Prod.mk.injEq] at this
          rw [← this.1]
          split <;> exact ⟨rfl, rfl⟩
        rw [h1] at h
        cases h
        exact ⟨hc.1, hc.2, Or.inr ⟨h5, rfl, by simp, pkt, h2⟩⟩

/-- One loop iteration: `_sendPayload` on the message moved to the stage
queue, `_readResponseFromApns`, and when that returned more than 0 the
`disconnect()` and the two counters. -/
theorem sendLoopBody_shape (pf : Platform) (now : Int) (io : LoopIo) (s s1 : PushController)
    (ptr : Nat) (h : s.sendLoopBody pf now io ptr = some s1) :
    ∃ s2 b rr n, ({ s with
        messageStageQueue := setInsert ptr s.messageStageQueue
        messageSendQueue := setErase ptr s.messageSendQueue })._sendPayload pf ptr now io.send
          = some (s2, b) ∧
      s2._readResponseFromApns pf io.read = some (rr, n) ∧
      responseBytes pf now io s ptr = some n ∧
      s1 = (if n > 0 then
          { rr with
            toSslController := (rr.toSslController.disconnect io.disc).1
            numStatsDisconnected := (rr.numStatsDisconnected + 1) % 2 ^ 32
            numStatsError := (rr.numStatsError + 1) % 2 ^ 32 }
        else rr) := by
  unfold PushController.sendLoopBody at h
  simp only at h
  split at h
  · cases h
  · rename_i r hr
    obtain ⟨s3, n, h3, -⟩ := readResponse_effect pf r.1 io.read
    rw [h3] at h
    simp only at h
    refine ⟨r.1, r.2, s3, n, hr, h3, ?_, ?_⟩
    · simp only [responseBytes, hr, h3, Option.map_some']
    · split at h
      · rename_i hn
        cases h
        rw [if_pos hn]
      · rename_i hn
        cases h
        rw [if_neg hn]

theorem sendLoopBody_sent (pf : Platform) (now : Int) (io : LoopIo) (s s1 : PushController)
    (ptr : Nat) (h : s.sendLoopBody pf now io ptr = some s1) :
    (s1.numStatsSent = s.numStatsSent ∧ s1.writeLog = s.writeLog) ∨
    (s1.numStatsSent = (s.numStatsSent + 1) % 2 ^ 32 ∧
      ∃ pkt, s1.writeLog = s.writeLog ++ [WriteCall.mk ptr (s.heap ptr).retry.1 pkt]) := by
  obtain ⟨s2, b, rr, n, h1, h2, -, h4⟩ := sendLoopBody_shape pf now io s s1 ptr h
  have hp : ptr ∈ ({ s with
      messageStageQueue := setInsert ptr s.messageStageQueue
      messageSendQueue := setErase ptr s.messageSendQueue } : PushController).messageStageQueue := by
    simp [mem_setInsert]
  obtain ⟨-, -, a⟩ := sendPayload_stats pf _ s2 ptr now io.send b hp h1
  obtain ⟨-, -, r3, -⟩ := readResponse_stats pf s2 rr io.read n h2
  obtain ⟨-, -, rm, -⟩ := readResponse_effect pf s2 io.read
  have rlog : rr.writeLog = s2.writeLog := by
    obtain ⟨s3, m, e, em, -⟩ := readResponse_effect pf s2 io.read
    rw [h2] at e
    cases e
    exact (errorMove_heap s2 rr em ptr).2.2.2.2.2.2
  have e1 : s1.numStatsSent = rr.numStatsSent ∧ s1.writeLog = rr.writeLog := by
    rw [h4]; split <;> exact ⟨rfl, rfl⟩
  rcases a with ⟨a1, a2, -⟩ | ⟨a1, -, -, pkt, a2⟩
  · left
    exact ⟨by rw [e1.1, r3, a1], by rw [e1.2, rlog, a2]⟩
  · right
    exact ⟨by rw [e1.1, r3, a1], pkt, by rw [e1.2, rlog, a2]⟩

theorem processMessageSendQueue_shape (pf : Platform) (s s1 : PushController) (io : TickIo)
    (h : s._processMessageSendQueue pf io = some s1) :
    (s.messageSendQueue = [] ∧ s1 = s) ∨
    (s.messageSendQueue ≠ [] ∧ s.connected = false ∧ io.connectOk = false ∧
      s1 = { s with
        toSslController := (s.toSslController.connect io.connectOk).1
        connectRetryTs := io.now + s.connectRetryTimeout }) ∨
    (s.messageSendQueue ≠ [] ∧ (s.connected = true ∨ io.connectOk = true) ∧
      ∃ s0, (s0 = s ∨ s0 = { s with toSslController := (s.toSslController.connect io.connectOk).1 })
        ∧ s0.connected = true ∧
        PushController.sendLoop pf io.now io.loop s.messageSendQueue 0 s0 = some s1) := by
  by_cases hne : s.messageSendQueue = []
  · left
    unfold PushController._processMessageSendQueue at h
    rw [if_pos hne] at h
    cases h
    exact ⟨hne, rfl⟩
  · right
    by_cases hc : s.connected = true ∨ io.connectOk = true
    · right
      refine ⟨hne, hc, ?_⟩
      unfold PushController._processMessageSendQueue at h
      simp only [hne, if_false] at h
      by_cases hcon : s.connected = true
      · have e : s.isConnected = true := hcon
        simp only [e, Bool.not_true, Bool.false_and, Bool.false_eq_true, if_false] at h
        exact ⟨s, Or.inl rfl, hcon, h⟩
      · have hok : io.connectOk = true := hc.resolve_left hcon
        have e2 : s.connected = false := by simpa using hcon
        have e : s.isConnected = false := e2
        have e3 : (s.toSslController.connect io.connectOk).2 = true := by
          simp [SslController.connect, SslController._connect, e2, hok]
        simp only [e, e3, Bool.not_false, Bool.not_true, Bool.and_false, Bool.false_eq_true,
          if_false, if_true] at h
        refine ⟨{ s with toSslController := (s.toSslController.connect io.connectOk).1 },
          Or.inr rfl, ?_, h⟩
        simp [SslController.connect, SslController._connect, e2, hok]
    · left
      have e2 : s.connected = false := by
        cases hx : s.connected with
        | true => exact absurd (Or.inl hx) hc
        | false => rfl
      have hok : io.connectOk = false := by
        cases hx : io.connectOk with
        | true => exact absurd (Or.inr hx) hc
        | false => rfl
      have e : s.isConnected = false := e2
      have e3 : (s.toSslController.connect io.connectOk).2 = false := by
        simp [SslController.connect, SslController._connect, e2, hok]
      unfold PushController._processMessageSendQueue at h
      simp only [hne, if_false, e, e3, Bool.not_false, Bool.and_self, if_true,
        Option.some.injEq] at h
      exact ⟨hne, e2, hok, h.symm⟩

theorem sendLoop_disconnected (pf : Platform) (now : Int) (io : Nat → LoopIo) (l : List Nat)
    (k : Nat) (s : PushController) (hc : s.connected = false) :
    PushController.sendLoop pf now io l k s = some s := by
  cases l with
  | nil => rfl
  | cons ptr rest =>
    unfold PushController.sendLoop
    have e : s.isConnected = false := hc
    simp [e]

set_option maxRecDepth 100000 in
/-- C23 fails as stated: the `break` after a response is commented out, and
the loop ends only through its test `isConnected()`. When the `disconnect()`
that follows the response fails (`SSL_shutdown` returns -1), the transport
stays connected and the drain goes on: here the response arrives after the
message at 10 was written, and the message at 20 of the same snapshot is
then moved out of the send queue and written too. -/
theorem c23_counterexample :
    twoMessageEngine.messageSendQueue = [10, 20] ∧
    (twoMessageEngine.run examplePlatform (responseFirstTick (-1))).map
        (fun r => (r.1.writeLog.map WriteCall.ptr,
          [r.1.messageSendQueue, r.1.messageStageQueue, r.1.messageErrorQueue],
          r.1.connected, r.1.numStatsError, r.1.numStatsDisconnected))
      = some ([10, 20], [[], [20], [10]], true, 1, 1) := by
  refine ⟨by decide, by decide⟩

/-- C23, as amended: once the read after a write returns at least one byte
and the `disconnect()` that follows succeeds (neither `SSL_shutdown` nor
`close` returns -1), the drain ends with that iteration: the transport is
disconnected, no call of `write` is made for another message, every message
of the rest of the snapshot that was in the send queue is still in it, and
the errors and disconnected counters have each grown by one (modulo 2^32).
The rest of `run()` does not touch the send queue. -/
theorem c23_response_ends_drain (pf : Platform) (now : Int) (io : Nat → LoopIo) (ptr : Nat)
    (rest : List Nat) (k : Nat) (s s1 : PushController) (n : Int)
    (hc : s.connected = true)
    (hn : responseBytes pf now (io k) s ptr = some n) (hpos : n > 0)
    (hd1 : (io k).disc.shutdownRet ≠ -1) (hd2 : (io k).disc.closeRet ≠ -1)
    (h : PushController.sendLoop pf now io (ptr :: rest) k s = some s1) :
    s.sendLoopBody pf now (io k) ptr = some s1 ∧
    s1.connected = false ∧
    (∀ q ∈ rest, q ≠ ptr → q ∈ s.messageSendQueue → q ∈ s1.messageSendQueue) ∧
    (∃ calls, s1.writeLog = s.writeLog ++ calls ∧ ∀ w ∈ calls, w.ptr = ptr) ∧
    s1.numStatsError = (s.numStatsError + 1) % 2 ^ 32 ∧
    s1.numStatsDisconnected = (s.numStatsDisconnected + 1) % 2 ^ 32 := by
  unfold PushController.sendLoop at h
  have e : s.isConnected = true := hc
  simp only [e, Bool.not_true, Bool.false_eq_true, if_false] at h
  cases hb : s.sendLoopBody pf now (io k) ptr with
  | none => simp [hb] at h
  | some u =>
    simp only [hb] at h
    obtain ⟨s2, b, rr, m, h1, h2, h3, h4⟩ := sendLoopBody_shape pf now (io k) s u ptr hb
    rw [hn] at h3
    cases h3
    rw [if_pos hpos] at h4
    have hp : ptr ∈ ({ s with
        messageStageQueue := setInsert ptr s.messageStageQueue
        messageSendQueue := setErase ptr s.messageSendQueue }
          : PushController).messageStageQueue := by
      simp [mem_setInsert]
    obtain ⟨a1, a2, -⟩ := sendPayload_stats pf _ s2 ptr now (io k).send b hp h1
    obtain ⟨r1, r2, -, -, -⟩ := readResponse_stats pf s2 rr (io k).read n h2
    have hu : u.connected = false := by
      rw [h4]
      cases hx : rr.connected <;>
        simp [SslController.disconnect, SslController._disconnect, SslController._deinitialize,
          hx, hd1, hd2]
    rw [sendLoop_disconnected pf now io rest (k + 1) u hu] at h
    simp only [Option.some.injEq] at h
    subst h
    refine ⟨rfl, hu, ?_, ?_, ?_, ?_⟩
    · intro q _ hq hs
      exact ((sendLoopBody_invariant pf now (io k) s u ptr hb).2.2.2 q hq).mpr hs
    · rcases sendLoopBody_log pf now (io k) s u ptr hb with a | ⟨pkt, a⟩
      · exact ⟨[], by rw [a, List.append_nil], fun w hw => absurd hw (List.not_mem_nil w)⟩
      · refine ⟨_, a, ?_⟩
        intro w hw
        rw [List.mem_singleton] at hw
        rw [hw]
    · rw [h4]
      show (rr.numStatsError + 1) % 2 ^ 32 = _
      rw [r1, a1]
    · rw [h4]
      show (rr.numStatsDisconnected + 1) % 2 ^ 32 = _
      rw [r2, a2]

set_option maxRecDepth 100000 in
theorem c23_response_ends_drain_witness :
    ({ twoMessageEngine with connected := true, initialized := true }
      : PushController).connected = true ∧
    responseBytes examplePlatform 1000 ((responseFirstTick 0).loop 0)
      { twoMessageEngine with connected := true, initialized := true } 10 = some 6 ∧
    (6 : Int) > 0 ∧
    ((responseFirstTick 0).loop 0).disc.shutdownRet ≠ -1 ∧
    ((responseFirstTick 0).loop 0).disc.closeRet ≠ -1 ∧
    ∃ s1, PushController.sendLoop examplePlatform 1000 (responseFirstTick 0).loop [10, 20] 0
        { twoMessageEngine with connected := true, initialized := true } = some s1 ∧
      ({ twoMessageEngine with connected := true, initialized := true }
        : PushController).sendLoopBody examplePlatform 1000 ((responseFirstTick 0).loop 0) 10
        = some s1 ∧
      s1.connected = false ∧
      (∀ q ∈ [20], q ≠ 10 → q ∈ twoMessageEngine.messageSendQueue → q ∈ s1.messageSendQueue) ∧
      (∃ calls, s1.writeLog = twoMessageEngine.writeLog ++ calls ∧ ∀ w ∈ calls, w.ptr = 10) ∧
      s1.numStatsError = (twoMessageEngine.numStatsError + 1) % 2 ^ 32 ∧
      s1.numStatsDisconnected = (twoMessageEngine.numStatsDisconnected + 1) % 2 ^ 32 := by
  have hs : (PushController.sendLoop examplePlatform 1000 (responseFirstTick 0).loop [10, 20] 0
      { twoMessageEngine with connected := true, initialized := true }).isSome = true := by
    decide
  obtain ⟨s1, hs⟩ := Option.isSome_iff_exists.mp hs
  exact ⟨rfl, by decide, by decide, by decide, by decide, s1, hs,
    c23_response_ends_drain examplePlatform 1000 (responseFirstTick 0).loop 10 [20] 0
      { twoMessageEngine with connected := true, initialized := true } s1 6 rfl (by decide)
      (by decide) (by decide) (by decide) hs⟩

/-! ## The retries counter -/

theorem retry_refused_iff (m : ApnsMessage) :
    m.retry.2 = false ↔ (m.retries + 1) % 2 ^ 32 > m.maxRetries := by
  simp [ApnsMessage.retry]

theorem retry_retries (m : ApnsMessage) : m.retry.1.retries = (m.retries + 1) % 2 ^ 32 := rfl

/-- The next drain on a message whose retry check fails: the send loop moves
it to the stage queue and `_sendPayload` discards it without a write. -/
theorem restaged_discard (pf : Platform) (t : PushController) (p : Nat) (now : Int) (io : SendIo)
    (hr : (t.heap p).retry.2 = false) :
    ∃ t2, ({ t with
        messageStageQueue := setInsert p t.messageStageQueue
        messageSendQueue := setErase p t.messageSendQueue })._sendPayload pf p now io
          = some (t2, false) ∧
      t2.writeLog = t.writeLog ∧ (t2.heap p).error = (t.heap p).error ∧
      p ∉ t2.messageSendQueue ∧ p ∉ t2.messageStageQueue ∧
      (p ∉ t.messageErrorQueue → p ∉ t2.messageErrorQueue) ∧ p ∈ t2.destroyed := by
  have hp : p ∈ ({ t with
      messageStageQueue := setInsert p t.messageStageQueue
      messageSendQueue := setErase p t.messageSendQueue } : PushController).messageStageQueue := by
    simp [mem_setInsert]
  refine ⟨_, sendPayload_exhausted pf _ p now io hp hr, rfl, ?_, ?_, ?_, fun h => h, ?_⟩
  · simp [ApnsMessage.retry]
  · simp [mem_setErase]
  · simp [mem_setErase]
  · simp [mem_setInsert]

theorem sendPayload_total (pf : Platform) (s : PushController) (p : Nat) (now : Int)
    (io : SendIo) (hp : p ∈ s.messageStageQueue)
    (hfit : ∀ P, (s.heap p).getPayload = some P →
      (framePacket pf (s.heap p).retry.1 P now io.tmpi0).isSome = true) :
    ∃ s1 b, s._sendPayload pf p now io = some (s1, b) := by
  cases hr : (s.heap p).retry.2 with
  | false => exact ⟨_, _, sendPayload_exhausted pf s p now io hp hr⟩
  | true =>
    cases hP : (s.heap p).getPayload with
    | none => exact ⟨_, _, sendPayload_payloadFailure pf s p now io hp hr hP⟩
    | some P =>
      obtain ⟨pkt, hF⟩ := Option.isSome_iff_exists.mp (hfit P hP)
      obtain ⟨s1, h1, -⟩ := sendPayload_write pf s p now io P pkt hr hP hF
      exact ⟨s1, _, h1⟩

/-- C24: `_sendPayload`, called on the staged message, discards it if and
only if its retries counter incremented by one (as the `unsigned int` it is)
exceeds max_retries: in that case it returns without a call of `write`, the
error field is as before, and the message is deleted and in none of the
send, stage and error queues; in the other case the message is afterwards
in one of the three queues. With max_retries = 1 and retries = 0, a message
whose write is short goes back to the send queue, and the `_sendPayload` of
the next drain discards it. -/
theorem c24_discard_iff_retries_exhausted (pf : Platform) (s : PushController) (p : Nat)
    (now : Int) (io : SendIo) (hp : p ∈ s.messageStageQueue) (hs : p ∉ s.messageSendQueue)
    (he : p ∉ s.messageErrorQueue) :
    ((s.heap p).retries + 1 < 2 ^ 32 →
      ((s.heap p).retry.2 = false ↔ (s.heap p).retries + 1 > (s.heap p).maxRetries)) ∧
    ((s.heap p).retry.2 = false ↔
      ((s.heap p).retries + 1) % 2 ^ 32 > (s.heap p).maxRetries) ∧
    (((s.heap p).retries + 1) % 2 ^ 32 > (s.heap p).maxRetries →
      ∃ s1, s._sendPayload pf p now io = some (s1, false) ∧ s1.writeLog = s.writeLog ∧
        (s1.heap p).error = (s.heap p).error ∧ p ∈ s1.destroyed ∧
        p ∉ s1.messageSendQueue ∧ p ∉ s1.messageStageQueue ∧ p ∉ s1.messageErrorQueue) ∧
    (¬ ((s.heap p).retries + 1) % 2 ^ 32 > (s.heap p).maxRetries →
      ∀ s1 b, s._sendPayload pf p now io = some (s1, b) →
        p ∈ s1.messageSendQueue ∨ p ∈ s1.messageStageQueue ∨ p ∈ s1.messageErrorQueue) ∧
    ((s.heap p).maxRetries = 1 → (s.heap p).retries = 0 →
      ∀ P packet, (s.heap p).getPayload = some P →
        framePacket pf (s.heap p).retry.1 P now io.tmpi0 = some packet →
        (s.toSslController.write io.write).2 ≠ ((OFF_PAYLOAD + P.length : Nat) : Int) →
        ∃ s1 b, s._sendPayload pf p now io = some (s1, b) ∧ p ∈ s1.messageSendQueue ∧
          s1.writeLog = s.writeLog ++ [WriteCall.mk p (s.heap p).retry.1 packet] ∧
          ∀ (now2 : Int) (io2 : SendIo), ∃ s2, ({ s1 with
              messageStageQueue := setInsert p s1.messageStageQueue
              messageSendQueue := setErase p s1.messageSendQueue })._sendPayload pf p now2 io2
                = some (s2, false) ∧
            s2.writeLog = s1.writeLog ∧ p ∈ s2.destroyed ∧
            p ∉ s2.messageSendQueue ∧ p ∉ s2.messageStageQueue ∧
            p ∉ s2.messageErrorQueue) := by
  have hiff := retry_refused_iff (s.heap p)
  refine ⟨?_, hiff, ?_, ?_, ?_⟩
  · intro hlt
    rw [hiff, Nat.mod_eq_of_lt hlt]
  · intro hx
    have hr := hiff.mpr hx
    refine ⟨_, sendPayload_exhausted pf s p now io hp hr, rfl, ?_, ?_, hs, ?_, he⟩
    · simp [ApnsMessage.retry]
    · simp [mem_setInsert]
    · simp [mem_setErase]
  · intro hx s1 b h
    have hr : (s.heap p).retry.2 = true := by
      cases hc : (s.heap p).retry.2 with
      | true => rfl
      | false => exact absurd (hiff.mp hc) hx
    rcases (sendPayload_effect pf s s1 p now io b hp h).1 with
      ⟨a, -⟩ | ⟨-, -, -, -, a, -⟩ | ⟨-, -, a, -⟩ | ⟨-, -, -, a, -⟩
    · rw [hr] at a; cases a
    · right; right; rw [a, mem_setInsert]; exact Or.inl rfl
    · left; rw [a, mem_setInsert]; exact Or.inl rfl
    · right; left; rw [a]; exact hp
  · intro hm h0 P packet hP hF hw
    have hr : (s.heap p).retry.2 = true := by
      simp [ApnsMessage.retry, hm, h0]
    obtain ⟨s1, h1, h2, h3, -, -, h6, -, h8⟩ := sendPayload_write pf s p now io P packet hr hP hF
    rw [if_pos (Or.inr hw)] at h8
    refine ⟨s1, _, h1, by rw [h8.2, mem_setInsert]; exact Or.inl rfl, h2, ?_⟩
    intro now2 io2
    have hr1 : (s1.heap p).retry.2 = false := by
      rw [h3]
      simp [ApnsMessage.retry, hm, h0]
    obtain ⟨t2, k1, k2, -, k4, k5, k6, k7⟩ := restaged_discard pf s1 p now2 io2 hr1
    exact ⟨t2, k1, k2, k7, k4, k5, k6 (by rw [h6]; exact he)⟩

set_option maxRecDepth 100000 in
theorem c24_discard_iff_retries_exhausted_witness :
    10 ∈ oneRetryStaged.messageStageQueue ∧ 10 ∉ oneRetryStaged.messageSendQueue ∧
    10 ∉ oneRetryStaged.messageErrorQueue ∧
    (oneRetryStaged.heap 10).maxRetries = 1 ∧ (oneRetryStaged.heap 10).retries = 0 ∧
    (PushController.exec examplePlatform oneRetryEngine [Op.run blockedTick]).map
        (fun s => (s.writeLog.map WriteCall.ptr,
          [s.messageSendQueue, s.messageStageQueue, s.messageErrorQueue, s.destroyed]))
      = some ([10], [[10], [], [], []]) ∧
    (PushController.exec examplePlatform oneRetryEngine [Op.run blockedTick, Op.run blockedTick]
        ).map
        (fun s => (s.writeLog.map WriteCall.ptr,
          [s.messageSendQueue, s.messageStageQueue, s.messageErrorQueue, s.destroyed]))
      = some ([10], [[], [], [], [10]]) ∧
    ((oneRetryStaged.heap 10).maxRetries = 1 → (oneRetryStaged.heap 10).retries = 0 →
      ∀ P packet, (oneRetryStaged.heap 10).getPayload = some P →
        framePacket examplePlatform (oneRetryStaged.heap 10).retry.1 P 1000
          blockedLoopIo.send.tmpi0 = some packet →
        (oneRetryStaged.toSslController.write blockedLoopIo.send.write).2
          ≠ ((OFF_PAYLOAD + P.length : Nat) : Int) →
        ∃ s1 b, oneRetryStaged._sendPayload examplePlatform 10 1000 blockedLoopIo.send
            = some (s1, b) ∧ 10 ∈ s1.messageSendQueue ∧
          s1.writeLog = oneRetryStaged.writeLog
            ++ [WriteCall.mk 10 (oneRetryStaged.heap 10).retry.1 packet] ∧
          ∀ (now2 : Int) (io2 : SendIo), ∃ s2, ({ s1 with
              messageStageQueue := setInsert 10 s1.messageStageQueue
              messageSendQueue := setErase 10 s1.messageSendQueue })._sendPayload examplePlatform
                10 now2 io2 = some (s2, false) ∧
            s2.writeLog = s1.writeLog ∧ 10 ∈ s2.destroyed ∧
            10 ∉ s2.messageSendQueue ∧ 10 ∉ s2.messageStageQueue ∧
            10 ∉ s2.messageErrorQueue) :=
  ⟨by decide, by decide, by decide, by decide, by decide, by decide, by decide,
    (c24_discard_iff_retries_exhausted examplePlatform oneRetryStaged 10 1000 blockedLoopIo.send
      (by decide) (by decide) (by decide)).2.2.2.2⟩

/-- C25: every call of `_sendPayload` on a staged message (whose token, when
a packet is framed, fits the packet struct) returns, and the message's
retries counter is then its value before the call plus one modulo 2^32, on
each of the four paths: retry refused, payload failure, short write, full
write. `retry()` returns false exactly when the incremented value exceeds
max_retries. -/
theorem c25_every_call_increments_retries (pf : Platform) (s : PushController) (p : Nat)
    (now : Int) (io : SendIo) (hp : p ∈ s.messageStageQueue)
    (hfit : ∀ P, (s.heap p).getPayload = some P →
      (framePacket pf (s.heap p).retry.1 P now io.tmpi0).isSome = true) :
    (∃ s1 b, s._sendPayload pf p now io = some (s1, b) ∧
      (s1.heap p).retries = ((s.heap p).retries + 1) % 2 ^ 32 ∧ SendOutcome s p s1) ∧
    (∀ s1 b, s._sendPayload pf p now io = some (s1, b) →
      (s1.heap p).retries = ((s.heap p).retries + 1) % 2 ^ 32) ∧
    (s.heap p).retry.1.retries = ((s.heap p).retries + 1) % 2 ^ 32 ∧
    ((s.heap p).retry.2 = false ↔
      ((s.heap p).retries + 1) % 2 ^ 32 > (s.heap p).maxRetries) := by
  have all : ∀ s1 b, s._sendPayload pf p now io = some (s1, b) →
      (s1.heap p).retries = ((s.heap p).retries + 1) % 2 ^ 32 ∧ SendOutcome s p s1 := by
    intro s1 b h
    have ho := (sendPayload_effect pf s s1 p now io b hp h).1
    exact ⟨(sendOutcome_heap s s1 p ho p).2.2.2.2.2, ho⟩
  obtain ⟨s1, b, h⟩ := sendPayload_total pf s p now io hp hfit
  exact ⟨⟨s1, b, h, all s1 b h⟩, fun t c ht => (all t c ht).1, rfl, retry_refused_iff _⟩

theorem c25_every_call_increments_retries_witness :
    10 ∈ exampleStaged.messageStageQueue ∧ (exampleStaged.heap 10).retries = 0 ∧
    (∃ s1 b, exampleStaged._sendPayload examplePlatform 10 1000 exampleSendIo = some (s1, b) ∧
      (s1.heap 10).retries = ((exampleStaged.heap 10).retries + 1) % 2 ^ 32 ∧
      SendOutcome exampleStaged 10 s1) := by
  have hP : (exampleStaged.heap 10).getPayload = some happyPayload := by decide
  exact ⟨by decide, by decide,
    (c25_every_call_increments_retries examplePlatform exampleStaged 10 1000 exampleSendIo
      (by decide) (by
        intro P h
        rw [hP] at h
        cases h
        decide)).1⟩

theorem expireIdle_scalars (s : PushController) (now : Int) (io : DisconnectIo) :
    (s._expireIdleConnection now io).connectRetryTs = s.connectRetryTs ∧
    (s._expireIdleConnection now io).numStatsSent = s.numStatsSent := by
  unfold PushController._expireIdleConnection
  split
  · exact ⟨rfl, rfl⟩
  · split <;> exact ⟨rfl, rfl⟩

theorem run_backoff (pf : Platform) (s : PushController) (io : TickIo)
    (h : io.now < s.connectRetryTs) : s.run pf io = some (s, false) := by
  unfold PushController.run
  rw [if_pos h]

theorem processMessageSendQueue_failedConnect (pf : Platform) (s : PushController) (io : TickIo)
    (hne : s.messageSendQueue ≠ []) (hc : s.connected = false) (hfail : io.connectOk = false) :
    s._processMessageSendQueue pf io = some
      { s with
        toSslController := { initialized := false, connected := false }
        connectRetryTs := io.now + s.connectRetryTimeout } := by
  unfold PushController._processMessageSendQueue
  have e : s.isConnected = false := hc
  simp [hne, e, SslController.connect, SslController._connect, SslController._deinitialize, hc,
    hfail]

/-- C27: when the send queue is non-empty, the transport is not connected
and `connect()` fails, the drain returns without a call of `write`, with the
three queues and every message (its retries counter included) as before, the
transport not connected and connectRetryTs = now + connectRetryTimeout,
which the constructor sets to 60; the tick ends with that value in place and
every later `run()` at an earlier clock reading returns false and changes
nothing. When the send queue is empty the drain returns at once, whatever
`connect()` would answer. -/
theorem c27_failed_connect_backs_off (pf : Platform) (s : PushController) (io : TickIo)
    (hne : s.messageSendQueue ≠ []) (hc : s.connected = false) (hfail : io.connectOk = false)
    (hb : ¬ io.now < s.connectRetryTs) :
    (∃ s1, s._processMessageSendQueue pf io = some s1 ∧ s1.writeLog = s.writeLog ∧
      s1.messageSendQueue = s.messageSendQueue ∧ s1.messageStageQueue = s.messageStageQueue ∧
      s1.messageErrorQueue = s.messageErrorQueue ∧ s1.heap = s.heap ∧
      s1.connected = false ∧ s1.connectRetryTs = io.now + s.connectRetryTimeout) ∧
    (∃ s1, s.run pf io = some (s1, true) ∧ s1.writeLog = s.writeLog ∧
      s1.messageSendQueue = s.messageSendQueue ∧ s1.heap = s.heap ∧
      s1.connectRetryTs = io.now + s.connectRetryTimeout ∧
      ∀ io2 : TickIo, io2.now < io.now + s.connectRetryTimeout →
        s1.run pf io2 = some (s1, false)) ∧
    (∀ (timeout now connectRetryTs0 : Int) (heap0 : Nat → ApnsMessage),
      (PushController.new timeout now connectRetryTs0 heap0).connectRetryTimeout = 60) ∧
    (∀ (t : PushController) (io2 : TickIo), t.messageSendQueue = [] →
      t._processMessageSendQueue pf io2 = some t) := by
  refine ⟨⟨_, processMessageSendQueue_failedConnect pf s io hne hc hfail, rfl, rfl, rfl, rfl, rfl,
    rfl, rfl⟩, ?_, fun _ _ _ _ => rfl, ?_⟩
  · have key : ∀ s0 : PushController, s0.messageSendQueue = s.messageSendQueue →
        s0.connected = s.connected → s0.connectRetryTimeout = s.connectRetryTimeout →
        s0.writeLog = s.writeLog → s0.heap = s.heap →
        ∃ s1, (s0._processMessageSendQueue pf io).map
            (fun s2 => (expiryPasses (s2._expireIdleConnection io.now io.idleDisc) io.now, true))
          = some (s1, true) ∧ s1.writeLog = s.writeLog ∧
          s1.messageSendQueue = s.messageSendQueue ∧ s1.heap = s.heap ∧
          s1.connectRetryTs = io.now + s.connectRetryTimeout := by
      intro s0 h1 h2 h3 h4 h5
      rw [processMessageSendQueue_failedConnect pf s0 io (by rw [h1]; exact hne)
        (by rw [h2]; exact hc) hfail]
      refine ⟨_, rfl, ?_, ?_, ?_, ?_⟩
      · rw [(expiryPasses_effect _ io.now).2.2.1, (expireIdle_same _ io.now io.idleDisc).2.2.2.2.2]
        exact h4
      · rw [(expiryPasses_effect _ io.now).2.1, (expireIdle_same _ io.now io.idleDisc).1]
        exact h1
      · rw [(expiryPasses_effect _ io.now).1, (expireIdle_same _ io.now io.idleDisc).2.2.2.2.1]
        exact h5
      · show (PushController._expireIdleConnection _ io.now io.idleDisc).connectRetryTs = _
        rw [(expireIdle_scalars _ io.now io.idleDisc).1]
        show io.now + s0.connectRetryTimeout = _
        rw [h3]
    rw [run_eq, if_neg hb]
    have hk : ∃ s1, ((if io.now > s.logStatsTs then s._logStats io.now
          else s)._processMessageSendQueue pf io).map
            (fun s2 => (expiryPasses (s2._expireIdleConnection io.now io.idleDisc) io.now, true))
          = some (s1, true) ∧ s1.writeLog = s.writeLog ∧
          s1.messageSendQueue = s.messageSendQueue ∧ s1.heap = s.heap ∧
          s1.connectRetryTs = io.now + s.connectRetryTimeout := by
      split
      · exact key _ rfl rfl rfl rfl rfl
      · exact key _ rfl rfl rfl rfl rfl
    obtain ⟨s1, k1, k2, k3, k4, k5⟩ := hk
    exact ⟨s1, k1, k2, k3, k4, k5, fun io2 h2 => run_backoff pf s1 io2 (by rw [k5]; exact h2)⟩
  · intro t io2 ht
    unfold PushController._processMessageSendQueue
    rw [if_pos ht]

theorem c27_failed_connect_backs_off_witness :
    exampleEngine.messageSendQueue ≠ [] ∧ exampleEngine.connected = false ∧
    failedConnectTick.connectOk = false ∧
    ¬ failedConnectTick.now < exampleEngine.connectRetryTs ∧
    ∃ s1, exampleEngine.run examplePlatform failedConnectTick = some (s1, true) ∧
      s1.writeLog = exampleEngine.writeLog ∧
      s1.messageSendQueue = exampleEngine.messageSendQueue ∧ s1.heap = exampleEngine.heap ∧
      s1.connectRetryTs = failedConnectTick.now + exampleEngine.connectRetryTimeout ∧
      ∀ io2 : TickIo, io2.now < failedConnectTick.now + exampleEngine.connectRetryTimeout →
        s1.run examplePlatform io2 = some (s1, false) :=
  ⟨by decide, by decide, by decide, by decide,
    (c27_failed_connect_backs_off examplePlatform exampleEngine failedConnectTick (by decide)
      (by decide) (by decide) (by decide)).2.1⟩

/-- C28: for every response whose command byte is not 8, and for every
response whose identifier is the id of no message in the stage queue,
`_processResponseFromApns` returns with the engine as it was: the three
queues and every message's error field are unchanged. -/
theorem c28_other_responses_change_nothing (pf : Platform) (s : PushController)
    (r : ApnsResponse)
    (h : charToInt pf r.command ≠ ERROR_RESPONSE_COMMAND ∨
      ∀ q ∈ s.messageStageQueue, (s.heap q).id ≠ ntohl pf (memValue pf r.identifier)) :
    s._processResponseFromApns pf r = some s := by
  unfold PushController._processResponseFromApns
  simp only
  by_cases hc : charToInt pf r.command ≠ ERROR_RESPONSE_COMMAND
  · rw [if_pos hc]
  · rw [if_neg hc]
    have hq := h.resolve_left hc
    have hf : s._findById (ntohl pf (memValue pf r.identifier)) = none := by
      unfold PushController._findById
      rw [List.find?_eq_none]
      intro q hqs
      simpa using hq q hqs
    rw [hf]

theorem c28_other_responses_change_nothing_witness :
    charToInt examplePlatform 7 ≠ ERROR_RESPONSE_COMMAND ∧
    (∀ q ∈ exampleStaged.messageStageQueue,
      (exampleStaged.heap q).id ≠ ntohl examplePlatform (memValue examplePlatform [0, 0, 0, 2])) ∧
    exampleStaged.messageStageQueue = [10] ∧
    exampleStaged._processResponseFromApns examplePlatform
      { command := 7, status := 8, identifier := [0, 0, 0, 1] } = some exampleStaged ∧
    exampleStaged._processResponseFromApns examplePlatform
      { command := 8, status := 8, identifier := [0, 0, 0, 2] } = some exampleStaged :=
  ⟨by decide, by decide, by decide,
    c28_other_responses_change_nothing examplePlatform exampleStaged
      { command := 7, status := 8, identifier := [0, 0, 0, 1] } (Or.inl (by decide)),
    c28_other_responses_change_nothing examplePlatform exampleStaged
      { command := 8, status := 8, identifier := [0, 0, 0, 2] } (Or.inr (by decide))⟩

/-- C29 does not hold on the code: the constructor assigns every timer
member except `_connectRetryTs`, which `run()` reads first. Where the
storage of a new engine holds a value above the clock reading in that
member (here 2^62, clock 1000), the first `run()` is treated as backoff: it
returns false and sends nothing, with a message waiting and a transport
that would connect. Whenever the value is not above the clock reading the
first `run()` returns true, and `run()` returns false only in backoff. -/
theorem c29_first_run_reads_unset_retry_time :
    ((garbageEngine.construct 10 exampleMessage).add 10 1000).run examplePlatform exampleTick
      = some ((garbageEngine.construct 10 exampleMessage).add 10 1000, false) ∧
    ((garbageEngine.construct 10 exampleMessage).add 10 1000).messageSendQueue = [10] ∧
    exampleTick.connectOk = true ∧
    (∀ (pf : Platform) (timeout now connectRetryTs0 : Int) (heap0 : Nat → ApnsMessage)
      (io : TickIo), connectRetryTs0 ≤ io.now →
      ∃ s1, (PushController.new timeout now connectRetryTs0 heap0).run pf io = some (s1, true)) ∧
    (∀ (pf : Platform) (s s1 : PushController) (io : TickIo),
      s.run pf io = some (s1, false) → io.now < s.connectRetryTs) := by
  refine ⟨run_backoff _ _ _ (by decide), by decide, rfl, ?_, ?_⟩
  · intro pf timeout now crt heap0 io hle
    have hb : ¬ io.now < (PushController.new timeout now crt heap0).connectRetryTs := by
      show ¬ io.now < crt
      omega
    have hq : ∀ t : PushController, t.messageSendQueue = [] →
        t._processMessageSendQueue pf io = some t := by
      intro t ht
      unfold PushController._processMessageSendQueue
      rw [if_pos ht]
    rw [run_eq, if_neg hb]
    split
    · rw [hq _ rfl]
      exact ⟨_, rfl⟩
    · rw [hq _ rfl]
      exact ⟨_, rfl⟩
  · intro pf s s1 io h
    rcases run_some pf s s1 io false h with ⟨hb, -, -⟩ | ⟨-, hf, -⟩
    · exact hb
    · cases hf

theorem sendLoop_sent (pf : Platform) (now : Int) (io : Nat → LoopIo) (l : List Nat) (k : Nat)
    (s s1 : PushController) (hlt : s.numStatsSent < 2 ^ 32)
    (h : PushController.sendLoop pf now io l k s = some s1) :
    ∃ calls, s1.writeLog = s.writeLog ++ calls ∧
      s1.numStatsSent = (s.numStatsSent + calls.length) % 2 ^ 32 :=
  sendLoop_induct pf now io
    (fun _ u => ∃ calls, u.writeLog = s.writeLog ++ calls ∧
      u.numStatsSent = (s.numStatsSent + calls.length) % 2 ^ 32)
    (fun _ _ _ hu => hu)
    (by
      intro ptr rest k u u1 ⟨calls, hc, hn⟩ _ hb
      rcases sendLoopBody_sent pf now (io k) u u1 ptr hb with ⟨a1, a2⟩ | ⟨a1, pkt, a2⟩
      · exact ⟨calls, by rw [a2, hc], by rw [a1, hn]⟩
      · refine ⟨calls ++ [WriteCall.mk ptr (u.heap ptr).retry.1 pkt], ?_, ?_⟩
        · rw [a2, hc, List.append_assoc]
        · rw [a1, hn, List.length_append, List.length_singleton]
          omega)
    l k s s1 ⟨[], by simp, by
      rw [List.length_nil, Nat.add_zero, Nat.mod_eq_of_lt hlt]⟩ h

/-- C30: within one tick that does not reset the statistics, the sent
counter (an `unsigned int`) grows by exactly the number of `write()` calls
made, modulo 2^32, whatever each call returned; a `_sendPayload` that
discards the message for retry exhaustion or moves it to the error queue
for payload failure makes no call of `write` and leaves the counter as it
was, and every other `_sendPayload` makes one call and adds one. -/
theorem c30_sent_counter_counts_writes (pf : Platform) (s s1 : PushController) (io : TickIo)
    (b : Bool) (hlt : s.numStatsSent < 2 ^ 32) (hreset : ¬ io.now > s.logStatsTs)
    (h : s.run pf io = some (s1, b)) :
    (∃ calls, s1.writeLog = s.writeLog ++ calls ∧
      s1.numStatsSent = (s.numStatsSent + calls.length) % 2 ^ 32 ∧
      (s.numStatsSent + calls.length < 2 ^ 32 →
        s1.numStatsSent = s.numStatsSent + calls.length)) ∧
    (∀ (t t1 : PushController) (p : Nat) (now : Int) (sio : SendIo) (c : Bool),
      p ∈ t.messageStageQueue → t._sendPayload pf p now sio = some (t1, c) →
      ((t.heap p).retry.2 = false ∨ (t.heap p).getPayload = none →
        t1.numStatsSent = t.numStatsSent ∧ t1.writeLog = t.writeLog) ∧
      ((t.heap p).retry.2 = true → (t.heap p).getPayload ≠ none →
        t1.numStatsSent = (t.numStatsSent + 1) % 2 ^ 32 ∧
        ∃ pkt, t1.writeLog = t.writeLog ++ [WriteCall.mk p (t.heap p).retry.1 pkt])) := by
  constructor
  · have key : ∃ calls, s1.writeLog = s.writeLog ++ calls ∧
        s1.numStatsSent = (s.numStatsSent + calls.length) % 2 ^ 32 := by
      have z : s.numStatsSent = (s.numStatsSent + ([] : List WriteCall).length) % 2 ^ 32 := by
        rw [List.length_nil, Nat.add_zero, Nat.mod_eq_of_lt hlt]
      rw [run_eq, if_neg hreset] at h
      split at h
      · simp only [Option.some.injEq, Prod.mk.injEq] at h
        obtain ⟨h, -⟩ := h
        subst h
        exact ⟨[], by simp, z⟩
      · cases hp : s._processMessageSendQueue pf io with
        | none => simp [hp] at h
        | some s2 =>
          simp only [hp, Option.map_some', Option.some.injEq, Prod.mk.injEq] at h
          obtain ⟨h, -⟩ := h
          subst h
          have e1 : (expiryPasses (s2._expireIdleConnection io.now io.idleDisc)
              io.now).numStatsSent = s2.numStatsSent :=
            (expireIdle_scalars s2 io.now io.idleDisc).2
          have e2 : (expiryPasses (s2._expireIdleConnection io.now io.idleDisc)
              io.now).writeLog = s2.writeLog := by
            rw [(expiryPasses_effect _ io.now).2.2.1,
              (expireIdle_same s2 io.now io.idleDisc).2.2.2.2.2]
          rw [e1, e2]
          rcases processMessageSendQueue_shape pf s s2 io hp with
            ⟨-, e⟩ | ⟨-, -, -, e⟩ | ⟨-, -, s0, hs0, -, hl⟩
          · subst e
            exact ⟨[], by simp, z⟩
          · subst e
            exact ⟨[], by simp, z⟩
          · have h0 : s0.writeLog = s.writeLog ∧ s0.numStatsSent = s.numStatsSent := by
              rcases hs0 with rfl | rfl
              · exact ⟨rfl, rfl⟩
              · exact ⟨rfl, rfl⟩
            obtain ⟨calls, c1, c2⟩ := sendLoop_sent pf io.now io.loop _ 0 s0 s2
              (by rw [h0.2]; exact hlt) hl
            exact ⟨calls, by rw [c1, h0.1], by rw [c2, h0.2]⟩
    obtain ⟨calls, c1, c2⟩ := key
    exact ⟨calls, c1, c2, fun hs => by rw [c2, Nat.mod_eq_of_lt hs]⟩
  · intro t t1 p now sio c hp ht
    obtain ⟨-, -, a⟩ := sendPayload_stats pf t t1 p now sio c hp ht
    constructor
    · intro hx
      rcases a with ⟨a1, a2, -⟩ | ⟨-, a2, a3, -⟩
      · exact ⟨a1, a2⟩
      · rcases hx with hx | hx
        · rw [hx] at a2; cases a2
        · exact absurd hx a3
    · intro hr hP
      rcases a with ⟨-, -, a3⟩ | ⟨a1, -, -, a4⟩
      · rcases a3 with a3 | a3
        · rw [hr] at a3; cases a3
        · exact absurd a3 hP
      · exact ⟨a1, a4⟩

set_option maxRecDepth 100000 in
theorem c30_sent_counter_counts_writes_witness :
    exampleEngine.numStatsSent < 2 ^ 32 ∧ ¬ exampleTick.now > exampleEngine.logStatsTs ∧
    ∃ s1 b, exampleEngine.run examplePlatform exampleTick = some (s1, b) ∧
      s1.writeLog.length = 1 ∧ s1.numStatsSent = 1 ∧
      ∃ calls, s1.writeLog = exampleEngine.writeLog ++ calls ∧
        s1.numStatsSent = (exampleEngine.numStatsSent + calls.length) % 2 ^ 32 ∧
        (exampleEngine.numStatsSent + calls.length < 2 ^ 32 →
          s1.numStatsSent = exampleEngine.numStatsSent + calls.length) := by
  have hs : (exampleEngine.run examplePlatform exampleTick).isSome = true := by decide
  have hq : (exampleEngine.run examplePlatform exampleTick).map
      (fun r => (r.1.writeLog.length, r.1.numStatsSent)) = some (1, 1) := by decide
  obtain ⟨r, hr⟩ := Option.isSome_iff_exists.mp hs
  rw [hr] at hq
  simp only [Option.map_some', Option.some.injEq, Prod.mk.injEq] at hq
  exact ⟨by decide, by decide, r.1, r.2, hr, hq.1, hq.2,
    (c30_sent_counter_counts_writes examplePlatform exampleEngine r.1 exampleTick r.2
      (by decide) (by decide) hr).1⟩

end Apns
